import Mathlib

/-!
# Verification of the piston harness-generation core

Shallow embedding of the test-runner generation core of the piston code
execution service (call-expression pre-parsing, per-language generators,
registry dispatch, and the comparators/serializers embedded in the
generated runner programs), together with proofs and refutations of the
specification claims.

Machine doubles are modelled by `Piston.FP`: an exact rational for finite
values plus NaN and the two signed infinities.  JavaScript / Python / C++
runtime values are modelled by per-language inductive value types.  String
scanning functions (`convertPythonTuplesToArrays`, `protectFloatLiterals`)
are translated to structurally recursive functions on `List Char`.
-/

namespace Piston

/-! ## Shared model of IEEE-754 binary64 values

Finite doubles are represented by exact rationals (every binary64 finite
value is a rational; rounding of literals is outside the scope of the
claims).  NaN payloads and signed zeros are not distinguished. -/

/-- A machine double: finite (exact rational), NaN, or a signed infinity. -/
inductive FP where
  | finite (v : ℚ)
  | nan
  | posInf
  | negInf
deriving DecidableEq, Repr

/-- IEEE-754 `==` on doubles (as JS `===` on numbers, C++ `==` on doubles):
NaN compares unequal to everything, infinities compare by sign,
finite values by numeric value. -/
def FP.ieeeEq : FP → FP → Bool
  | .finite a, .finite b => a == b
  | .posInf, .posInf => true
  | .negInf, .negInf => true
  | _, _ => false

/-- `isnan` / `Number.isNaN` / `math.isnan`. -/
def FP.isNan : FP → Bool
  | .nan => true
  | _ => false

/-- `isinf` / `math.isinf`: true exactly on the two infinities. -/
def FP.isInf : FP → Bool
  | .posInf => true
  | .negInf => true
  | _ => false

/-- The comparison `x > 0` on a double (NaN > 0 is false). -/
def FP.gtZero : FP → Bool
  | .finite v => 0 < v
  | .posInf => true
  | _ => false

/-- The comparison `x < 0` on a double (NaN < 0 is false). -/
def FP.ltZero : FP → Bool
  | .finite v => v < 0
  | .negInf => true
  | _ => false

/-! ## C1: the strict C++ backend comparator `compareResults`

Embeds the nlohmann-json value model and the `compareResults` template
specializations from the generated C++ runner
(`src/api/src/generators/cpp.js` and its stdin-based variant). -/

/-- Model of an `nlohmann::json` value as produced by `json::parse`:
integer and floating numbers are distinct storage kinds
(`is_number_integer` vs `is_number_float`). -/
inductive CppJson where
  | null
  | boolean (b : Bool)
  | numInt (n : ℤ)
  | numFloat (d : FP)
  | str (s : String)
  | arr (elems : List CppJson)
  | obj (members : List (String × CppJson))
deriving Repr

mutual

/-- Structural equality of `nlohmann::json` values (`operator==`). -/
def CppJson.beq : CppJson → CppJson → Bool
  | .null, .null => true
  | .boolean a, .boolean b => a == b
  | .numInt a, .numInt b => a == b
  | .numFloat a, .numFloat b => a == b
  | .str a, .str b => a == b
  | .arr a, .arr b => CppJson.beqList a b
  | .obj a, .obj b => CppJson.beqMembers a b
  | _, _ => false

/-- Element-wise equality of json arrays. -/
def CppJson.beqList : List CppJson → List CppJson → Bool
  | [], [] => true
  | a :: as, b :: bs => CppJson.beq a b && CppJson.beqList as bs
  | _, _ => false

/-- Member-wise equality of json objects. -/
def CppJson.beqMembers : List (String × CppJson) → List (String × CppJson) → Bool
  | [], [] => true
  | (ka, va) :: as, (kb, vb) :: bs =>
      ka == kb && CppJson.beq va vb && CppJson.beqMembers as bs
  | _, _ => false

end

instance : BEq CppJson := ⟨CppJson.beq⟩

/-- `json::is_number()`: true on both integer and float storage. -/
def CppJson.isNumber : CppJson → Bool
  | .numInt _ => true
  | .numFloat _ => true
  | _ => false

/-- `json::is_number_integer()`. -/
def CppJson.isNumberInteger : CppJson → Bool
  | .numInt _ => true
  | _ => false

/-- `json::is_number_float()`. -/
def CppJson.isNumberFloat : CppJson → Bool
  | .numFloat _ => true
  | _ => false

/-- `json::get<double>()`; only invoked by the comparator after an
`is_number()` guard, so the non-number fallback (an exception in C++)
is given an arbitrary value. -/
def CppJson.getDouble : CppJson → FP
  | .numInt n => .finite (n : ℚ)
  | .numFloat d => d
  | _ => .finite 0

/-- `compareResults<int>` specialization: an `int` actual only matches an
integer-stored expected value; any float-stored expected (e.g. `1.0`)
fails. -/
def compareResultsInt (actual : ℤ) (expected : CppJson) : Bool :=
  match expected with
  | .numInt n => actual == n
  | _ => false

/-- `compareResults<long long>` specialization (same rule as `int`). -/
def compareResultsLongLong (actual : ℤ) (expected : CppJson) : Bool :=
  match expected with
  | .numInt n => actual == n
  | _ => false

/-- `compareResults<double>` specialization: NaN matches NaN (or the string
`"NaN"`), infinities match same-signed infinities (or the strings
`"Infinity"` / `"-Infinity"`), and a finite double only matches a
float-stored expected value with exact equality — an integer-stored
expected fails. -/
def compareResultsDouble (actual : FP) (expected : CppJson) : Bool :=
  if actual.isNan then
    if expected.isNumber then expected.getDouble.isNan
    else if expected == .str "NaN" then true
    else false
  else if actual.isInf then
    if expected.isNumber then
      let e := expected.getDouble
      e.isInf && (actual.gtZero == e.gtZero)
    else if actual.gtZero && expected == .str "Infinity" then true
    else if actual.ltZero && expected == .str "-Infinity" then true
    else false
  else if expected.isNumberFloat then actual.ieeeEq expected.getDouble
  else false

/-- `compareResults<float>` specialization (same shape as `double`;
the narrowing `get<float>` conversion is modelled exactly). -/
def compareResultsFloat (actual : FP) (expected : CppJson) : Bool :=
  compareResultsDouble actual expected

/-- `compareResults<string>` specialization. -/
def compareResultsString (actual : String) (expected : CppJson) : Bool :=
  match expected with
  | .str s => actual == s
  | _ => false

/-- `compareResults<bool>` specialization. -/
def compareResultsBool (actual : Bool) (expected : CppJson) : Bool :=
  match expected with
  | .boolean b => actual == b
  | _ => false

/-! ## C2: the JavaScript backend runtime value model and `deepEquals`

Embeds the `deepEquals` function shipped inside the generated JavaScript
runner (`src/api/src/generators/javascript.js`).  JS runtime values are the
inductive `JsVal`; reference identity of composite values (the `a === b`
fast path and `SameValueZero` on composites) is not representable in a
structural model and is modelled as `false`, which never changes the
result of `deepEquals` (structurally equal composites are accepted by the
recursive paths, including NaN members, because of the NaN special cases
in `deepEquals` and in `Set.has`/`Map.has`).  Lists model JS `Set`/`Map`
contents in insertion order and are assumed duplicate-free, as real
`Set`/`Map` objects are. -/

/-- A JavaScript runtime value. -/
inductive JsVal where
  | undef
  | nullV
  | boolean (b : Bool)
  | num (n : FP)
  | str (s : String)
  | arr (elems : List JsVal)
  | set (elems : List JsVal)
  | jsMap (entries : List (JsVal × JsVal))
  | obj (fields : List (String × JsVal))
deriving Repr

/-- JS `typeof`. -/
def JsVal.typeofTag : JsVal → String
  | .undef => "undefined"
  | .nullV => "object"
  | .boolean _ => "boolean"
  | .num _ => "number"
  | .str _ => "string"
  | .arr _ => "object"
  | .set _ => "object"
  | .jsMap _ => "object"
  | .obj _ => "object"

/-- `x === null`. -/
def JsVal.isNull : JsVal → Bool
  | .nullV => true
  | _ => false

/-- `x === undefined`. -/
def JsVal.isUndef : JsVal → Bool
  | .undef => true
  | _ => false

/-- `Array.isArray`. -/
def JsVal.isArray : JsVal → Bool
  | .arr _ => true
  | _ => false

/-- `x instanceof Set`. -/
def JsVal.isSet : JsVal → Bool
  | .set _ => true
  | _ => false

/-- `x instanceof Map`. -/
def JsVal.isMap : JsVal → Bool
  | .jsMap _ => true
  | _ => false

/-- `typeof item !== 'object' || item === null` — the primitive test used
by the Set comparison branch of `deepEquals`. -/
def JsVal.isPrimitiveOrNull (v : JsVal) : Bool :=
  v.typeofTag != "object" || v.isNull

/-- JS `===`.  On composites `===` is reference identity, modelled as
`false` (see the section comment). -/
def JsVal.jsStrictEq : JsVal → JsVal → Bool
  | .undef, .undef => true
  | .nullV, .nullV => true
  | .boolean a, .boolean b => a == b
  | .num a, .num b => a.ieeeEq b
  | .str a, .str b => a == b
  | _, _ => false

/-- The SameValueZero algorithm used by `Set.prototype.has` and
`Map.prototype.has`/`get`: like `===` but NaN matches NaN. -/
def JsVal.sameValueZero : JsVal → JsVal → Bool
  | .num a, .num b => a.ieeeEq b || (a.isNan && b.isNan)
  | a, b => a.jsStrictEq b

/-- The NaN special-case guard of `deepEquals`: both operands are numbers
and both are NaN. -/
def JsVal.bothNumberNaN : JsVal → JsVal → Bool
  | .num a, .num b => a.isNan && b.isNan
  | _, _ => false

mutual

/-- `deepEquals` from the generated JavaScript runner: strict deep equality
with no type coercion; NaN equals NaN; arrays order-sensitively; Sets and
Maps by membership; plain objects by sorted key lists and per-key values.
The four composite branch bodies are split into the named helpers below
(their text is the corresponding source block verbatim). -/
def deepEquals (a b : JsVal) : Bool :=
  if a.jsStrictEq b then true
  else if a.bothNumberNaN b then true
  else if a.isNull || b.isNull then false
  else if a.isUndef || b.isUndef then false
  else if a.typeofTag != b.typeofTag then false
  else if a.isArray != b.isArray then false
  else if a.isArray then deepEqualsArrays a b
  else if a.isSet != b.isSet then false
  else if a.isSet then deepEqualsSets a b
  else if a.isMap != b.isMap then false
  else if a.isMap then deepEqualsMaps a b
  else deepEqualsObjects a b
termination_by (sizeOf a, 1)

/-- The array branch of `deepEquals`: equal lengths and element-wise
recursion in order. -/
def deepEqualsArrays (a b : JsVal) : Bool :=
  match a, b with
  | .arr xs, .arr ys =>
      xs.length == ys.length &&
      (xs.zip ys).attach.all (fun p => deepEquals p.1.1 p.1.2)
  | _, _ => false  -- unreachable: `deepEquals` only calls this on two arrays
termination_by (sizeOf a, 0)
decreasing_by
  simp_wf
  refine Prod.Lex.left _ _ ?_
  obtain ⟨⟨x, y⟩, hp⟩ := p
  have h1 := List.sizeOf_lt_of_mem (List.of_mem_zip hp).1
  simp_all
  omega

/-- The Set branch of `deepEquals`: equal sizes; each element of `a` is
found in `b` by SameValueZero for primitives and by recursive `deepEquals`
search for objects. -/
def deepEqualsSets (a b : JsVal) : Bool :=
  match a, b with
  | .set xs, .set ys =>
      xs.length == ys.length &&
      xs.attach.all (fun x =>
        if x.1.isPrimitiveOrNull then ys.any (fun y => y.sameValueZero x.1)
        else ys.attach.any (fun y => deepEquals x.1 y.1))
  | _, _ => false  -- unreachable: `deepEquals` only calls this on two Sets
termination_by (sizeOf a, 0)
decreasing_by
  simp_wf
  refine Prod.Lex.left _ _ ?_
  have h1 := List.sizeOf_lt_of_mem x.2
  simp_all
  omega

/-- The Map branch of `deepEquals`: equal sizes; every key of `a` is found
in `b` (`Map.has`/`Map.get` use SameValueZero) with `deepEquals`-equal
value. -/
def deepEqualsMaps (a b : JsVal) : Bool :=
  match a, b with
  | .jsMap xs, .jsMap ys =>
      xs.length == ys.length &&
      xs.attach.all (fun e =>
        match ys.find? (fun y => y.1.sameValueZero e.1.1) with
        | some y => deepEquals e.1.2 y.2
        | none => false)
  | _, _ => false  -- unreachable: `deepEquals` only calls this on two Maps
termination_by (sizeOf a, 0)
decreasing_by
  simp_wf
  refine Prod.Lex.left _ _ ?_
  have h1 := List.sizeOf_lt_of_mem e.2
  obtain ⟨⟨k, v⟩, he⟩ := e
  simp_all
  omega

/-- The plain-object branch of `deepEquals`: sorted key lists must agree,
then each key's values are compared recursively. -/
def deepEqualsObjects (a b : JsVal) : Bool :=
  match a, b with
  | .obj fa, .obj fb =>
      let keysA := (fa.map Prod.fst).mergeSort (fun x y => decide (x ≤ y))
      let keysB := (fb.map Prod.fst).mergeSort (fun x y => decide (x ≤ y))
      keysA.length == keysB.length && keysA == keysB &&
      fa.attach.all (fun e =>
        match fb.lookup e.1.1 with
        | some w => deepEquals e.1.2 w
        | none => false)
  | _, _ => false  -- primitives that failed every earlier test of `deepEquals`
termination_by (sizeOf a, 0)
decreasing_by
  simp_wf
  refine Prod.Lex.left _ _ ?_
  have h1 := List.sizeOf_lt_of_mem e.2
  obtain ⟨⟨k, v⟩, he⟩ := e
  simp_all
  omega

end

/-- The type-preserving `serialize` function shipped inside the generated
JavaScript runner: `undefined`, NaN, ±Infinity, `Map` and `Set` become
`__type__`-tagged marker objects; everything else maps structurally. -/
def jsSerialize : JsVal → JsVal
  | .undef => .obj [("__type__", .str "undefined")]
  | .nullV => .nullV
  | .num n =>
      if n.isNan then .obj [("__type__", .str "number"), ("value", .str "NaN")]
      else if n.isInf then
        .obj [("__type__", .str "number"),
              ("value", .str (if n.gtZero then "Infinity" else "-Infinity"))]
      else .num n
  | .boolean b => .boolean b
  | .str s => .str s
  | .arr xs => .arr (xs.attach.map fun x => jsSerialize x.1)
  | .jsMap es =>
      .obj [("__type__", .str "Map"),
            ("value", .arr (es.attach.map fun e =>
              .arr [jsSerialize e.1.1, jsSerialize e.1.2]))]
  | .set xs =>
      .obj [("__type__", .str "Set"),
            ("value", .arr (xs.attach.map fun x => jsSerialize x.1))]
  | .obj fs => .obj (fs.attach.map fun e => (e.1.1, jsSerialize e.1.2))
termination_by v => sizeOf v
decreasing_by
  all_goals simp_wf
  · have h1 := List.sizeOf_lt_of_mem x.2
    omega
  · have h1 := List.sizeOf_lt_of_mem e.2
    cases h : e.1
    simp_all
    omega
  · have h1 := List.sizeOf_lt_of_mem e.2
    cases h : e.1
    simp_all
    omega
  · have h1 := List.sizeOf_lt_of_mem x.2
    omega
  · have h1 := List.sizeOf_lt_of_mem e.2
    cases h : e.1
    simp_all
    omega

/-! ## Decimal rendering of numbers

`natDecimalRepr` and `jsNumToString` model the external ECMAScript
number-to-string conversion (`String(value)`) used by the generators,
including Number::toString's exponent notation for magnitudes at least
`1e21` or below `1e-6`. -/

/-- `x.isFinite`. -/
def FP.isFinite : FP → Bool
  | .finite _ => true
  | _ => false

/-- The rational value of a finite double (0 on the non-finite tags, which
all uses guard against). -/
def FP.toRat : FP → ℚ
  | .finite q => q
  | _ => 0

/-- Big-endian decimal digits of a natural number, with fuel (`n + 1` is
always enough fuel; structural recursion keeps it kernel-reducible). -/
def natDigitsAux : ℕ → ℕ → List Char
  | 0, _ => []
  | fuel + 1, n =>
      if n < 10 then [Nat.digitChar n]
      else natDigitsAux fuel (n / 10) ++ [Nat.digitChar (n % 10)]

/-- Decimal digit string of a natural number (models the decimal rendering
shared by JS template interpolation and `String(n)`). -/
def natDecimalRepr (n : ℕ) : String := ⟨natDigitsAux (n + 1) n⟩

/-- Decimal value of a digit string (left inverse of `natDigitsAux`,
used to prove placeholder injectivity). -/
def digitsToNat (l : List Char) : ℕ :=
  l.foldl (fun acc c => 10 * acc + (c.toNat - 48)) 0

/-- Fractional decimal digits of `r / den` (with `r < den`), by decimal
long division with fuel; for the dyadic fractions of actual doubles the
expansion terminates well within fuel 1100 (binary64 values have at most
1074 fractional digits). -/
def fracDigitsND : ℕ → ℕ → ℕ → List Char
  | 0, _, _ => []
  | fuel + 1, r, den =>
      if r = 0 then []
      else Nat.digitChar (r * 10 / den) :: fracDigitsND fuel (r * 10 % den) den

/-- Drop trailing `'0'` digits (ECMAScript's significant digits have no
trailing zeros). -/
def stripTrailingZeros (l : List Char) : List Char :=
  (l.reverse.dropWhile (fun c => c == '0')).reverse

/-- Render significant digits `s` in ECMAScript exponent notation
(`d.ddd e±k`; the dot appears only with at least two significant
digits). -/
def jsExpRender (s : List Char) (esign : String) (emag : ℕ) : String :=
  match s with
  | [] => "0"
  | [d] => String.mk [d] ++ "e" ++ esign ++ natDecimalRepr emag
  | d :: ds => String.mk [d] ++ "." ++ String.mk ds ++ "e" ++ esign ++
      natDecimalRepr emag

/-- `String(value)` on the magnitude `num / den` (`num, den` coprime,
`num ≠ 0`), following ECMAScript Number::toString: exponent notation for
magnitudes `≥ 1e21` (positive exponent `n-1` where `n` is the integer
digit count) and `< 1e-6` (negative exponent counting the leading
fractional zeros), plain positional notation in between with a `.` and
the fractional expansion exactly when `den ≠ 1`. -/
def jsAbsDigitsRender (num den : ℕ) : String :=
  if 10 ^ 21 * den ≤ num then
    let D := natDigitsAux (num / den + 1) (num / den)
    let F := fracDigitsND 1100 (num % den) den
    jsExpRender (stripTrailingZeros (D ++ F)) "+" (D.length - 1)
  else if 10 ^ 6 * num < den then
    let F := fracDigitsND 1100 (num % den) den
    let t := F.dropWhile (fun c => c == '0')
    jsExpRender (stripTrailingZeros t) "-" (F.length - t.length + 1)
  else
    natDecimalRepr (num / den) ++
      (if den = 1 then "" else "." ++ String.mk (fracDigitsND 1100 (num % den) den))

/-- Models ECMAScript `String(value)` on a finite double: `"0"` for zero,
otherwise an optional sign and the magnitude rendering (positional
between `1e-6` and `1e21`, exponent notation outside). -/
def jsNumToString (q : ℚ) : String :=
  if q.num = 0 then "0"
  else (if q < 0 then "-" else "") ++ jsAbsDigitsRender q.num.natAbs q.den

/-! ## C8: `numberLiteral` in the base and Python generators -/

/-- `BaseGenerator.numberLiteral` (`src/api/src/generators/base.js`):
NaN and infinities render as the JS named constants, finite values via
`String(value)`. -/
def numberLiteral (value : FP) : String :=
  if value.isNan then "NaN"
  else if !value.isFinite then (if value.gtZero then "Infinity" else "-Infinity")
  else jsNumToString value.toRat

/-- `PythonGenerator.numberLiteral` (`src/api/src/generators/python.js`):
NaN and infinities render as `float(...)` constants, finite values via
`String(value)`. -/
def pyNumberLiteral (value : FP) : String :=
  if value.isNan then "float(\"nan\")"
  else if !value.isFinite then
    (if value.gtZero then "float(\"inf\")" else "float(\"-inf\")")
  else jsNumToString value.toRat

/-- Whether rendered source text carries a visible decimal point (the
"cannot be reinterpreted as an integer literal" property; none of the
generators emit float suffixes). -/
def hasDot (s : String) : Bool := s.data.any (fun c => c == '.')

/-! ## C5 / C10: the registry (`src/api/src/generators/index.js`) -/

/-- The backend family a registry lookup resolves to; `generic` carries the
raw language id passed to the `GenericGenerator` constructor. -/
inductive GenKind where
  | python
  | javascript
  | java
  | cpp
  | csharp
  | go
  | ruby
  | generic (language : String)
deriving DecidableEq, Repr

/-- The character class kept by the registry normalization: `[a-z0-9+#]`. -/
def isLangChar (c : Char) : Bool :=
  ('a' ≤ c && c ≤ 'z') || ('0' ≤ c && c ≤ '9') || c = '+' || c = '#'

/-- `language.toLowerCase().replace(/[^a-z0-9+#]/g, '')`. -/
def normalizeLang (language : String) : String :=
  ⟨(language.data.map Char.toLower).filter isLangChar⟩

/-- The registry table `generators`, with the exact keys of the source. -/
def generators : List (String × GenKind) :=
  [("python", .python), ("python2", .python), ("python3", .python),
   ("python3.10", .python), ("python3.11", .python), ("python3.12", .python),
   ("javascript", .javascript), ("node", .javascript), ("nodejs", .javascript),
   ("node-javascript", .javascript),
   ("typescript", .javascript), ("ts", .javascript),
   ("java", .java),
   ("cpp", .cpp), ("c++", .cpp), ("cpp17", .cpp), ("cpp20", .cpp),
   ("csharp", .csharp), ("c#", .csharp), ("cs", .csharp), ("dotnet", .csharp),
   ("go", .go), ("golang", .go),
   ("ruby", .ruby)]

/-- `getGenerator`: normalize, look up, fall back to a fresh
`GenericGenerator(language)` built from the raw id. -/
def getGenerator (language : String) : GenKind :=
  let lang := normalizeLang language
  match generators.lookup lang with
  | some g => g
  | none => .generic language

/-- `hasNativeSupport`. -/
def hasNativeSupport (language : String) : Bool :=
  (generators.lookup (normalizeLang language)).isSome

/-- A JS argument value reaching the registry's public entry point. -/
inductive JsArg where
  | strA (s : String)
  | numA (n : FP)
  | nullA
  | undefA
  | boolA (b : Bool)
deriving DecidableEq, Repr

/-- `getGenerator` under JS dynamic typing.  Modelled from ECMAScript
method-lookup semantics: the unconditional `language.toLowerCase()` call
succeeds only on strings (`Number.prototype`, `Boolean.prototype` have no
`toLowerCase`, and member access on `null`/`undefined` throws), so every
non-string argument raises a TypeError. -/
def getGeneratorDyn : JsArg → Except String GenKind
  | .strA s => .ok (getGenerator s)
  | _ => .error "TypeError"

/-! ## C6: the generic fallback generator
(`src/api/src/generators/generic.js`) -/

/-- A hex-capable digit character (`Nat.digitChar` yields `0-9a-f`). -/
def hexDigitChar (n : ℕ) : Char := Nat.digitChar n

/-- The escape sequence `JSON.stringify` emits for one string character. -/
def jsonEscapeChar (c : Char) : List Char :=
  if c = '"' then ['\\', '"']
  else if c = '\\' then ['\\', '\\']
  else if c = '\n' then ['\\', 'n']
  else if c = '\r' then ['\\', 'r']
  else if c = '\t' then ['\\', 't']
  else if c = '\x08' then ['\\', 'b']
  else if c = '\x0c' then ['\\', 'f']
  else if c.toNat < 32 then
    ['\\', 'u', '0', '0', hexDigitChar (c.toNat / 16), hexDigitChar (c.toNat % 16)]
  else [c]

/-- `JSON.stringify` rendering of a string value. -/
def jsonQuote (s : String) : String :=
  ⟨'"' :: ((s.data.map jsonEscapeChar).flatten ++ ['"'])⟩

mutual

/-- `JSON.stringify`, modelled from ECMAScript: `undefined` produces no
output (`none`), NaN and infinities stringify as `null`, `Set`/`Map`
objects have no own enumerable properties and stringify as `{}`,
`undefined`-valued object members are omitted and `undefined` array
elements become `null`. -/
def jsStringify : JsVal → Option String
  | .undef => none
  | .nullV => some "null"
  | .boolean b => some (if b then "true" else "false")
  | .num n => some (if n.isFinite then jsNumToString n.toRat else "null")
  | .str s => some (jsonQuote s)
  | .arr xs => some ("[" ++ String.intercalate "," (jsStringifyElems xs) ++ "]")
  | .set _ => some "{}"
  | .jsMap _ => some "{}"
  | .obj fs => some ("\x7b" ++ String.intercalate "," (jsStringifyMembers fs) ++ "\x7d")

/-- Array elements under `JSON.stringify`: `undefined` renders as `null`. -/
def jsStringifyElems : List JsVal → List String
  | [] => []
  | x :: xs => ((jsStringify x).getD "null") :: jsStringifyElems xs

/-- Object members under `JSON.stringify`: `undefined`-valued members are
omitted. -/
def jsStringifyMembers : List (String × JsVal) → List String
  | [] => []
  | (k, v) :: fs =>
      match jsStringify v with
      | some sv => (jsonQuote k ++ ":" ++ sv) :: jsStringifyMembers fs
      | none => jsStringifyMembers fs

end

/-- A user-submitted file. -/
structure UserFile where
  name : String
  content : String
deriving DecidableEq, Repr

/-- The object returned by every generator's `generateRunner`. -/
structure GeneratedProgram where
  files : List UserFile
  entryPoint : String
  stdin : String
  mode : Option String
deriving DecidableEq, Repr

/-- A test case as seen by the generic generator: raw call text and the raw
expected value. -/
structure GenTestCase where
  call : String
  expected : JsVal
deriving Repr

/-- `GenericGenerator.generateRunner`: user files unmodified, first file as
entry point, raw `{call, expected}` pairs serialized to stdin,
`mode: 'fallback'`.  `none` models the TypeError JS raises on
`userFiles[0].name` when the file list is empty. -/
def genericGenerateRunner (userFiles : List UserFile) (testCases : List GenTestCase) :
    Option GeneratedProgram :=
  match userFiles with
  | [] => none
  | f :: _ =>
      let stdinTestCases := testCases.map (fun tc =>
        JsVal.obj [("call", .str tc.call), ("expected", tc.expected)])
      some { files := userFiles
             entryPoint := f.name
             stdin := (jsStringify (.arr stdinTestCases)).getD "undefined"
             mode := some "fallback" }

/-! ## C9: the Python generator's mutable `nestingLevel`

`PythonGenerator` stores a mutable `this.nestingLevel` field, incremented
on entry to `arrayLiteral` and decremented after the element map.  The
generator instance in the registry is a singleton shared by all calls.
The field is threaded explicitly below; `Except` carries the
`Unsupported value type` error thrown by `BaseGenerator.valueToCode`, and
— as in JS, where a throw does not restore object fields — the state
produced up to the throw is kept. -/

/-- A parsed-argument value held in an Invocation: the values
`evalASTNode` (src/api/src/call-parser.js) can produce, including
`bigint` (acorn parses BigInt literals; no `valueToCode` branch accepts
them, so they hit the final `throw`). -/
inductive GenValue where
  | nullV
  | undef
  | boolean (b : Bool)
  | num (n : FP)
  | str (s : String)
  | arr (elems : List GenValue)
  | obj (fields : List (String × GenValue))
  | bigint (n : ℤ)
deriving Repr

mutual

/-- `valueToCode` as executed on a `PythonGenerator` (dispatching to the
Python literal overrides), with `this.nestingLevel` threaded. -/
def pyValueToCode : GenValue → ℤ → Except String String × ℤ
  | .nullV, lvl => (.ok "None", lvl)
  | .undef, lvl => (.ok "None", lvl)
  | .boolean b, lvl => (.ok (if b then "True" else "False"), lvl)
  | .num n, lvl => (.ok (pyNumberLiteral n), lvl)
  | .str s, lvl => (.ok (jsonQuote s), lvl)
  | .arr elems, lvl =>
      -- `PythonGenerator.arrayLiteral`, inlined (structural recursion):
      -- increment `nestingLevel`, render elements, decrement, then emit a
      -- tuple when still nested and a list at top level.  The decrement is
      -- skipped when an element throws — exactly as in the source, where
      -- the `this.nestingLevel--` line is never reached.
      match pyElems elems (lvl + 1) with
      | (.ok parts, lvl2) =>
          let lvl3 := lvl2 - 1
          let elemsStr := String.intercalate ", " parts
          if lvl3 > 0 then
            if elems.length == 1 then (.ok ("(" ++ elemsStr ++ ",)"), lvl3)
            else (.ok ("(" ++ elemsStr ++ ")"), lvl3)
          else (.ok ("[" ++ elemsStr ++ "]"), lvl3)
      | (.error e, lvl2) => (.error e, lvl2)
  | .obj fields, lvl =>
      match pyObjectPairs fields lvl with
      | (.ok parts, lvl2) =>
          (.ok ("\x7b" ++ String.intercalate ", " parts ++ "\x7d"), lvl2)
      | (.error e, lvl2) => (.error e, lvl2)
  | .bigint _, lvl => (.error "Unsupported value type: bigint", lvl)

/-- `arr.map(v => this.valueToCode(v))`: stops at the first throwing
element. -/
def pyElems : List GenValue → ℤ → Except String (List String) × ℤ
  | [], lvl => (.ok [], lvl)
  | v :: vs, lvl =>
      match pyValueToCode v lvl with
      | (.ok sv, lvl2) =>
          match pyElems vs lvl2 with
          | (.ok rest, lvl3) => (.ok (sv :: rest), lvl3)
          | (.error e, lvl3) => (.error e, lvl3)
      | (.error e, lvl2) => (.error e, lvl2)

/-- `PythonGenerator.objectLiteral` member rendering
(`stringLiteral(k): valueToCode(v)`). -/
def pyObjectPairs : List (String × GenValue) → ℤ → Except String (List String) × ℤ
  | [], lvl => (.ok [], lvl)
  | (k, v) :: fs, lvl =>
      match pyValueToCode v lvl with
      | (.ok sv, lvl2) =>
          match pyObjectPairs fs lvl2 with
          | (.ok rest, lvl3) => (.ok ((jsonQuote k ++ ": " ++ sv) :: rest), lvl3)
          | (.error e, lvl3) => (.error e, lvl3)
      | (.error e, lvl2) => (.error e, lvl2)

end

/-- `BaseGenerator.callToNative` on the Python singleton:
`functionName(arg₁, …, argN)` with the shared `nestingLevel` threaded. -/
def pyCallToNative (functionName : String) (args : List GenValue) (lvl : ℤ) :
    Except String String × ℤ :=
  match pyElems args lvl with
  | (.ok parts, lvl2) =>
      (.ok (functionName ++ "(" ++ String.intercalate ", " parts ++ ")"), lvl2)
  | (.error e, lvl2) => (.error e, lvl2)

/-! ## C7: the per-case runner loops

The generated runner programs evaluate each test case inside its own
try/catch and append one outcome record per case.  User-code evaluation
(`eval(...)` / the embedded call expression) is an oracle parameter; the
comparator and serializer of each runner are embedded below.  Several
Python functions are written with an explicit fuel argument so that they
stay kernel-reducible; the wrappers always pass sufficient fuel (recursion
depth is bounded by the value size). -/

/-- A Python runtime value of the generated runner. -/
inductive PyVal where
  | noneV
  | boolean (b : Bool)
  | intV (n : ℤ)
  | floatV (x : FP)
  | str (s : String)
  | list (elems : List PyVal)
  | tuple (elems : List PyVal)
  | dict (entries : List (PyVal × PyVal))
  | setV (elems : List PyVal)
deriving Repr

/-- `type(x).__name__`. -/
def pyTypeName : PyVal → String
  | .noneV => "NoneType"
  | .boolean _ => "bool"
  | .intV _ => "int"
  | .floatV _ => "float"
  | .str _ => "str"
  | .list _ => "list"
  | .tuple _ => "tuple"
  | .dict _ => "dict"
  | .setV _ => "set"

/-- `x is None`. -/
def PyVal.isNone : PyVal → Bool
  | .noneV => true
  | _ => false

/-- `isinstance(x, float)`. -/
def PyVal.isFloat : PyVal → Bool
  | .floatV _ => true
  | _ => false

/-- `isinstance(x, (list, tuple))`. -/
def PyVal.isSeq : PyVal → Bool
  | .list _ => true
  | .tuple _ => true
  | _ => false

/-- The elements of a list/tuple (empty on other tags; callers guard). -/
def PyVal.seqElems : PyVal → List PyVal
  | .list xs => xs
  | .tuple xs => xs
  | _ => []

/-- `isinstance(x, dict)`. -/
def PyVal.isDict : PyVal → Bool
  | .dict _ => true
  | _ => false

/-- `isinstance(x, set)`. -/
def PyVal.isSet : PyVal → Bool
  | .setV _ => true
  | _ => false

/-- `isinstance(x, (int, float))` — true for `bool` as well, since Python
`bool` subclasses `int`. -/
def pyIsNumType : PyVal → Bool
  | .boolean _ => true
  | .intV _ => true
  | .floatV _ => true
  | _ => false

/-- Numeric value of a Python number (`True` counts as 1); callers guard
with `pyIsNumType`. -/
def pyNumVal : PyVal → FP
  | .boolean b => .finite (if b then 1 else 0)
  | .intV n => .finite (n : ℚ)
  | .floatV x => x
  | _ => .finite 0

mutual

/-- Python `==` on runner values (fuel-indexed; models CPython equality for
the types the runner handles: cross-type numeric equality, element-wise
sequences of the same kind, key/value dicts, membership sets; NaN is
unequal to everything). -/
def pyEqF : ℕ → PyVal → PyVal → Bool
  | 0, _, _ => false
  | _ + 1, .noneV, .noneV => true
  | fuel + 1, a, b =>
      if a.isNone || b.isNone then false
      else if pyIsNumType a && pyIsNumType b then FP.ieeeEq (pyNumVal a) (pyNumVal b)
      else match a, b with
        | .str x, .str y => x == y
        | .list xs, .list ys => xs.length == ys.length && pyEqListF fuel xs ys
        | .tuple xs, .tuple ys => xs.length == ys.length && pyEqListF fuel xs ys
        | .dict xs, .dict ys => xs.length == ys.length && pyEqDictSubF fuel xs ys
        | .setV xs, .setV ys => xs.length == ys.length && pyEqSetSubF fuel xs ys
        | _, _ => false

/-- Element-wise `==` on sequences. -/
def pyEqListF : ℕ → List PyVal → List PyVal → Bool
  | 0, _, _ => false
  | _ + 1, [], _ => true
  | _ + 1, _ :: _, [] => false
  | fuel + 1, x :: xs, y :: ys => pyEqF fuel x y && pyEqListF fuel xs ys

/-- Dict inclusion: every key of the first dict maps to an `==`-equal
value in the second. -/
def pyEqDictSubF : ℕ → List (PyVal × PyVal) → List (PyVal × PyVal) → Bool
  | 0, _, _ => false
  | _ + 1, [], _ => true
  | fuel + 1, (k, v) :: xs, ys =>
      (match pyDictFindF fuel k ys with
       | some w => pyEqF fuel v w
       | Option.none => false) && pyEqDictSubF fuel xs ys

/-- Dict lookup by `==` on keys (Python hashing agrees with `==`). -/
def pyDictFindF : ℕ → PyVal → List (PyVal × PyVal) → Option PyVal
  | 0, _, _ => Option.none
  | _ + 1, _, [] => Option.none
  | fuel + 1, k, (k2, w) :: ys =>
      if pyEqF fuel k k2 then some w else pyDictFindF fuel k ys

/-- Set inclusion by `==` membership. -/
def pyEqSetSubF : ℕ → List PyVal → List PyVal → Bool
  | 0, _, _ => false
  | _ + 1, [], _ => true
  | fuel + 1, x :: xs, ys =>
      ys.any (fun y => pyEqF fuel x y) && pyEqSetSubF fuel xs ys

end

mutual

/-- Structural size of a Python value (fuel bound for the `==` and
`deep_equals` wrappers). -/
def pyValSize : PyVal → ℕ
  | .list xs => pyValSizeList xs + 1
  | .tuple xs => pyValSizeList xs + 1
  | .dict es => pyValSizePairs es + 1
  | .setV xs => pyValSizeList xs + 1
  | _ => 1

/-- Size of a value list. -/
def pyValSizeList : List PyVal → ℕ
  | [] => 0
  | x :: xs => pyValSize x + pyValSizeList xs + 1

/-- Size of a pair list. -/
def pyValSizePairs : List (PyVal × PyVal) → ℕ
  | [] => 0
  | (k, v) :: es => pyValSize k + pyValSize v + pyValSizePairs es + 1

end

/-- Python `==` (wrapper supplying always-sufficient fuel). -/
def pyEq (a b : PyVal) : Bool := pyEqF (pyValSize a + pyValSize b + 1) a b

mutual

/-- `deep_equals` from the generated Python runner
(`src/api/src/generators/python.js`, runner template): None only equals
None; float NaN equals float NaN; differing types are allowed only for
numbers (Python `==`) and list-vs-tuple (element-wise recursion);
same-kind sequences recurse element-wise; dicts compare key sets then
per-key values; sets and scalars fall back to Python `==`. -/
def pyDeepEqualsF : ℕ → PyVal → PyVal → Bool
  | 0, _, _ => false
  | fuel + 1, a, b =>
      if a.isNone && b.isNone then true
      else if a.isNone || b.isNone then false
      else if a.isFloat && b.isFloat && (pyNumVal a).isNan && (pyNumVal b).isNan then
        true
      else if pyTypeName a != pyTypeName b then
        if pyIsNumType a && pyIsNumType b then pyEq a b
        else if a.isSeq && b.isSeq then
          (a.seqElems.length == b.seqElems.length) &&
            pyDeepEqualsZip fuel a.seqElems b.seqElems
        else false
      else if a.isSeq then
        (a.seqElems.length == b.seqElems.length) &&
          pyDeepEqualsZip fuel a.seqElems b.seqElems
      else if a.isDict then
        match a, b with
        | .dict xs, .dict ys =>
            pyKeySubF fuel xs ys && pyKeySubF fuel ys xs && pyDictValsF fuel xs ys
        | _, _ => false  -- unreachable: both tags are `dict` here
      else if a.isSet then pyEq a b
      else pyEq a b

/-- `all(deep_equals(x, y) for x, y in zip(a, b))` (lengths are checked
before the call). -/
def pyDeepEqualsZip : ℕ → List PyVal → List PyVal → Bool
  | 0, _, _ => false
  | _ + 1, [], _ => true
  | fuel + 1, x :: xs, ys =>
      match ys with
      | [] => true  -- zip truncation (unreachable: lengths are equal)
      | y :: ys2 => pyDeepEqualsF fuel x y && pyDeepEqualsZip fuel xs ys2

/-- One inclusion of `set(a.keys()) == set(b.keys())`. -/
def pyKeySubF : ℕ → List (PyVal × PyVal) → List (PyVal × PyVal) → Bool
  | 0, _, _ => false
  | _ + 1, [], _ => true
  | fuel + 1, (k, _) :: xs, ys =>
      ys.any (fun e => pyEqF fuel k e.1) && pyKeySubF fuel xs ys

/-- `all(deep_equals(a[k], b[k]) for k in a)`. -/
def pyDictValsF : ℕ → List (PyVal × PyVal) → List (PyVal × PyVal) → Bool
  | 0, _, _ => false
  | _ + 1, [], _ => true
  | fuel + 1, (k, v) :: xs, ys =>
      (match pyDictFindF fuel k ys with
       | some w => pyDeepEqualsF fuel v w
       | Option.none => false) && pyDictValsF fuel xs ys

end

/-- `deep_equals` (wrapper supplying always-sufficient fuel). -/
def pyDeepEquals (a b : PyVal) : Bool :=
  pyDeepEqualsF (pyValSize a + pyValSize b + 1) a b

/-- Decimal string of an integer (Python `str(int)`). -/
def intDecimalRepr (n : ℤ) : String :=
  (if n < 0 then "-" else "") ++ natDecimalRepr n.natAbs

/-- Python `str()` of a float: integral floats print a trailing `.0`;
NaN and infinities print `nan`/`inf`/`-inf`.  Models CPython
`float.__str__` exactly in the positional range (CPython's exponent
thresholds and two-digit exponent format differ slightly; no claim
depends on that range). -/
def pyFloatStr (x : FP) : String :=
  match x with
  | .nan => "nan"
  | .posInf => "inf"
  | .negInf => "-inf"
  | .finite q => if q.den = 1 then intDecimalRepr q.num ++ ".0" else jsNumToString q

mutual

/-- Python `repr()` of a runner value (string escapes inside quotes are not
modelled).  Models CPython printing; only used for `pySerialize`'s dict
keys and set sort key. -/
def pyReprV : PyVal → String
  | .noneV => "None"
  | .boolean b => if b then "True" else "False"
  | .intV n => intDecimalRepr n
  | .floatV x => pyFloatStr x
  | .str s => "'" ++ s ++ "'"
  | .list xs => "[" ++ String.intercalate ", " (pyReprList xs) ++ "]"
  | .tuple [x] => "(" ++ pyReprV x ++ ",)"
  | .tuple xs => "(" ++ String.intercalate ", " (pyReprList xs) ++ ")"
  | .dict es => "\x7b" ++ String.intercalate ", " (pyReprPairs es) ++ "\x7d"
  | .setV xs =>
      match xs with
      | [] => "set()"
      | _ => "\x7b" ++ String.intercalate ", " (pyReprList xs) ++ "\x7d"

/-- `repr` of sequence elements. -/
def pyReprList : List PyVal → List String
  | [] => []
  | x :: xs => pyReprV x :: pyReprList xs

/-- `repr` of dict members (`k: v`). -/
def pyReprPairs : List (PyVal × PyVal) → List String
  | [] => []
  | (k, v) :: es => (pyReprV k ++ ": " ++ pyReprV v) :: pyReprPairs es

end

/-- Python `str()`: like `repr` except on strings, which print verbatim. -/
def pyStr : PyVal → String
  | .str s => s
  | v => pyReprV v

/-- The comparison key of `serialize`'s set branch:
`key=lambda x: (type(x).__name__, str(x))`, as a `mergeSort` predicate. -/
def pySortKeyLe (x y : PyVal) : Bool :=
  (decide (pyTypeName x < pyTypeName y)) ||
    (pyTypeName x == pyTypeName y && decide (pyStr x ≤ pyStr y))

mutual

/-- `serialize` from the generated Python runner: NaN/±Infinity become the
marker strings, tuples become lists, dict keys are stringified with
`str()`, sets become lists sorted by `(type name, str)`. -/
def pySerialize : PyVal → PyVal
  | .noneV => .noneV
  | .boolean b => .boolean b
  | .intV n => .intV n
  | .floatV x =>
      if x.isNan then .str "NaN"
      else if x.isInf then .str (if x.gtZero then "Infinity" else "-Infinity")
      else .floatV x
  | .str s => .str s
  | .list xs => .list (pySerializeList xs)
  | .tuple xs => .list (pySerializeList xs)
  | .dict es => .dict (pySerializeDict es)
  | .setV xs => .list ((pySerializeList xs).mergeSort (fun x y => pySortKeyLe x y))

/-- `[serialize(v) for v in value]`. -/
def pySerializeList : List PyVal → List PyVal
  | [] => []
  | x :: xs => pySerialize x :: pySerializeList xs

/-- `{str(k): serialize(v) for k, v in value.items()}`. -/
def pySerializeDict : List (PyVal × PyVal) → List (PyVal × PyVal)
  | [] => []
  | (k, v) :: es => (.str (pyStr k), pySerialize v) :: pySerializeDict es

end

/-- A runtime fault: the exception's type name and message. -/
structure Fault where
  kind : String
  msg : String
deriving DecidableEq, Repr

/-- One entry of the outcome array emitted by the generated Python
runner. -/
structure PyOutcome where
  index : ℕ
  actual : PyVal
  passed : Bool
  error : Option String
deriving Repr

/-- The per-case try/except loop of the generated Python runner
(`src/api/src/generators/python.js`, runner template): `evalCall i` models
`eval(tc['call_native'])` for case `i` (the user's function is arbitrary
code, so evaluation is an oracle parameter).  A fault is caught per case
and appended as `{'actual': None, 'passed': False,
'error': f"{type(e).__name__}: {str(e)}"}`; later cases still run. -/
def pyRunnerLoop (evalCall : ℕ → Except Fault PyVal) (expecteds : List PyVal) :
    List PyOutcome :=
  expecteds.enum.map (fun ie =>
    match evalCall ie.1 with
    | .ok actual =>
        { index := ie.1, actual := pySerialize actual,
          passed := pyDeepEquals actual ie.2, error := Option.none }
    | .error e =>
        { index := ie.1, actual := .noneV, passed := false,
          error := some (e.kind ++ ": " ++ e.msg) })

/-- One entry of the outcome array emitted by the generated JavaScript
runner. -/
structure JsOutcome where
  index : ℕ
  actual : JsVal
  expectedSerialized : JsVal
  passed : Bool
  error : Option String
deriving Repr

/-- The per-case try/catch loop of the generated JavaScript runner
(`src/api/src/generators/javascript.js`, runner template): `evalCall i`
models `eval(tc.call)`; `parseExpected` stands for the runner's
`parseExpectedValue` helper (a parameter here — the claim constrains only
the loop structure).  A fault is caught per case and pushed as
`{actual: null, passed: false, error: e.name + ': ' + e.message}`. -/
def jsRunnerLoop (evalCall : ℕ → Except Fault JsVal) (parseExpected : JsVal → JsVal)
    (testCases : List JsVal) : List JsOutcome :=
  testCases.enum.map (fun ie =>
    match evalCall ie.1 with
    | .ok actual =>
        let expected := parseExpected ie.2
        { index := ie.1, actual := jsSerialize actual,
          expectedSerialized := jsSerialize expected,
          passed := deepEquals actual expected, error := Option.none }
    | .error e =>
        { index := ie.1, actual := .nullV, expectedSerialized := .nullV,
          passed := false, error := some (e.kind ++ ": " ++ e.msg) })

/-- A typed C++ actual value — the template-dispatch domain of the
generated C++ runner's `compareResults`/`serializeValue`
(scalar specializations and `std::vector`). -/
inductive CppVal where
  | intV (n : ℤ)
  | llV (n : ℤ)
  | dblV (x : FP)
  | fltV (x : FP)
  | strV (s : String)
  | boolV (b : Bool)
  | vecV (elems : List CppVal)
deriving Repr

mutual

/-- `serializeValue`: scalars via `json(val)`, vectors element-wise. -/
def serializeValueV : CppVal → CppJson
  | .intV n => .numInt n
  | .llV n => .numInt n
  | .dblV x => .numFloat x
  | .fltV x => .numFloat x
  | .strV s => .str s
  | .boolV b => .boolean b
  | .vecV xs => .arr (serializeValueList xs)

/-- `serializeValue` over vector elements. -/
def serializeValueList : List CppVal → List CppJson
  | [] => []
  | x :: xs => serializeValueV x :: serializeValueList xs

end

mutual

/-- Template dispatch of the C++ `compareResults` on the actual's type. -/
def compareResultsV : CppVal → CppJson → Bool
  | .intV n, e => compareResultsInt n e
  | .llV n, e => compareResultsLongLong n e
  | .dblV x, e => compareResultsDouble x e
  | .fltV x, e => compareResultsFloat x e
  | .strV s, e => compareResultsString s e
  | .boolV b, e => compareResultsBool b e
  | .vecV xs, e =>
      match e with
      | .arr ys => xs.length == ys.length && compareResultsVec xs ys
      | _ => false

/-- The vector specialization's element loop. -/
def compareResultsVec : List CppVal → List CppJson → Bool
  | [], _ => true
  | _ :: _, [] => false
  | x :: xs, y :: ys => compareResultsV x y && compareResultsVec xs ys

end

/-- One entry of the outcome array emitted by the generated C++ runner. -/
structure CppOutcome where
  index : ℕ
  actual : CppJson
  expectedSerialized : CppJson
  passed : Bool
  error : Option String
deriving Repr

/-- The unrolled per-case try/catch blocks of the generated C++ runner
(`src/api/src/generators/cpp.js` and the stdin-based variant): `evalCall i`
models the embedded call expression of case `i`; `expecteds` are the
parsed embedded expected values.  The catch block records
`result["error"] = e.what()` — the exception message only, with no type
name prefix. -/
def cppRunBlocks (evalCall : ℕ → Except Fault CppVal) (expecteds : List CppJson) :
    List CppOutcome :=
  expecteds.enum.map (fun ie =>
    match evalCall ie.1 with
    | .ok actual =>
        { index := ie.1, actual := serializeValueV actual,
          expectedSerialized := ie.2,
          passed := compareResultsV actual ie.2, error := Option.none }
    | .error e =>
        { index := ie.1, actual := .null, expectedSerialized := .null,
          passed := false, error := some e.msg })

/-- One entry of the results list emitted by the generated Java runner
(`formatResult(index, actual, passed, error)`); `actual` is the
pre-serialized JSON string, and the catch path passes the literal string
`"null"` for it. -/
structure JavaOutcome where
  index : ℕ
  actual : String
  passed : Bool
  error : Option String
deriving Repr

/-- The unrolled per-case try/catch blocks of the generated Java runner
(`src/api/src/generators/java.js`): case `i` computes
`Object actual = <call>`, parses the embedded expected JSON, compares with
`deepEquals`, and adds `formatResult(i, serialize(actual), passed, null)`;
the catch block adds `formatResult(i, "null", false,
e.getClass().getSimpleName() + ": " + e.getMessage())` and the later
cases still run.  The Java-side `serialize`, `parseJson` and `deepEquals`
act on arbitrary user objects, so they are oracle parameters over the
object domain `α`; the claim constrains only the loop structure and the
error format. -/
def javaRunBlocks {α : Type} (evalCall : ℕ → Except Fault α)
    (ser : α → String) (parseJson : String → α) (deq : α → α → Bool)
    (expectedJsons : List String) : List JavaOutcome :=
  expectedJsons.enum.map (fun ie =>
    match evalCall ie.1 with
    | .ok actual =>
        { index := ie.1, actual := ser actual,
          passed := deq actual (parseJson ie.2), error := Option.none }
    | .error e =>
        { index := ie.1, actual := "null", passed := false,
          error := some (e.kind ++ ": " ++ e.msg) })

/-- One entry of the results list emitted by the generated C# runner
(`TestResult`); the catch path leaves `Actual = null`. -/
structure CsOutcome (α : Type) where
  index : ℕ
  actual : Option α
  passed : Bool
  error : Option String

/-- The unrolled per-case try/catch blocks of the generated C# runner
(`src/api/src/generators/csharp.js`): case `i` computes
`var actual = <call>`, deserializes the embedded expected JSON, and adds
`new TestResult { Index = i, Actual = actual, Passed = passed,
Error = null }`; the catch block adds `new TestResult { Index = i,
Actual = null, Passed = false,
Error = e.GetType().Name + ": " + e.Message }` and the later cases still
run.  `JsonConvert.DeserializeObject` and `DeepEquals` are oracle
parameters over the object domain `α`. -/
def csRunBlocks {α : Type} (evalCall : ℕ → Except Fault α)
    (deserialize : String → α) (deq : α → α → Bool)
    (expectedJsons : List String) : List (CsOutcome α) :=
  expectedJsons.enum.map (fun ie =>
    match evalCall ie.1 with
    | .ok actual =>
        { index := ie.1, actual := some actual,
          passed := deq actual (deserialize ie.2), error := Option.none }
    | .error e =>
        { index := ie.1, actual := Option.none, passed := false,
          error := some (e.kind ++ ": " ++ e.msg) })

/-- One entry of the results slice emitted by the generated Go runner
(`TestResult`); `Error` is a plain string (emitted with
`json:"error,omitempty"`), empty on success, and `Actual` is `nil` after
a recovered panic. -/
structure GoOutcome (α : Type) where
  index : ℕ
  actual : Option α
  passed : Bool
  error : String

/-- The per-case closures of the generated Go runner
(`src/api/src/generators/go.js`): case `i` runs inside `func() { ... }()`
with `defer func() { if r := recover(); r != nil { results =
append(results, TestResult{Index: i, Actual: nil, Passed: false,
Error: fmt.Sprintf("%v", r)}) } }()`, so a panic is recovered locally,
recorded as the `%v` formatting of the recovered value — no type name is
prepended — and the later cases still run; the normal path appends
`TestResult{Index: i, Actual: actual, Passed: passed, Error: ""}`.
`evalCall i` yields the value or, on panic, the already-`%v`-formatted
recovered text; `unmarshal` and `deepEquals` are oracle parameters over
the value domain `α`. -/
def goRunBlocks {α : Type} (evalCall : ℕ → Except String α)
    (unmarshal : String → α) (deq : α → α → Bool)
    (expectedJsons : List String) : List (GoOutcome α) :=
  expectedJsons.enum.map (fun ie =>
    match evalCall ie.1 with
    | .ok actual =>
        { index := ie.1, actual := some actual,
          passed := deq actual (unmarshal ie.2), error := "" }
    | .error r =>
        { index := ie.1, actual := Option.none, passed := false, error := r })

/-- One entry of the results array emitted by the generated Ruby runner;
the rescue path records `'actual' => nil`. -/
structure RubyOutcome (α : Type) where
  index : ℕ
  actual : Option α
  passed : Bool
  error : Option String

/-- The `each_with_index` begin/rescue loop of the generated Ruby runner
(`src/api/src/generators/ruby.js`): case `i` evaluates `eval(tc['call'])`,
records `'index' => i, 'actual' => serialize(actual),
'passed' => deep_equals(actual, tc['expected']), 'error' => nil`; the
rescue branch records `'actual' => nil, 'passed' => false` and the error
string interpolation of `e.class`, a colon and a space, and `e.message`,
and the later cases still run.  Ruby `serialize` and `deep_equals` are
oracle parameters over the value domain `α`; `expecteds` are the parsed
`tc['expected']` values. -/
def rubyRunnerLoop {α : Type} (evalCall : ℕ → Except Fault α)
    (ser : α → α) (deq : α → α → Bool) (expecteds : List α) :
    List (RubyOutcome α) :=
  expecteds.enum.map (fun ie =>
    match evalCall ie.1 with
    | .ok actual =>
        { index := ie.1, actual := some (ser actual),
          passed := deq actual ie.2, error := Option.none }
    | .error e =>
        { index := ie.1, actual := Option.none, passed := false,
          error := some (e.kind ++ ": " ++ e.msg) })

/-! ## C4: the tuple/call parenthesis pre-pass
(`convertPythonTuplesToArrays`, `src/api/src/call-parser.js`) -/

/-- JS `/\s/` on the characters the rewrite can meet (the ASCII whitespace
class; the Unicode members of `\s` are not modelled). -/
def isJsSpace (c : Char) : Bool :=
  c = ' ' || c = '\t' || c = '\n' || c = '\r' || c = '\x0b' || c = '\x0c'

/-- The character class `/[a-zA-Z0-9_\)]/` used by the source to classify
a call parenthesis. -/
def isCallPrevChar (c : Char) : Bool :=
  ('a' ≤ c && c ≤ 'z') || ('A' ≤ c && c ≤ 'Z') || ('0' ≤ c && c ≤ '9') ||
    c = '_' || c = ')'

/-- The classification class the claim asserts — it additionally
contains `]`.  (Stated from the claim's words, for comparison with
`isCallPrevChar`.) -/
def claimCallPrevChar (c : Char) : Bool :=
  isCallPrevChar c || c = ']'

/-- Bracket kinds on the rewrite stack (`'func' | 'tuple' | 'array'`). -/
inductive PKind where
  | func
  | tuple
  | array
deriving DecidableEq, Repr

/-- The scan state of `convertPythonTuplesToArrays`: string tracking, the
bracket stack, the immediately preceding character (`str[i-1]`), and the
nearest preceding non-whitespace character of the original string (what
the source recomputes with its backward scan
`while (j >= 0 && /\s/.test(str[j])) j--`). -/
structure TupState where
  inString : Bool
  stringChar : Char
  stack : List PKind
  prev : Option Char
  lastNonWs : Option Char
deriving DecidableEq, Repr

/-- The state at position 0. -/
def tupInit : TupState :=
  { inString := false, stringChar := ' ', stack := [],
    prev := Option.none, lastNonWs := Option.none }

/-- Whether a preceding character classifies a `(` as a function-call
parenthesis (`j >= 0 && /[a-zA-Z0-9_\)]/.test(str[j])`). -/
def callParenOpt (o : Option Char) : Bool :=
  match o with
  | some c => isCallPrevChar c
  | Option.none => false

/-- The backward-scan classification, read off the scan state. -/
def callParen (st : TupState) : Bool := callParenOpt st.lastNonWs

/-- One step of `convertPythonTuplesToArrays`: the next state and the
emitted characters for one input character. -/
def tupStep (st : TupState) (c : Char) : TupState × List Char :=
  let step :=
    if (c = '"' || c = '\'') && st.prev ≠ some '\\' then
      if !st.inString then ({ st with inString := true, stringChar := c }, [c])
      else if c = st.stringChar then ({ st with inString := false }, [c])
      else (st, [c])
    else if !st.inString then
      if c = '(' then
        if callParen st then ({ st with stack := .func :: st.stack }, ['('])
        else ({ st with stack := .tuple :: st.stack }, ['['])
      else if c = ')' then
        match st.stack with
        | .func :: rest => ({ st with stack := rest }, [')'])
        | _ :: rest => ({ st with stack := rest }, [']'])
        | [] => ({ st with stack := [] }, [']'])  -- `pop()` on [] yields undefined
      else if c = '[' then ({ st with stack := .array :: st.stack }, ['['])
      else if c = ']' then ({ st with stack := st.stack.tail }, [']'])
      else (st, [c])
    else (st, [c])
  ({ step.1 with prev := some c
                 lastNonWs := (if isJsSpace c then st.lastNonWs else some c) },
   step.2)

/-- Run the rewrite over the remaining characters from a state. -/
def tupRun (st : TupState) : List Char → List Char
  | [] => []
  | c :: cs => (tupStep st c).2 ++ tupRun (tupStep st c).1 cs

/-- `convertPythonTuplesToArrays`. -/
def convertPythonTuplesToArrays (s : String) : String :=
  ⟨tupRun tupInit s.data⟩

/-- The scan state after a prefix of the input. -/
def tupStateAfter (l : List Char) : TupState :=
  l.foldl (fun st c => (tupStep st c).1) tupInit

/-- The nearest non-whitespace character of a prefix — the claim's
"nearest preceding non-whitespace character", i.e. what the source's
backward scan from the end of the prefix finds. -/
def lastNonWsBefore (l : List Char) : Option Char :=
  l.foldl (fun acc c => if isJsSpace c then acc else some c) Option.none

/-! ## C3: `protectFloatLiterals` / `restoreFloatWrappers` and JSON parsing
(`src/unnamed/part_004`, the stdin-based C++ generator)

`protectFloatLiterals` scans the raw expected-value text, skips
double-quoted strings, and replaces every float-looking numeric token
(decimal point or exponent) with a quoted placeholder `"__FLOAT_N__"`,
recording the token text in a map; after `JSON.parse` of the protected
text, `restoreFloatWrappers` replaces the placeholder strings with
`{__cppFloat: true, value, original}` wrapper objects.

`JSON.parse` is external (the ECMAScript built-in); it is modelled by a
recursive-descent parser whose token scanners are shared with
`protectFloatLiterals` (`grabNumber`, and a string scanner consuming the
same spans as the protection scan), reading numbers as exact rationals.
The model is lax exactly where laxness keeps the two scans aligned: any
backslash escape is accepted as a two-character pair, and the number
grammar is `protectFloatLiterals`'s own.  Duplicate object keys are kept
in order rather than deduplicated; both sides of the round trip parse the
same member lists, so the round-trip relation is unaffected. -/

/-- The JSON whitespace class (space, tab, LF, CR). -/
def isJsonWsChar (c : Char) : Bool :=
  c = ' ' || c = '\t' || c = '\n' || c = '\r'

/-- Drop leading JSON whitespace. -/
def skipWsJ : List Char → List Char
  | [] => []
  | c :: cs => if isJsonWsChar c then skipWsJ cs else c :: cs

/-- Characters that may legitimately follow a complete value in a
successful parse (whitespace and the structural delimiters); none of them
can extend a number token. -/
def isDelimChar (c : Char) : Bool :=
  isJsonWsChar c || c = ',' || c = ':' || c = ']' || c = '}'

/-- The remainder starts with a delimiter (or is empty). -/
def delimHeadB : List Char → Bool
  | [] => true
  | c :: _ => isDelimChar c

/-- Split the leading run of decimal digits. -/
def takeDigits : List Char → List Char × List Char
  | [] => ([], [])
  | c :: cs =>
      if c.isDigit then
        let (d, r) := takeDigits cs
        (c :: d, r)
      else ([], c :: cs)

/-- The head, if any, is not a digit (used to state scanner splits). -/
def headNotDigit : List Char → Bool
  | [] => true
  | c :: _ => !c.isDigit

/-- The optional leading minus of the number scanner. -/
def grabSign : List Char → List Char × List Char
  | '-' :: ls => ((['-'] : List Char), ls)
  | l => (([] : List Char), l)

/-- The optional `.digits` fraction step of the number scanner. -/
def grabFrac : List Char → List Char × List Char
  | '.' :: ls => ('.' :: (takeDigits ls).1, (takeDigits ls).2)
  | l => (([] : List Char), l)

/-- The optional sign inside an exponent. -/
def grabExpSign : List Char → List Char × List Char
  | [] => ([], [])
  | c :: ls =>
      if c = '+' || c = '-' then (([c] : List Char), ls)
      else (([] : List Char), c :: ls)

/-- The optional exponent step (`e`/`E`, optional sign, digits). -/
def grabExp : List Char → List Char × List Char
  | [] => ([], [])
  | e :: ls =>
      if e = 'e' || e = 'E' then
        (e :: ((grabExpSign ls).1 ++ (takeDigits (grabExpSign ls).2).1),
         (takeDigits (grabExpSign ls).2).2)
      else (([] : List Char), e :: ls)

/-- The number-token scanner of `protectFloatLiterals` (the steps of the
source loop: optional minus, digits, optional `.digits`, optional
exponent with optional sign).  Shared with the parser model. -/
def grabNumber (l : List Char) : List Char × List Char :=
  ((grabSign l).1 ++ (takeDigits (grabSign l).2).1
    ++ (grabFrac (takeDigits (grabSign l).2).2).1
    ++ (grabExp (grabFrac (takeDigits (grabSign l).2).2).2).1,
   (grabExp (grabFrac (takeDigits (grabSign l).2).2).2).2)

/-- `isFloat`: the token has a decimal point or an exponent. -/
def isFloatTok (tok : List Char) : Bool :=
  tok.contains '.' || tok.contains 'e' || tok.contains 'E'

/-- The string-skipping loop of `protectFloatLiterals`: copy verbatim up
to and including the closing quote; a backslash consumes the next
character as a pair. -/
def skipStringSeg : List Char → List Char × List Char
  | [] => ([], [])
  | c :: cs =>
      if c = '"' then (['"'], cs)
      else if c = '\\' then
        match cs with
        | [] => (['\\'], [])
        | d :: cs2 =>
            let (seg, r) := skipStringSeg cs2
            ('\\' :: d :: seg, r)
      else
        let (seg, r) := skipStringSeg cs
        (c :: seg, r)

/-- The float-token placeholder `__FLOAT_N__` (the map key, unquoted). -/
def placeholderCore (idx : ℕ) : String :=
  "__FLOAT_" ++ natDecimalRepr idx ++ "__"

/-- `protectFloatLiterals`' scan over the remaining characters: emitted
text and recorded `(placeholder, token)` pairs, with `idx` the running
float index.  Fuel-indexed (structural on fuel, so concrete runs reduce);
`l.length + 1` is always sufficient fuel, and the wrapper `protectRun`
supplies it. -/
def protectRunF : ℕ → ℕ → List Char → List Char × List (String × String)
  | 0, _, _ => ([], [])
  | _ + 1, _, [] => ([], [])
  | fuel + 1, idx, c :: cs =>
      if c = '"' then
        let (seg, rest) := skipStringSeg cs
        let (out, ps) := protectRunF fuel idx rest
        ('"' :: (seg ++ out), ps)
      else if c = '-' || c.isDigit then
        let (tok, rest) := grabNumber (c :: cs)
        if isFloatTok tok && tok.any Char.isDigit then
          let (out, ps) := protectRunF fuel (idx + 1) rest
          ('"' :: ((placeholderCore idx).data ++ ('"' :: out)),
           (placeholderCore idx, String.mk tok) :: ps)
        else
          let (out, ps) := protectRunF fuel idx rest
          (tok ++ out, ps)
      else
        let (out, ps) := protectRunF fuel idx cs
        (c :: out, ps)

/-- The protection scan with its canonical (always-sufficient) fuel. -/
def protectRun (idx : ℕ) (l : List Char) : List Char × List (String × String) :=
  protectRunF (l.length + 1) idx l

/-- `protectFloatLiterals`. -/
def protectFloatLiterals (s : String) : String × List (String × String) :=
  (String.mk (protectRun 0 s.data).1, (protectRun 0 s.data).2)

/-- Decimal value of a digit list (most significant first). -/
def digitsVal (l : List Char) : ℕ :=
  l.foldl (fun a c => 10 * a + (c.toNat - 48)) 0

/-- Exact rational value of a numeric token.  Models the reading of the
token shared by `JSON.parse` and `parseFloat`; both the code path and the
spec path of the round trip use this same function, so the round-trip
equality does not depend on binary64 rounding. -/
def ratOfNumToken (tok : List Char) : ℚ :=
  let (sgn, t1) :=
    match tok with
    | '-' :: ts => ((-1 : ℚ), ts)
    | _ => ((1 : ℚ), tok)
  let (ip, t2) := takeDigits t1
  let (fp, t3) :=
    match t2 with
    | '.' :: ts => takeDigits ts
    | _ => (([] : List Char), t2)
  let ex : ℤ :=
    match t3 with
    | e :: ts =>
        if e = 'e' || e = 'E' then
          match ts with
          | '+' :: ds => ((digitsVal (takeDigits ds).1 : ℤ))
          | '-' :: ds => (-(digitsVal (takeDigits ds).1 : ℤ))
          | ds => ((digitsVal (takeDigits ds).1 : ℤ))
        else 0
    | [] => 0
  sgn * ((digitsVal ip : ℚ) + (digitsVal fp : ℚ) / (10 : ℚ) ^ fp.length) *
    (10 : ℚ) ^ ex

/-- JSON string body scanner: the raw span (escapes intact) up to the
closing quote, and the remainder.  Lax: any escaped character is accepted
as a two-character pair, so the scanner consumes exactly the characters
`skipStringSeg` skips. -/
def lexStringBody : List Char → Option (List Char × List Char)
  | [] => Option.none
  | c :: cs =>
      if c = '"' then some (([] : List Char), cs)
      else if c = '\\' then
        match cs with
        | [] => Option.none
        | d :: cs2 =>
            match lexStringBody cs2 with
            | some (raw, r) => some ('\\' :: d :: raw, r)
            | Option.none => Option.none
      else
        match lexStringBody cs with
        | some (raw, r) => some (c :: raw, r)
        | Option.none => Option.none

/-- Value of a hexadecimal digit. -/
def hexDigitVal (c : Char) : ℕ :=
  if '0' ≤ c && c ≤ '9' then c.toNat - 48
  else if 'a' ≤ c && c ≤ 'f' then c.toNat - 87
  else if 'A' ≤ c && c ≤ 'F' then c.toNat - 55
  else 0

/-- Hexadecimal digit test. -/
def isHexDigitChar (c : Char) : Bool :=
  ('0' ≤ c && c ≤ '9') || ('a' ≤ c && c ≤ 'f') || ('A' ≤ c && c ≤ 'F')

/-- Unescape a raw JSON string span: the standard escapes, `\uXXXX` when
followed by four hex digits; any other escaped character is kept (the lax
reading matching `lexStringBody`). -/
def cookEscapes : List Char → List Char
  | [] => []
  | '\\' :: d :: rest =>
      if d = 'n' then '\n' :: cookEscapes rest
      else if d = 't' then '\t' :: cookEscapes rest
      else if d = 'r' then '\r' :: cookEscapes rest
      else if d = 'b' then '\x08' :: cookEscapes rest
      else if d = 'f' then '\x0c' :: cookEscapes rest
      else if d = 'u' then
        -- `\uXXXX`: decode the four digits (hex validity is not checked
        -- and fewer than four remaining characters are kept verbatim:
        -- `JSON.parse` rejects such inputs, so the lax readings differ
        -- only on texts outside the claim)
        match rest with
        | h1 :: h2 :: h3 :: h4 :: rest2 =>
            Char.ofNat (4096 * hexDigitVal h1 + 256 * hexDigitVal h2 +
              16 * hexDigitVal h3 + hexDigitVal h4) :: cookEscapes rest2
        | _ => 'u' :: rest
      else d :: cookEscapes rest
  | c :: rest => c :: cookEscapes rest

/-- A parsed JSON value, generic in the number representation. -/
inductive JsonVal (ν : Type) where
  | null
  | boolean (b : Bool)
  | num (n : ν)
  | str (s : String)
  | arr (elems : List (JsonVal ν))
  | obj (members : List (String × JsonVal ν))
deriving Repr

/-- Tagged numbers: float-looking tokens keep their source text. -/
inductive TNum where
  | plain (q : ℚ)
  | float (tok : String)
deriving DecidableEq, Repr

mutual

/-- Recursive-descent JSON value parser, generic in the number
representation via `mkNum tok isFloat` (models `JSON.parse`; fuel
decreases at every recursive step and `2 * input.length + 2` is always
sufficient).  The token scanners are shared with `protectFloatLiterals`
so the lax token grammar is identical on both sides of the round trip. -/
def parseValue (mkNum : List Char → Bool → Option ν) :
    ℕ → List Char → Option (JsonVal ν × List Char)
  | 0, _ => Option.none
  | fuel + 1, s =>
      match skipWsJ s with
      | [] => Option.none
      | c :: rest =>
          if c = '{' then parseMembers0 mkNum fuel rest
          else if c = '[' then parseElems0 mkNum fuel rest
          else if c = '"' then
            match lexStringBody rest with
            | some (raw, r) => some (.str (String.mk (cookEscapes raw)), r)
            | Option.none => Option.none
          else if c = 't' then
            match rest with
            | 'r' :: 'u' :: 'e' :: r => some (.boolean true, r)
            | _ => Option.none
          else if c = 'f' then
            match rest with
            | 'a' :: 'l' :: 's' :: 'e' :: r => some (.boolean false, r)
            | _ => Option.none
          else if c = 'n' then
            match rest with
            | 'u' :: 'l' :: 'l' :: r => some (.null, r)
            | _ => Option.none
          else if c = '-' || c.isDigit then
            let (tok, r) := grabNumber (c :: rest)
            if tok.any Char.isDigit then
              match mkNum tok (isFloatTok tok) with
              | some v => some (.num v, r)
              | Option.none => Option.none
            else Option.none
          else Option.none

/-- After `[`: the empty array or the first element and the tail loop. -/
def parseElems0 (mkNum : List Char → Bool → Option ν) :
    ℕ → List Char → Option (JsonVal ν × List Char)
  | 0, _ => Option.none
  | fuel + 1, s =>
      match skipWsJ s with
      | ']' :: r => some (.arr [], r)
      | s2 =>
          match parseValue mkNum fuel s2 with
          | some (v, r) =>
              match parseElemsRest mkNum fuel r with
              | some (vs, r2) => some (.arr (v :: vs), r2)
              | Option.none => Option.none
          | Option.none => Option.none

/-- The `, value`* `]` loop after an array element. -/
def parseElemsRest (mkNum : List Char → Bool → Option ν) :
    ℕ → List Char → Option (List (JsonVal ν) × List Char)
  | 0, _ => Option.none
  | fuel + 1, s =>
      match skipWsJ s with
      | ']' :: r => some (([] : List (JsonVal ν)), r)
      | ',' :: r =>
          match parseValue mkNum fuel r with
          | some (v, r2) =>
              match parseElemsRest mkNum fuel r2 with
              | some (vs, r3) => some (v :: vs, r3)
              | Option.none => Option.none
          | Option.none => Option.none
      | _ => Option.none

/-- After `{`: the empty object or the first member and the tail loop. -/
def parseMembers0 (mkNum : List Char → Bool → Option ν) :
    ℕ → List Char → Option (JsonVal ν × List Char)
  | 0, _ => Option.none
  | fuel + 1, s =>
      match skipWsJ s with
      | '}' :: r => some (.obj [], r)
      | s2 =>
          match parseMember mkNum fuel s2 with
          | some (kv, r) =>
              match parseMembersRest mkNum fuel r with
              | some (kvs, r2) => some (.obj (kv :: kvs), r2)
              | Option.none => Option.none
          | Option.none => Option.none

/-- One `"key": value` member. -/
def parseMember (mkNum : List Char → Bool → Option ν) :
    ℕ → List Char → Option ((String × JsonVal ν) × List Char)
  | 0, _ => Option.none
  | fuel + 1, s =>
      match skipWsJ s with
      | '"' :: r =>
          match lexStringBody r with
          | some (raw, r2) =>
              match skipWsJ r2 with
              | ':' :: r3 =>
                  match parseValue mkNum fuel r3 with
                  | some (v, r4) => some ((String.mk (cookEscapes raw), v), r4)
                  | Option.none => Option.none
              | _ => Option.none
          | Option.none => Option.none
      | _ => Option.none

/-- The `, member`* `}` loop after an object member. -/
def parseMembersRest (mkNum : List Char → Bool → Option ν) :
    ℕ → List Char → Option (List (String × JsonVal ν) × List Char)
  | 0, _ => Option.none
  | fuel + 1, s =>
      match skipWsJ s with
      | '}' :: r => some (([] : List (String × JsonVal ν)), r)
      | ',' :: r =>
          match parseMember mkNum fuel r with
          | some (kv, r2) =>
              match parseMembersRest mkNum fuel r2 with
              | some (kvs, r3) => some (kv :: kvs, r3)
              | Option.none => Option.none
          | Option.none => Option.none
      | _ => Option.none

end

/-- Untagged numbers: the exact rational value (`JSON.parse`). -/
def mkNumPlain (tok : List Char) (_ : Bool) : Option ℚ :=
  some (ratOfNumToken tok)

/-- Tagged numbers: float-looking tokens keep their text. -/
def mkNumTagged (tok : List Char) (isF : Bool) : Option TNum :=
  if isF then some (.float (String.mk tok)) else some (.plain (ratOfNumToken tok))

/-- Parse a complete JSON text: one value followed only by whitespace. -/
def parseTextWith (mkNum : List Char → Bool → Option ν) (s : String) :
    Option (JsonVal ν) :=
  match parseValue mkNum (2 * s.length + 2) s.data with
  | some (v, rest) => if skipWsJ rest = [] then some v else Option.none
  | Option.none => Option.none

/-- Model of `JSON.parse`. -/
def jsonParse (s : String) : Option (JsonVal ℚ) := parseTextWith mkNumPlain s

/-- The tagged reading of the original text: `JSON.parse` except that each
float-looking numeric token keeps its source text. -/
def jsonParseTagged (s : String) : Option (JsonVal TNum) :=
  parseTextWith mkNumTagged s

/-- JS `String.prototype.startsWith`. -/
def jsStartsWith (s p : String) : Bool := p.data.isPrefixOf s.data

/-- JS `String.prototype.endsWith`. -/
def jsEndsWith (s p : String) : Bool := p.data.reverse.isPrefixOf s.data.reverse

/-- The wrapper-candidate test of `restoreFloatWrappers`
(`value.startsWith('__FLOAT_') && value.endsWith('__')`). -/
def placeholderShaped (s : String) : Bool :=
  jsStartsWith s "__FLOAT_" && jsEndsWith s "__"

mutual

/-- `restoreFloatWrappers`: recursively replace placeholder strings found
in the float map with `{__cppFloat: true, value: parseFloat(original),
original}` wrapper objects (an empty `original` is falsy in JS and is
skipped). -/
def restoreFloatWrappers (fm : List (String × String)) :
    JsonVal ℚ → JsonVal ℚ
  | .str s =>
      if placeholderShaped s then
        match fm.lookup s with
        | some original =>
            if original.length ≠ 0 then
              .obj [("__cppFloat", .boolean true),
                    ("value", .num (ratOfNumToken original.data)),
                    ("original", .str original)]
            else .str s
        | Option.none => .str s
      else .str s
  | .arr xs => .arr (restoreFloatWrappersList fm xs)
  | .obj ms => .obj (restoreFloatWrappersPairs fm ms)
  | .null => .null
  | .boolean b => .boolean b
  | .num q => .num q

/-- `restoreFloatWrappers` over array elements. -/
def restoreFloatWrappersList (fm : List (String × String)) :
    List (JsonVal ℚ) → List (JsonVal ℚ)
  | [] => []
  | x :: xs => restoreFloatWrappers fm x :: restoreFloatWrappersList fm xs

/-- `restoreFloatWrappers` over object members (values only — JS
`Object.entries` iteration). -/
def restoreFloatWrappersPairs (fm : List (String × String)) :
    List (String × JsonVal ℚ) → List (String × JsonVal ℚ)
  | [] => []
  | (k, v) :: ms => (k, restoreFloatWrappers fm v) :: restoreFloatWrappersPairs fm ms

end

mutual

/-- The float-looking tokens of a tagged value, in depth-first
left-to-right (i.e. textual) order. -/
def floatTokens : JsonVal TNum → List String
  | .num (.float tok) => [tok]
  | .arr xs => floatTokensList xs
  | .obj ms => floatTokensPairs ms
  | _ => []

/-- Float tokens of array elements. -/
def floatTokensList : List (JsonVal TNum) → List String
  | [] => []
  | x :: xs => floatTokens x ++ floatTokensList xs

/-- Float tokens of object members. -/
def floatTokensPairs : List (String × JsonVal TNum) → List String
  | [] => []
  | (_, v) :: ms => floatTokens v ++ floatTokensPairs ms

end

mutual

/-- The claim's predicted round-trip result (stated from the spec): every
float-tagged token becomes the `{__cppFloat, value, original}` wrapper,
integer tokens stay plain numbers, everything else is unchanged. -/
def floatsToWrappers : JsonVal TNum → JsonVal ℚ
  | .null => .null
  | .boolean b => .boolean b
  | .num (.plain q) => .num q
  | .num (.float tok) =>
      .obj [("__cppFloat", .boolean true),
            ("value", .num (ratOfNumToken tok.data)),
            ("original", .str tok)]
  | .str s => .str s
  | .arr xs => .arr (floatsToWrappersList xs)
  | .obj ms => .obj (floatsToWrappersPairs ms)

/-- The wrapper mapping over array elements. -/
def floatsToWrappersList : List (JsonVal TNum) → List (JsonVal ℚ)
  | [] => []
  | x :: xs => floatsToWrappers x :: floatsToWrappersList xs

/-- The wrapper mapping over object members. -/
def floatsToWrappersPairs :
    List (String × JsonVal TNum) → List (String × JsonVal ℚ)
  | [] => []
  | (k, v) :: ms => (k, floatsToWrappers v) :: floatsToWrappersPairs ms

end

mutual

/-- What parsing the protected text yields: float tokens replaced by their
placeholder strings, numbered depth-first left-to-right from `idx`. -/
def placeholderize : ℕ → JsonVal TNum → JsonVal ℚ
  | _, .null => .null
  | _, .boolean b => .boolean b
  | _, .num (.plain q) => .num q
  | idx, .num (.float _) => .str (placeholderCore idx)
  | _, .str s => .str s
  | idx, .arr xs => .arr (placeholderizeList idx xs)
  | idx, .obj ms => .obj (placeholderizePairs idx ms)

/-- Placeholder numbering over array elements. -/
def placeholderizeList : ℕ → List (JsonVal TNum) → List (JsonVal ℚ)
  | _, [] => []
  | idx, x :: xs =>
      placeholderize idx x ::
        placeholderizeList (idx + (floatTokens x).length) xs

/-- Placeholder numbering over object members. -/
def placeholderizePairs :
    ℕ → List (String × JsonVal TNum) → List (String × JsonVal ℚ)
  | _, [] => []
  | idx, (k, v) :: ms =>
      (k, placeholderize idx v) ::
        placeholderizePairs (idx + (floatTokens v).length) ms

end

/-- The float-map entries for a token list numbered from `idx`. -/
def phPairsTokens : ℕ → List String → List (String × String)
  | _, [] => []
  | idx, t :: ts => (placeholderCore idx, t) :: phPairsTokens (idx + 1) ts

mutual

/-- The string values occurring in a tagged value (the positions
`restoreFloatWrappers` tests for the placeholder shape). -/
def stringValues : JsonVal TNum → List String
  | .str s => [s]
  | .arr xs => stringValuesList xs
  | .obj ms => stringValuesPairs ms
  | _ => []

/-- String values of array elements. -/
def stringValuesList : List (JsonVal TNum) → List String
  | [] => []
  | x :: xs => stringValues x ++ stringValuesList xs

/-- String values of object members. -/
def stringValuesPairs : List (String × JsonVal TNum) → List String
  | [] => []
  | (_, v) :: ms => stringValues v ++ stringValuesPairs ms

end

mutual

/-- Structural size of a tagged JSON value (induction measure). -/
def jvSize : JsonVal TNum → ℕ
  | .arr xs => jvSizeList xs + 1
  | .obj ms => jvSizePairs ms + 1
  | _ => 1

/-- Size of an element list. -/
def jvSizeList : List (JsonVal TNum) → ℕ
  | [] => 0
  | x :: xs => jvSize x + jvSizeList xs + 1

/-- Size of a member list. -/
def jvSizePairs : List (String × JsonVal TNum) → ℕ
  | [] => 0
  | (_, v) :: ms => jvSize v + jvSizePairs ms + 1

end

/-- The float map resolves the `k`-th placeholder from `idx` to the `k`-th
token. -/
def LookupOK (fm : List (String × String)) (idx : ℕ) (toks : List String) : Prop :=
  ∀ k (hk : k < toks.length),
    fm.lookup (placeholderCore (idx + k)) = some (toks.get ⟨k, hk⟩)

end Piston

namespace Piston

/-- C1 — strict int/float separation in the C++ comparator: a double actual
`1.0` matches the float-stored expected `1.0`; an int actual `1` never
matches a float-stored expected; in general an integer actual fails against
every float-stored expected, and a finite double actual fails against every
integer-stored expected. -/
theorem c1_cpp_strict_int_float_separation :
    compareResultsDouble (.finite 1) (.numFloat (.finite 1)) = true ∧
    compareResultsInt 1 (.numFloat (.finite 1)) = false ∧
    (∀ (a : ℤ) (d : FP), compareResultsInt a (.numFloat d) = false) ∧
    (∀ (v : ℚ) (n : ℤ), compareResultsDouble (.finite v) (.numInt n) = false) := by
  refine ⟨by decide, by decide, fun a d => rfl, fun v n => ?_⟩
  simp [compareResultsDouble, FP.isNan, FP.isInf, CppJson.isNumberFloat]

/-- C2 — `deepEquals` on JS numbers: NaN equals NaN, Infinity equals
Infinity, Infinity differs from -Infinity, and in general two numbers are
`deepEquals`-equal exactly when they are `===`-equal (IEEE equality) or
both NaN. -/
theorem c2_js_deepEquals_numbers :
    deepEquals (.num .nan) (.num .nan) = true ∧
    deepEquals (.num .posInf) (.num .posInf) = true ∧
    deepEquals (.num .posInf) (.num .negInf) = false ∧
    (∀ a b : FP, deepEquals (.num a) (.num b) = (a.ieeeEq b || (a.isNan && b.isNan))) := by
  have hgen : ∀ a b : FP,
      deepEquals (.num a) (.num b) = (a.ieeeEq b || (a.isNan && b.isNan)) := by
    intro a b
    unfold deepEquals
    simp only [JsVal.jsStrictEq, JsVal.bothNumberNaN, JsVal.isNull, JsVal.isUndef,
      JsVal.typeofTag, JsVal.isArray, JsVal.isSet, JsVal.isMap]
    cases h1 : a.ieeeEq b <;> cases h2 : a.isNan <;> cases h3 : b.isNan <;> simp
    all_goals simp [deepEqualsObjects]
  exact ⟨by rw [hgen]; decide, by rw [hgen]; decide, by rw [hgen]; decide, hgen⟩

/-- C5 — the registry's alias table is broken for keys containing stripped
characters: `'python3.11'` (a literal key of the `generators` table)
normalizes to `'python311'`, which is not a key, so `getGenerator`
returns the Generic fallback instead of the Python backend; aliases whose
keys survive normalization (`node`, `golang`, `c++`, `python3`) resolve as
the claim states, and unknown ids resolve to Generic without error. -/
theorem c5_registry_dead_alias_python311 :
    normalizeLang "python3.11" = "python311" ∧
    generators.lookup "python311" = none ∧
    getGenerator "python3.11" = .generic "python3.11" ∧
    getGenerator "python3" = .python ∧
    getGenerator "node" = .javascript ∧
    getGenerator "golang" = .go ∧
    getGenerator "c++" = .cpp ∧
    getGenerator "brainfck" = .generic "brainfck" := by
  refine ⟨by decide, by decide, by decide, by decide, by decide, by decide, by decide, by decide⟩

/-- C10 — the registry's never-throws guarantee holds only for string
arguments: `getGenerator` calls `.toLowerCase()` unconditionally, so
`null`, `undefined` and numbers raise a TypeError, while every string
resolves without error. -/
theorem c10_getGenerator_nonstring_throws :
    (∀ a : JsArg, (getGeneratorDyn a).isOk =
        (match a with | .strA _ => true | _ => false)) ∧
    getGeneratorDyn .nullA = .error "TypeError" ∧
    getGeneratorDyn .undefA = .error "TypeError" ∧
    getGeneratorDyn (.numA (.finite 3)) = .error "TypeError" ∧
    (∀ s : String, getGeneratorDyn (.strA s) = .ok (getGenerator s)) :=
  ⟨fun a => by cases a <;> rfl, rfl, rfl, rfl, fun s => rfl⟩

/-- C6 — the Generic fallback emits exactly the user's files (unmodified),
the first file's name as entry point, the JSON serialization of the
verbatim `{call, expected}` pairs as stdin, and `mode: 'fallback'`;
concretely, one unknown-language test case `test(1)` expecting `1`
produces the stdin text `[{"call":"test(1)","expected":1}]`. -/
theorem c6_generic_fallback_runner :
    (∀ (f : UserFile) (rest : List UserFile) (testCases : List GenTestCase),
      genericGenerateRunner (f :: rest) testCases =
        some { files := f :: rest
               entryPoint := f.name
               stdin := (jsStringify (.arr (testCases.map (fun tc =>
                   JsVal.obj [("call", .str tc.call), ("expected", tc.expected)])))).getD
                 "undefined"
               mode := some "fallback" }) ∧
    genericGenerateRunner [⟨"solution.xyz", "some code"⟩]
        [⟨"test(1)", .num (.finite 1)⟩] =
      some { files := [⟨"solution.xyz", "some code"⟩]
             entryPoint := "solution.xyz"
             stdin := "[\x7b\"call\":\"test(1)\",\"expected\":1\x7d]"
             mode := some "fallback" } := by
  constructor
  · exact fun f rest tcs => rfl
  · decide

/-- Helper: `Nat.digitChar` of a value below 10 is a decimal digit. -/
theorem digitChar_isDigit {m : ℕ} (h : m < 10) : (Nat.digitChar m).isDigit = true := by
  interval_cases m <;> decide

/-- Helper: every character produced by `natDigitsAux` is a decimal digit. -/
theorem natDigitsAux_all_digits :
    ∀ (fuel n : ℕ), ∀ c ∈ natDigitsAux fuel n, c.isDigit = true := by
  intro fuel
  induction fuel with
  | zero => intro n c hc; simp [natDigitsAux] at hc
  | succ f ih =>
    intro n c hc
    simp only [natDigitsAux] at hc
    split at hc
    · simp only [List.mem_singleton] at hc
      subst hc
      exact digitChar_isDigit (by omega)
    · rcases List.mem_append.1 hc with h | h
      · exact ih _ _ h
      · simp only [List.mem_singleton] at h
        subst h
        exact digitChar_isDigit (Nat.mod_lt _ (by omega))

/-- Helper: `hasDot` distributes over string append. -/
theorem hasDot_append (a b : String) : hasDot (a ++ b) = (hasDot a || hasDot b) := by
  cases a with
  | mk da =>
    cases b with
    | mk db => simp [hasDot, String.append]

/-- Helper: decimal digit strings contain no dot. -/
theorem hasDot_natDecimalRepr (n : ℕ) : hasDot (natDecimalRepr n) = false := by
  simp only [hasDot, natDecimalRepr, List.any_eq_false]
  intro c hc h2
  have h1 := natDigitsAux_all_digits (n + 1) n c hc
  have h3 : c = '.' := beq_iff_eq.mp h2
  subst h3
  exact absurd h1 (by decide)

/-- Helper: in the positional range (`1e-6 ≤ |q| < 1e21`, stated on
num/den), `jsNumToString` of a non-integral rational carries a dot. -/
theorem hasDot_jsNumToString {q : ℚ} (h : q.den ≠ 1)
    (h1 : q.den ≤ 10 ^ 6 * q.num.natAbs) (h2 : q.num.natAbs < 10 ^ 21 * q.den) :
    hasDot (jsNumToString q) = true := by
  have h0 : ¬q.num = 0 := by
    intro h0
    have hq : q = 0 := Rat.num_eq_zero.mp h0
    rw [hq] at h
    exact h rfl
  rw [jsNumToString, if_neg h0]
  simp only [jsAbsDigitsRender, if_neg (Nat.not_le.mpr h2), if_neg (Nat.not_lt.mpr h1)]
  simp only [hasDot_append, hasDot_natDecimalRepr, if_neg h]
  have hsign : hasDot (if q < 0 then "-" else "") = false := by
    split <;> decide
  have hdot : hasDot "." = true := by decide
  simp [hsign, hdot, hasDot_append]

/-- Helper: below `1e21`, `jsNumToString` of an integer-valued rational
has no dot. -/
theorem hasDot_jsNumToString_int {q : ℚ} (h : q.den = 1)
    (h2 : q.num.natAbs < 10 ^ 21 * q.den) :
    hasDot (jsNumToString q) = false := by
  by_cases h0 : q.num = 0
  · rw [jsNumToString, if_pos h0]
    decide
  · rw [jsNumToString, if_neg h0]
    have hna : q.num.natAbs ≠ 0 := fun hh => h0 (Int.natAbs_eq_zero.mp hh)
    have hs : ¬10 ^ 6 * q.num.natAbs < q.den := by
      have h6 : (10 : ℕ) ^ 6 = 1000000 := by norm_num
      rw [h, h6]
      omega
    simp only [jsAbsDigitsRender, if_neg (Nat.not_le.mpr h2), if_neg hs]
    simp only [hasDot_append, hasDot_natDecimalRepr, if_pos h]
    have hsign : hasDot (if q < 0 then "-" else "") = false := by
      split <;> decide
    simp [hsign]
    decide

/-- C8 counterexample — the base renderer turns the integral float `1.0`
into the bare integer literal `"1"`: no decimal point (and no generator
ever emits a float suffix), so it is reinterpreted as an integer literal;
the Python renderer does the same. -/
theorem c8_cx_integral_float_loses_dot :
    numberLiteral (.finite 1) = "1" ∧
    hasDot (numberLiteral (.finite 1)) = false ∧
    pyNumberLiteral (.finite 1) = "1" ∧
    hasDot (pyNumberLiteral (.finite 1)) = false := by
  refine ⟨by decide, by decide, by decide, by decide⟩

/-- C8 amended — NaN and the infinities render as the idiomatic named
constants; `String(value)` renders a finite float in the positional
range (`1e-6 ≤ |v| < 1e21`) with a visible decimal point exactly when
the value is non-integral, so an integral float such as `1.0` becomes
the bare integer literal `"1"`; outside that range ECMAScript exponent
notation applies and the dot depends on the significant digits instead
(`String(1e-7) = "1e-7"` has no dot though non-integral,
`String(1.5e22) = "1.5e+22"` has one though integral). -/
theorem c8_number_literal_rendering :
    numberLiteral .nan = "NaN" ∧
    numberLiteral .posInf = "Infinity" ∧
    numberLiteral .negInf = "-Infinity" ∧
    pyNumberLiteral .nan = "float(\"nan\")" ∧
    pyNumberLiteral .posInf = "float(\"inf\")" ∧
    pyNumberLiteral .negInf = "float(\"-inf\")" ∧
    (∀ q : ℚ, q.den ≠ 1 → q.den ≤ 10 ^ 6 * q.num.natAbs →
      q.num.natAbs < 10 ^ 21 * q.den →
      hasDot (numberLiteral (.finite q)) = true ∧
        hasDot (pyNumberLiteral (.finite q)) = true) ∧
    (∀ q : ℚ, q.den = 1 → q.num.natAbs < 10 ^ 21 * q.den →
      hasDot (numberLiteral (.finite q)) = false ∧
        hasDot (pyNumberLiteral (.finite q)) = false) ∧
    numberLiteral (.finite (⟨1, 10 ^ 7, by decide, by decide⟩ : ℚ)) = "1e-7" ∧
    hasDot (numberLiteral (.finite (⟨1, 10 ^ 7, by decide, by decide⟩ : ℚ))) =
      false ∧
    numberLiteral (.finite (⟨15 * 10 ^ 21, 1, by decide, by decide⟩ : ℚ)) =
      "1.5e+22" ∧
    hasDot (numberLiteral
      (.finite (⟨15 * 10 ^ 21, 1, by decide, by decide⟩ : ℚ))) = true := by
  refine ⟨rfl, rfl, rfl, rfl, rfl, rfl,
    fun q h h1 h2 => ⟨?_, ?_⟩, fun q h h2 => ⟨?_, ?_⟩,
    by decide, by decide, by decide, by decide⟩
  · simpa [numberLiteral, FP.isNan, FP.isFinite, FP.toRat] using
      hasDot_jsNumToString h h1 h2
  · simpa [pyNumberLiteral, FP.isNan, FP.isFinite, FP.toRat] using
      hasDot_jsNumToString h h1 h2
  · simpa [numberLiteral, FP.isNan, FP.isFinite, FP.toRat] using
      hasDot_jsNumToString_int h h2
  · simpa [pyNumberLiteral, FP.isNan, FP.isFinite, FP.toRat] using
      hasDot_jsNumToString_int h h2

/-- C8 witness — the amended theorem applied at `2.5` (non-integral in
the positional range, dot present) and at `3.0` (integral below `1e21`,
no dot). -/
theorem c8_number_literal_rendering_witness :
    (hasDot (numberLiteral (.finite (⟨5, 2, by decide, by decide⟩ : ℚ))) = true ∧
      hasDot (pyNumberLiteral (.finite (⟨5, 2, by decide, by decide⟩ : ℚ))) =
        true) ∧
    (hasDot (numberLiteral (.finite 3)) = false ∧
      hasDot (pyNumberLiteral (.finite 3)) = false) :=
  ⟨c8_number_literal_rendering.2.2.2.2.2.2.1 (⟨5, 2, by decide, by decide⟩ : ℚ)
      (by decide) (by decide) (by decide),
   c8_number_literal_rendering.2.2.2.2.2.2.2.1 3 (by decide) (by decide)⟩

/-- C7 counterexample — the C++ backend's catch block records only
`e.what()`: a fault with type `runtime_error` and message
`"division by zero"` is recorded with `error = "division by zero"`, not
`"runtime_error: division by zero"` as the claim requires of every
backend. -/
theorem c7_cx_cpp_error_lacks_kind :
    cppRunBlocks (fun _ => .error ⟨"runtime_error", "division by zero"⟩)
        [CppJson.numInt 3] =
      [{ index := 0, actual := .null, expectedSerialized := .null,
         passed := false, error := some "division by zero" }] ∧
    some "division by zero" ≠
      some ("runtime_error" ++ ": " ++ "division by zero") := by
  exact ⟨rfl, by decide⟩

/-- C7 amended — in the runner loop of each of the seven backends a
per-case fault is caught locally and recorded with `passed = false` and a
null `actual` (the pre-serialized string `"null"` in Java, the empty
`Error` string being the success marker in Go), later cases still run,
and the batch always yields exactly `n` outcomes with index `i` at
position `i`; the Python, JavaScript, Java, C# and Ruby runners set
`error = "<kind>: <message>"` from the fault's type name and message,
the C++ runner records only the message (`e.what()`), with no type name,
and the Go runner records the `%v` formatting of the recovered panic
value, also with no type name. -/
theorem c7_runner_loops_error_capture :
    (∀ (evalCall : ℕ → Except Fault PyVal) (expecteds : List PyVal),
      (pyRunnerLoop evalCall expecteds).length = expecteds.length ∧
      (∀ i (h : i < (pyRunnerLoop evalCall expecteds).length),
        ((pyRunnerLoop evalCall expecteds).get ⟨i, h⟩).index = i ∧
        (∀ f, evalCall i = .error f →
          (pyRunnerLoop evalCall expecteds).get ⟨i, h⟩ =
            { index := i, actual := .noneV, passed := false,
              error := some (f.kind ++ ": " ++ f.msg) }))) ∧
    (∀ (evalCall : ℕ → Except Fault JsVal) (parseExpected : JsVal → JsVal)
        (testCases : List JsVal),
      (jsRunnerLoop evalCall parseExpected testCases).length = testCases.length ∧
      (∀ i (h : i < (jsRunnerLoop evalCall parseExpected testCases).length),
        ((jsRunnerLoop evalCall parseExpected testCases).get ⟨i, h⟩).index = i ∧
        (∀ f, evalCall i = .error f →
          (jsRunnerLoop evalCall parseExpected testCases).get ⟨i, h⟩ =
            { index := i, actual := .nullV, expectedSerialized := .nullV,
              passed := false, error := some (f.kind ++ ": " ++ f.msg) }))) ∧
    (∀ (evalCall : ℕ → Except Fault CppVal) (expecteds : List CppJson),
      (cppRunBlocks evalCall expecteds).length = expecteds.length ∧
      (∀ i (h : i < (cppRunBlocks evalCall expecteds).length),
        ((cppRunBlocks evalCall expecteds).get ⟨i, h⟩).index = i ∧
        (∀ f, evalCall i = .error f →
          (cppRunBlocks evalCall expecteds).get ⟨i, h⟩ =
            { index := i, actual := .null, expectedSerialized := .null,
              passed := false, error := some f.msg }))) ∧
    (∀ (α : Type) (evalCall : ℕ → Except Fault α) (ser : α → String)
        (parseJson : String → α) (deq : α → α → Bool)
        (expectedJsons : List String),
      (javaRunBlocks evalCall ser parseJson deq expectedJsons).length =
        expectedJsons.length ∧
      (∀ i (h : i < (javaRunBlocks evalCall ser parseJson deq
          expectedJsons).length),
        ((javaRunBlocks evalCall ser parseJson deq expectedJsons).get
          ⟨i, h⟩).index = i ∧
        (∀ f, evalCall i = .error f →
          (javaRunBlocks evalCall ser parseJson deq expectedJsons).get
              ⟨i, h⟩ =
            { index := i, actual := "null", passed := false,
              error := some (f.kind ++ ": " ++ f.msg) }))) ∧
    (∀ (α : Type) (evalCall : ℕ → Except Fault α) (deserialize : String → α)
        (deq : α → α → Bool) (expectedJsons : List String),
      (csRunBlocks evalCall deserialize deq expectedJsons).length =
        expectedJsons.length ∧
      (∀ i (h : i < (csRunBlocks evalCall deserialize deq
          expectedJsons).length),
        ((csRunBlocks evalCall deserialize deq expectedJsons).get
          ⟨i, h⟩).index = i ∧
        (∀ f, evalCall i = .error f →
          (csRunBlocks evalCall deserialize deq expectedJsons).get ⟨i, h⟩ =
            { index := i, actual := Option.none, passed := false,
              error := some (f.kind ++ ": " ++ f.msg) }))) ∧
    (∀ (α : Type) (evalCall : ℕ → Except String α) (unmarshal : String → α)
        (deq : α → α → Bool) (expectedJsons : List String),
      (goRunBlocks evalCall unmarshal deq expectedJsons).length =
        expectedJsons.length ∧
      (∀ i (h : i < (goRunBlocks evalCall unmarshal deq
          expectedJsons).length),
        ((goRunBlocks evalCall unmarshal deq expectedJsons).get
          ⟨i, h⟩).index = i ∧
        (∀ r, evalCall i = .error r →
          (goRunBlocks evalCall unmarshal deq expectedJsons).get ⟨i, h⟩ =
            { index := i, actual := Option.none, passed := false,
              error := r }))) ∧
    (∀ (α : Type) (evalCall : ℕ → Except Fault α) (ser : α → α)
        (deq : α → α → Bool) (expecteds : List α),
      (rubyRunnerLoop evalCall ser deq expecteds).length = expecteds.length ∧
      (∀ i (h : i < (rubyRunnerLoop evalCall ser deq expecteds).length),
        ((rubyRunnerLoop evalCall ser deq expecteds).get ⟨i, h⟩).index = i ∧
        (∀ f, evalCall i = .error f →
          (rubyRunnerLoop evalCall ser deq expecteds).get ⟨i, h⟩ =
            { index := i, actual := Option.none, passed := false,
              error := some (f.kind ++ ": " ++ f.msg) }))) := by
  refine ⟨fun evalCall expecteds => ⟨by simp [pyRunnerLoop], fun i h => ?_⟩,
          fun evalCall parseExpected testCases =>
            ⟨by simp [jsRunnerLoop], fun i h => ?_⟩,
          fun evalCall expecteds => ⟨by simp [cppRunBlocks], fun i h => ?_⟩,
          fun α evalCall ser parseJson deq expectedJsons =>
            ⟨by simp [javaRunBlocks], fun i h => ?_⟩,
          fun α evalCall deserialize deq expectedJsons =>
            ⟨by simp [csRunBlocks], fun i h => ?_⟩,
          fun α evalCall unmarshal deq expectedJsons =>
            ⟨by simp [goRunBlocks], fun i h => ?_⟩,
          fun α evalCall ser deq expecteds =>
            ⟨by simp [rubyRunnerLoop], fun i h => ?_⟩⟩
  · have hlen : i < expecteds.length := by simpa [pyRunnerLoop] using h
    have hget : (pyRunnerLoop evalCall expecteds).get ⟨i, h⟩ =
        (match evalCall i with
         | .ok actual =>
             { index := i, actual := pySerialize actual,
               passed := pyDeepEquals actual (expecteds.get ⟨i, hlen⟩),
               error := Option.none }
         | .error e =>
             { index := i, actual := .noneV, passed := false,
               error := some (e.kind ++ ": " ++ e.msg) }) := by
      simp [pyRunnerLoop]
    constructor
    · rw [hget]; cases evalCall i <;> rfl
    · intro f hf
      rw [hget, hf]
  · have hlen : i < testCases.length := by simpa [jsRunnerLoop] using h
    have hget : (jsRunnerLoop evalCall parseExpected testCases).get ⟨i, h⟩ =
        (match evalCall i with
         | .ok actual =>
             { index := i, actual := jsSerialize actual,
               expectedSerialized :=
                 jsSerialize (parseExpected (testCases.get ⟨i, hlen⟩)),
               passed := deepEquals actual (parseExpected (testCases.get ⟨i, hlen⟩)),
               error := Option.none }
         | .error e =>
             { index := i, actual := .nullV, expectedSerialized := .nullV,
               passed := false, error := some (e.kind ++ ": " ++ e.msg) }) := by
      simp [jsRunnerLoop]
    constructor
    · rw [hget]; cases evalCall i <;> rfl
    · intro f hf
      rw [hget, hf]
  · have hlen : i < expecteds.length := by simpa [cppRunBlocks] using h
    have hget : (cppRunBlocks evalCall expecteds).get ⟨i, h⟩ =
        (match evalCall i with
         | .ok actual =>
             { index := i, actual := serializeValueV actual,
               expectedSerialized := expecteds.get ⟨i, hlen⟩,
               passed := compareResultsV actual (expecteds.get ⟨i, hlen⟩),
               error := Option.none }
         | .error e =>
             { index := i, actual := .null, expectedSerialized := .null,
               passed := false, error := some e.msg }) := by
      simp [cppRunBlocks]
    constructor
    · rw [hget]; cases evalCall i <;> rfl
    · intro f hf
      rw [hget, hf]
  · have hlen : i < expectedJsons.length := by simpa [javaRunBlocks] using h
    have hget : (javaRunBlocks evalCall ser parseJson deq expectedJsons).get
        ⟨i, h⟩ =
        (match evalCall i with
         | .ok actual =>
             { index := i, actual := ser actual,
               passed := deq actual (parseJson (expectedJsons.get ⟨i, hlen⟩)),
               error := Option.none }
         | .error e =>
             { index := i, actual := "null", passed := false,
               error := some (e.kind ++ ": " ++ e.msg) }) := by
      simp [javaRunBlocks]
    constructor
    · rw [hget]; cases evalCall i <;> rfl
    · intro f hf
      rw [hget, hf]
  · have hlen : i < expectedJsons.length := by simpa [csRunBlocks] using h
    have hget : (csRunBlocks evalCall deserialize deq expectedJsons).get
        ⟨i, h⟩ =
        (match evalCall i with
         | .ok actual =>
             { index := i, actual := some actual,
               passed := deq actual (deserialize (expectedJsons.get ⟨i, hlen⟩)),
               error := Option.none }
         | .error e =>
             { index := i, actual := Option.none, passed := false,
               error := some (e.kind ++ ": " ++ e.msg) }) := by
      simp [csRunBlocks]
    constructor
    · rw [hget]; cases evalCall i <;> rfl
    · intro f hf
      rw [hget, hf]
  · have hlen : i < expectedJsons.length := by simpa [goRunBlocks] using h
    have hget : (goRunBlocks evalCall unmarshal deq expectedJsons).get
        ⟨i, h⟩ =
        (match evalCall i with
         | .ok actual =>
             { index := i, actual := some actual,
               passed := deq actual (unmarshal (expectedJsons.get ⟨i, hlen⟩)),
               error := "" }
         | .error r =>
             { index := i, actual := Option.none, passed := false,
               error := r }) := by
      simp [goRunBlocks]
    constructor
    · rw [hget]; cases evalCall i <;> rfl
    · intro r hr
      rw [hget, hr]
  · have hlen : i < expecteds.length := by simpa [rubyRunnerLoop] using h
    have hget : (rubyRunnerLoop evalCall ser deq expecteds).get ⟨i, h⟩ =
        (match evalCall i with
         | .ok actual =>
             { index := i, actual := some (ser actual),
               passed := deq actual (expecteds.get ⟨i, hlen⟩),
               error := Option.none }
         | .error e =>
             { index := i, actual := Option.none, passed := false,
               error := some (e.kind ++ ": " ++ e.msg) }) := by
      simp [rubyRunnerLoop]
    constructor
    · rw [hget]; cases evalCall i <;> rfl
    · intro f hf
      rw [hget, hf]

/-- C7 witness — the amended theorem applied to the Python runner with a
two-case batch whose second call divides by zero (the outcome at position
1 has index 1 and records
`error = "ZeroDivisionError: division by zero"` with `passed = false`)
and to the Go runner with a two-case batch whose second call panics (the
recovered `%v` text is recorded verbatim, with no type-name prefix). -/
theorem c7_runner_loops_error_capture_witness :
    ((pyRunnerLoop
        (fun i => if i = 0 then .ok (.intV 3)
                  else .error ⟨"ZeroDivisionError", "division by zero"⟩)
        [.intV 3, .intV 1]).get ⟨1, by decide⟩).index = 1 ∧
    (pyRunnerLoop
        (fun i => if i = 0 then .ok (.intV 3)
                  else .error ⟨"ZeroDivisionError", "division by zero"⟩)
        [.intV 3, .intV 1]).get ⟨1, by decide⟩ =
      { index := 1, actual := .noneV, passed := false,
        error := some "ZeroDivisionError: division by zero" } ∧
    (goRunBlocks
        (fun i => if i = 0 then Except.ok (3 : ℕ)
                  else .error "runtime error: integer divide by zero")
        (fun _ => 0) (fun a b => a == b) ["3", "1"]).get ⟨1, by decide⟩ =
      { index := 1, actual := Option.none, passed := false,
        error := "runtime error: integer divide by zero" } := by
  refine ⟨((c7_runner_loops_error_capture.1 _ _).2 1 (by decide)).1, ?_, ?_⟩
  · exact ((c7_runner_loops_error_capture.1 _ _).2 1 (by decide)).2
      ⟨"ZeroDivisionError", "division by zero"⟩ rfl
  · exact ((c7_runner_loops_error_capture.2.2.2.2.2.1 ℕ _ _ _ _).2 1
      (by decide)).2 "runtime error: integer divide by zero" rfl

/-- Helper: the `lastNonWs` component of one rewrite step. -/
theorem tupStep_lastNonWs (st : TupState) (c : Char) :
    (tupStep st c).1.lastNonWs = if isJsSpace c then st.lastNonWs else some c := rfl

/-- Helper: the scan state's `lastNonWs` component tracks the nearest
preceding non-whitespace character of the consumed prefix. -/
theorem tupFoldl_lastNonWs (l : List Char) (st : TupState) :
    (l.foldl (fun st c => (tupStep st c).1) st).lastNonWs =
      l.foldl (fun acc c => if isJsSpace c then acc else some c) st.lastNonWs := by
  induction l generalizing st with
  | nil => rfl
  | cons c l ih =>
    rw [List.foldl_cons, List.foldl_cons, ih, tupStep_lastNonWs]

/-- Helper: `tupStateAfter` computes `lastNonWsBefore`. -/
theorem tupStateAfter_lastNonWs (l : List Char) :
    (tupStateAfter l).lastNonWs = lastNonWsBefore l :=
  tupFoldl_lastNonWs l tupInit

/-- Helper: the rewrite's output splits at any prefix. -/
theorem tupRun_append (st : TupState) (l1 l2 : List Char) :
    tupRun st (l1 ++ l2) =
      tupRun st l1 ++ tupRun (l1.foldl (fun st c => (tupStep st c).1) st) l2 := by
  induction l1 generalizing st with
  | nil => rfl
  | cons c l1 ih =>
    simp only [List.cons_append, tupRun, List.foldl_cons, List.append_eq, ih,
      List.append_assoc]

/-- Helper: the characters emitted for `(` outside a string. -/
theorem tupStep_open_paren (st : TupState) (hs : st.inString = false) :
    (tupStep st '(').2 = if callParen st then ['('] else ['['] := by
  cases hcp : callParen st <;> simp [tupStep, hs, hcp]

/-- Helper: the characters emitted for `)` outside a string. -/
theorem tupStep_close_paren (st : TupState) (hs : st.inString = false) :
    (tupStep st ')').2 =
      (if st.stack.head? = some PKind.func then [')'] else [']']) := by
  simp only [tupStep, hs]
  cases hsk : st.stack with
  | nil => simp
  | cons k rest => cases k <;> simp

/-- Helper: decimal digit characters decode back to their value. -/
theorem digitChar_toNat {m : ℕ} (h : m < 10) : (Nat.digitChar m).toNat - 48 = m := by
  interval_cases m <;> rfl

/-- Helper: `digitsToNat` over a snoc. -/
theorem digitsToNat_concat (l : List Char) (c : Char) :
    digitsToNat (l ++ [c]) = 10 * digitsToNat l + (c.toNat - 48) := by
  simp only [digitsToNat, List.foldl_append, List.foldl_cons, List.foldl_nil]

/-- Helper: `digitsToNat` inverts `natDigitsAux` with covering fuel. -/
theorem digitsToNat_natDigitsAux :
    ∀ (fuel n : ℕ), n < 10 ^ fuel → digitsToNat (natDigitsAux fuel n) = n := by
  intro fuel
  induction fuel with
  | zero =>
    intro n h
    interval_cases n
    rfl
  | succ f ih =>
    intro n h
    rw [natDigitsAux]
    split
    · rename_i h10
      have h0 : natDigitsAux 0 n = [] := rfl
      show digitsToNat [Nat.digitChar n] = n
      have h1 : ([Nat.digitChar n] : List Char) = [] ++ [Nat.digitChar n] := rfl
      rw [h1, digitsToNat_concat, digitChar_toNat h10]
      simp [digitsToNat]
    · rename_i h10
      push_neg at h10
      have hdiv : n / 10 < 10 ^ f := by
        rw [Nat.div_lt_iff_lt_mul (by norm_num)]
        rw [pow_succ] at h
        exact h
      rw [digitsToNat_concat, ih _ hdiv, digitChar_toNat (Nat.mod_lt _ (by norm_num))]
      omega

/-- Helper: decimal representations are injective. -/
theorem natDecimalRepr_injective {a b : ℕ}
    (h : natDecimalRepr a = natDecimalRepr b) : a = b := by
  have hd := congrArg String.data h
  simp only [natDecimalRepr] at hd
  have ha : a < 10 ^ (a + 1) :=
    lt_of_lt_of_le (Nat.lt_pow_self (by norm_num) a)
      (pow_le_pow_right₀ (by norm_num) (Nat.le_succ a))
  have hb : b < 10 ^ (b + 1) :=
    lt_of_lt_of_le (Nat.lt_pow_self (by norm_num) b)
      (pow_le_pow_right₀ (by norm_num) (Nat.le_succ b))
  have := congrArg digitsToNat hd
  rwa [digitsToNat_natDigitsAux _ _ ha, digitsToNat_natDigitsAux _ _ hb] at this

/-- Helper: every character of `natDecimalRepr` is a digit. -/
theorem natDecimalRepr_digits (n : ℕ) :
    ∀ c ∈ (natDecimalRepr n).data, c.isDigit = true := by
  intro c hc
  exact natDigitsAux_all_digits (n + 1) n c hc

/-- Helper: placeholders are injective. -/
theorem placeholderCore_injective {a b : ℕ}
    (h : placeholderCore a = placeholderCore b) : a = b := by
  have hd := congrArg String.data h
  simp only [placeholderCore, String.data_append] at hd
  rw [List.append_assoc, List.append_assoc] at hd
  have h1 := List.append_cancel_left hd
  have h2 := List.append_cancel_right h1
  exact natDecimalRepr_injective (String.ext h2)

/-- Helper: placeholder characters are never quotes or backslashes. -/
theorem placeholderCore_chars (idx : ℕ) :
    ∀ c ∈ (placeholderCore idx).data, c ≠ '"' ∧ c ≠ '\\' := by
  intro c hc
  simp only [placeholderCore, String.data_append, List.mem_append] at hc
  rcases hc with (hc | hc) | hc
  · fin_cases hc <;> exact ⟨by decide, by decide⟩
  · have hdig := natDecimalRepr_digits idx c hc
    constructor
    · intro he
      subst he
      exact absurd hdig (by decide)
    · intro he
      subst he
      exact absurd hdig (by decide)
  · fin_cases hc <;> exact ⟨by decide, by decide⟩

/-- Helper: placeholders pass the wrapper-candidate shape test. -/
theorem placeholderShaped_core (idx : ℕ) :
    placeholderShaped (placeholderCore idx) = true := by
  simp only [placeholderShaped, jsStartsWith, jsEndsWith, Bool.and_eq_true]
  constructor
  · rw [List.isPrefixOf_iff_prefix]
    show "__FLOAT_".data <+: (placeholderCore idx).data
    simp only [placeholderCore, String.data_append]
    exact List.prefix_append _ _
  · rw [List.isPrefixOf_iff_prefix]
    show "__".data.reverse <+: (placeholderCore idx).data.reverse
    simp only [placeholderCore, String.data_append, List.reverse_append]
    rw [← List.append_assoc]
    exact List.prefix_append _ _

/-- Helper: `phPairsTokens` resolves the `k`-th placeholder to the `k`-th
token. -/
theorem lookup_phPairsTokens :
    ∀ (toks : List String) (idx k : ℕ) (hk : k < toks.length),
      (phPairsTokens idx toks).lookup (placeholderCore (idx + k)) =
        some (toks.get ⟨k, hk⟩) := by
  intro toks
  induction toks with
  | nil => intro idx k hk; exact absurd hk (by simp)
  | cons t ts ih =>
    intro idx k hk
    cases k with
    | zero =>
      simp only [phPairsTokens, List.lookup, Nat.add_zero]
      rw [beq_self_eq_true]
      rfl
    | succ k2 =>
      simp only [phPairsTokens, List.lookup]
      have hne : (placeholderCore (idx + (k2 + 1)) == placeholderCore idx) = false := by
        rw [beq_eq_false_iff_ne]
        intro he
        have := placeholderCore_injective he
        omega
      rw [hne]
      have := ih (idx + 1) k2 (by simpa using Nat.lt_of_succ_lt_succ hk)
      rw [show idx + 1 + k2 = idx + (k2 + 1) by omega] at this
      rw [this]
      rfl

/-- Helper: `takeDigits` only consumes characters. -/
theorem takeDigits_rest_le (l : List Char) : (takeDigits l).2.length ≤ l.length := by
  induction l with
  | nil => simp [takeDigits]
  | cons c cs ih =>
    simp only [takeDigits]
    split
    · simpa using Nat.le_succ_of_le ih
    · simp

/-- Helper: the digit prefix of `takeDigits` is all digits. -/
theorem takeDigits_all (l : List Char) :
    ∀ c ∈ (takeDigits l).1, c.isDigit = true := by
  induction l with
  | nil => simp [takeDigits]
  | cons c cs ih =>
    simp only [takeDigits]
    split
    · rename_i hd
      intro x hx
      simp only [List.mem_cons] at hx
      rcases hx with hx | hx
      · subst hx; exact hd
      · exact ih x hx
    · simp

/-- Helper: `takeDigits` splits a digit run from a non-digit-headed
tail. -/
theorem takeDigits_prepend (d1 u : List Char) (h1 : ∀ c ∈ d1, c.isDigit = true)
    (h2 : headNotDigit u = true) : takeDigits (d1 ++ u) = (d1, u) := by
  induction d1 with
  | nil =>
    cases u with
    | nil => rfl
    | cons c cs =>
      simp only [headNotDigit, Bool.not_eq_true'] at h2
      simp [takeDigits, h2]
  | cons c cs ih =>
    have hc : c.isDigit = true := h1 c (by simp)
    simp only [List.cons_append, takeDigits, List.append_eq, hc, if_true]
    rw [ih (fun x hx => h1 x (by simp [hx]))]

/-- Helper: `takeDigits` on a digit-headed list consumes the head. -/
theorem takeDigits_cons_digit (c : Char) (cs : List Char) (h : c.isDigit = true) :
    takeDigits (c :: cs) = (c :: (takeDigits cs).1, (takeDigits cs).2) := by
  rw [takeDigits.eq_def]
  simp [h]

/-- Equation lemma: `skipStringSeg` at a closing quote. -/
theorem skipStringSeg_quote (cs : List Char) :
    skipStringSeg ('"' :: cs) = (['"'], cs) := by
  rw [skipStringSeg.eq_def]; simp

/-- Equation lemma: `skipStringSeg` at an escape pair. -/
theorem skipStringSeg_esc (d : Char) (cs2 : List Char) :
    skipStringSeg ('\\' :: d :: cs2) =
      ('\\' :: d :: (skipStringSeg cs2).1, (skipStringSeg cs2).2) := by
  rw [skipStringSeg.eq_def]; simp

/-- Equation lemma: `skipStringSeg` at an ordinary character. -/
theorem skipStringSeg_other (c : Char) (cs : List Char) (h1 : ¬c = '"')
    (h2 : ¬c = '\\') :
    skipStringSeg (c :: cs) = (c :: (skipStringSeg cs).1, (skipStringSeg cs).2) := by
  rw [skipStringSeg.eq_def]; simp [h1, h2]

/-- Helper: `skipStringSeg` only consumes characters. -/
theorem skipStringSeg_rest_le (l : List Char) :
    (skipStringSeg l).2.length ≤ l.length := by
  induction l using skipStringSeg.induct with
  | case1 => simp [skipStringSeg]
  | case2 cs => simp [skipStringSeg_quote]
  | case3 h => rw [skipStringSeg.eq_def]; simp
  | case4 d cs2 seg r heq hne ih =>
    rw [skipStringSeg_esc]
    simp only [List.length_cons]
    omega
  | case5 d cs2 h1 h2 seg r heq ih =>
    rw [skipStringSeg_other d cs2 h1 h2]
    simp only [List.length_cons]
    omega

/-- Equation lemma: `grabSign` without a leading minus. -/
theorem grabSign_no_minus (c : Char) (cs : List Char) (h : ¬c = '-') :
    grabSign (c :: cs) = ([], c :: cs) := by
  rw [grabSign.eq_def]
  split
  · rename_i heq
    cases heq
    exact absurd rfl h
  · rfl

/-- Helper: `grabSign` only consumes characters. -/
theorem grabSign_rest_le (l : List Char) : (grabSign l).2.length ≤ l.length := by
  rw [grabSign.eq_def]
  split <;> simp

/-- Helper: `grabFrac` only consumes characters. -/
theorem grabFrac_rest_le (l : List Char) : (grabFrac l).2.length ≤ l.length := by
  rw [grabFrac.eq_def]
  split
  · rename_i ls
    have := takeDigits_rest_le ls
    simp only [List.length_cons]
    omega
  · simp

/-- Helper: `grabExpSign` only consumes characters. -/
theorem grabExpSign_rest_le (l : List Char) :
    (grabExpSign l).2.length ≤ l.length := by
  rw [grabExpSign.eq_def]
  split
  · simp
  · split <;> simp

/-- Helper: `grabExp` only consumes characters. -/
theorem grabExp_rest_le (l : List Char) : (grabExp l).2.length ≤ l.length := by
  rw [grabExp.eq_def]
  split
  · simp
  · rename_i e ls
    split
    · have h1 := grabExpSign_rest_le ls
      have h2 := takeDigits_rest_le (grabExpSign ls).2
      simp only [List.length_cons]
      omega
    · simp

/-- Helper: `grabNumber` only consumes characters. -/
theorem grabNumber_rest_le (l : List Char) : (grabNumber l).2.length ≤ l.length := by
  have h1 := grabSign_rest_le l
  have h2 := takeDigits_rest_le (grabSign l).2
  have h3 := grabFrac_rest_le (takeDigits (grabSign l).2).2
  have h4 := grabExp_rest_le (grabFrac (takeDigits (grabSign l).2).2).2
  simp only [grabNumber]
  omega

/-- Helper: on a minus- or digit-headed list `grabNumber` consumes at
least one character. -/
theorem grabNumber_rest_lt (c : Char) (cs : List Char)
    (h : (c = '-' || c.isDigit) = true) :
    (grabNumber (c :: cs)).2.length < (c :: cs).length := by
  have h3 := grabFrac_rest_le (takeDigits (grabSign (c :: cs)).2).2
  have h4 := grabExp_rest_le (grabFrac (takeDigits (grabSign (c :: cs)).2).2).2
  by_cases hm : c = '-'
  · subst hm
    have hsgn : grabSign ('-' :: cs) = (['-'], cs) := by
      rw [grabSign.eq_def]
      split
      · rename_i heq
        cases heq
        rfl
      · rename_i hne
        exact (hne cs rfl).elim
    have h2 := takeDigits_rest_le cs
    simp only [grabNumber, hsgn] at h3 h4 ⊢
    simp only [List.length_cons]
    omega
  · have hd : c.isDigit = true := by
      simp only [Bool.or_eq_true, decide_eq_true_eq] at h
      rcases h with h | h
      · exact absurd h hm
      · exact h
    have hsgn : grabSign (c :: cs) = ([], c :: cs) := grabSign_no_minus c cs hm
    have htd : takeDigits (c :: cs) = (c :: (takeDigits cs).1, (takeDigits cs).2) :=
      takeDigits_cons_digit c cs hd
    have h2 := takeDigits_rest_le cs
    simp only [grabNumber, hsgn, htd] at h3 h4 ⊢
    simp only [List.length_cons]
    omega

/-- Equation lemma: `protectRunF` out of fuel. -/
theorem protectRunF_zero (idx : ℕ) (l : List Char) :
    protectRunF 0 idx l = ([], []) := by
  rw [protectRunF.eq_def]

/-- Equation lemma: `protectRunF` on the empty list. -/
theorem protectRunF_nil (f idx : ℕ) : protectRunF (f + 1) idx [] = ([], []) := by
  rw [protectRunF.eq_def]

/-- Equation lemma: `protectRunF` at a string start. -/
theorem protectRunF_quote (f idx : ℕ) (cs : List Char) :
    protectRunF (f + 1) idx ('"' :: cs) =
      ('"' :: ((skipStringSeg cs).1 ++ (protectRunF f idx (skipStringSeg cs).2).1),
       (protectRunF f idx (skipStringSeg cs).2).2) := by
  rw [protectRunF.eq_def]; simp

/-- Equation lemma: `protectRunF` at a number start. -/
theorem protectRunF_num (f idx : ℕ) (c : Char) (cs : List Char) (hq : ¬c = '"')
    (h : (c = '-' || c.isDigit) = true) :
    protectRunF (f + 1) idx (c :: cs) =
      (if isFloatTok (grabNumber (c :: cs)).1
          && (grabNumber (c :: cs)).1.any Char.isDigit then
        ('"' :: ((placeholderCore idx).data
            ++ ('"' :: (protectRunF f (idx + 1) (grabNumber (c :: cs)).2).1)),
         (placeholderCore idx, String.mk (grabNumber (c :: cs)).1)
           :: (protectRunF f (idx + 1) (grabNumber (c :: cs)).2).2)
      else
        ((grabNumber (c :: cs)).1 ++ (protectRunF f idx (grabNumber (c :: cs)).2).1,
         (protectRunF f idx (grabNumber (c :: cs)).2).2)) := by
  rw [protectRunF.eq_def]
  simp only [hq, if_false, h, if_true]

/-- Equation lemma: `protectRunF` at an ordinary character. -/
theorem protectRunF_copy (f idx : ℕ) (c : Char) (cs : List Char) (hq : ¬c = '"')
    (h : (c = '-' || c.isDigit) = false) :
    protectRunF (f + 1) idx (c :: cs) =
      (c :: (protectRunF f idx cs).1, (protectRunF f idx cs).2) := by
  rw [protectRunF.eq_def]
  simp [hq, h]

/-- Helper: with sufficient fuel `protectRunF` does not depend on the
fuel. -/
theorem protectRunF_fuel (f1 : ℕ) : ∀ (f2 idx : ℕ) (l : List Char),
    l.length < f1 → l.length < f2 →
    protectRunF f1 idx l = protectRunF f2 idx l := by
  induction f1 with
  | zero => intro f2 idx l h1; omega
  | succ f ih =>
    intro f2 idx l h1 h2
    cases f2 with
    | zero => omega
    | succ g =>
      cases l with
      | nil => rw [protectRunF_nil, protectRunF_nil]
      | cons c cs =>
        simp only [List.length_cons] at h1 h2
        by_cases hq : c = '"'
        · subst hq
          rw [protectRunF_quote, protectRunF_quote]
          have hb := skipStringSeg_rest_le cs
          rw [ih g idx (skipStringSeg cs).2 (by omega) (by omega)]
        · cases h : (c = '-' || c.isDigit) with
          | true =>
            rw [protectRunF_num f idx c cs hq h, protectRunF_num g idx c cs hq h]
            have hb := grabNumber_rest_lt c cs h
            simp only [List.length_cons] at hb
            rw [ih g (idx + 1) (grabNumber (c :: cs)).2 (by omega) (by omega)]
            rw [ih g idx (grabNumber (c :: cs)).2 (by omega) (by omega)]
          | false =>
            rw [protectRunF_copy f idx c cs hq h, protectRunF_copy g idx c cs hq h]
            rw [ih g idx cs (by omega) (by omega)]

/-- Equation lemma: `protectRun` on the empty list. -/
theorem protectRun_nil (idx : ℕ) : protectRun idx [] = ([], []) := rfl

/-- Equation lemma: `protectRun` at a string start. -/
theorem protectRun_quote (idx : ℕ) (cs : List Char) :
    protectRun idx ('"' :: cs) =
      ('"' :: ((skipStringSeg cs).1 ++ (protectRun idx (skipStringSeg cs).2).1),
       (protectRun idx (skipStringSeg cs).2).2) := by
  show protectRunF (cs.length + 1 + 1) idx ('"' :: cs) = _
  rw [protectRunF_quote]
  have hb := skipStringSeg_rest_le cs
  rw [protectRunF_fuel (cs.length + 1) ((skipStringSeg cs).2.length + 1) idx
    (skipStringSeg cs).2 (by omega) (by omega)]
  rfl

/-- Equation lemma: `protectRun` at a number start. -/
theorem protectRun_num (idx : ℕ) (c : Char) (cs : List Char) (hq : ¬c = '"')
    (h : (c = '-' || c.isDigit) = true) :
    protectRun idx (c :: cs) =
      (if isFloatTok (grabNumber (c :: cs)).1
          && (grabNumber (c :: cs)).1.any Char.isDigit then
        ('"' :: ((placeholderCore idx).data
            ++ ('"' :: (protectRun (idx + 1) (grabNumber (c :: cs)).2).1)),
         (placeholderCore idx, String.mk (grabNumber (c :: cs)).1)
           :: (protectRun (idx + 1) (grabNumber (c :: cs)).2).2)
      else
        ((grabNumber (c :: cs)).1 ++ (protectRun idx (grabNumber (c :: cs)).2).1,
         (protectRun idx (grabNumber (c :: cs)).2).2)) := by
  show protectRunF (cs.length + 1 + 1) idx (c :: cs) = _
  rw [protectRunF_num (cs.length + 1) idx c cs hq h]
  have hb := grabNumber_rest_lt c cs h
  simp only [List.length_cons] at hb
  rw [protectRunF_fuel (cs.length + 1) ((grabNumber (c :: cs)).2.length + 1) (idx + 1)
    (grabNumber (c :: cs)).2 (by omega) (by omega)]
  rw [protectRunF_fuel (cs.length + 1) ((grabNumber (c :: cs)).2.length + 1) idx
    (grabNumber (c :: cs)).2 (by omega) (by omega)]
  rfl

/-- Equation lemma: `protectRun` at an ordinary character. -/
theorem protectRun_copy (idx : ℕ) (c : Char) (cs : List Char) (hq : ¬c = '"')
    (h : (c = '-' || c.isDigit) = false) :
    protectRun idx (c :: cs) =
      (c :: (protectRun idx cs).1, (protectRun idx cs).2) := by
  show protectRunF (cs.length + 1 + 1) idx (c :: cs) = _
  rw [protectRunF_copy (cs.length + 1) idx c cs hq h]
  rfl

/-- Helper: `lexStringBody` and `skipStringSeg` consume the same span:
the protected copy of a string body is the raw span plus the closing
quote. -/
theorem skipStringSeg_of_lex (l : List Char) :
    ∀ raw r, lexStringBody l = some (raw, r) →
      skipStringSeg l = (raw ++ ['"'], r) := by
  induction l using skipStringSeg.induct with
  | case1 =>
    intro raw r h
    simp [lexStringBody] at h
  | case2 cs =>
    intro raw r h
    rw [lexStringBody.eq_def] at h
    simp at h
    obtain ⟨rfl, rfl⟩ := h
    simp [skipStringSeg_quote]
  | case3 hne =>
    intro raw r h
    rw [lexStringBody.eq_def] at h
    simp [hne] at h
  | case4 d cs2 seg r0 heq hne ih =>
    intro raw r h
    rcases h2 : lexStringBody cs2 with _ | ⟨raw0, r1⟩
    · rw [lexStringBody.eq_def] at h
      simp [hne, h2] at h
    · rw [lexStringBody.eq_def] at h
      simp [hne, h2] at h
      obtain ⟨rfl, rfl⟩ := h
      rw [skipStringSeg_esc, ih raw0 r1 h2]
      simp
  | case5 d cs2 h1 h2 seg r0 heq ih =>
    intro raw r h
    rcases h3 : lexStringBody cs2 with _ | ⟨raw0, r1⟩
    · rw [lexStringBody.eq_def] at h
      simp [h1, h2, h3] at h
    · rw [lexStringBody.eq_def] at h
      simp [h1, h2, h3] at h
      obtain ⟨rfl, rfl⟩ := h
      rw [skipStringSeg_other d cs2 h1 h2, ih raw0 r1 h3]
      simp

/-- Helper: re-lexing a raw string span against a fresh closing quote
yields the same span (the protected text re-parses the string it
copied). -/
theorem lexStringBody_refeed (l : List Char) :
    ∀ raw r, lexStringBody l = some (raw, r) →
      ∀ t, lexStringBody (raw ++ '"' :: t) = some (raw, t) := by
  induction l using skipStringSeg.induct with
  | case1 =>
    intro raw r h
    simp [lexStringBody] at h
  | case2 cs =>
    intro raw r h t
    rw [lexStringBody.eq_def] at h
    simp at h
    obtain ⟨rfl, rfl⟩ := h
    rw [lexStringBody.eq_def]
    simp
  | case3 hne =>
    intro raw r h
    rw [lexStringBody.eq_def] at h
    simp [hne] at h
  | case4 d cs2 seg r0 heq hne ih =>
    intro raw r h t
    rcases h2 : lexStringBody cs2 with _ | ⟨raw0, r1⟩
    · rw [lexStringBody.eq_def] at h
      simp [hne, h2] at h
    · rw [lexStringBody.eq_def] at h
      simp [hne, h2] at h
      obtain ⟨rfl, rfl⟩ := h
      rw [lexStringBody.eq_def]
      simp only [List.cons_append, if_neg hne, if_pos rfl]
      rw [ih raw0 r1 h2 t]
      simp
  | case5 d cs2 h1 h2 seg r0 heq ih =>
    intro raw r h t
    rcases h3 : lexStringBody cs2 with _ | ⟨raw0, r1⟩
    · rw [lexStringBody.eq_def] at h
      simp [h1, h2, h3] at h
    · rw [lexStringBody.eq_def] at h
      simp [h1, h2, h3] at h
      obtain ⟨rfl, rfl⟩ := h
      rw [lexStringBody.eq_def]
      simp only [List.cons_append, if_neg h1, if_neg h2]
      rw [ih raw0 r1 h3 t]

/-- Helper: a quote- and backslash-free span lexes as itself (the
placeholder bodies the protection inserts). -/
theorem lexStringBody_clean (l : List Char)
    (h : ∀ c ∈ l, ¬c = '"' ∧ ¬c = '\\') :
    ∀ t, lexStringBody (l ++ '"' :: t) = some (l, t) := by
  induction l with
  | nil =>
    intro t
    rw [lexStringBody.eq_def]
    simp
  | cons c cs ih =>
    intro t
    have hc := h c (by simp)
    rw [lexStringBody.eq_def]
    simp only [List.cons_append, if_neg hc.1, if_neg hc.2]
    rw [ih (fun x hx => h x (by simp [hx])) t]

/-- Helper: `cookEscapes` is the identity on backslash-free spans. -/
theorem cookEscapes_clean (l : List Char) (h : ∀ c ∈ l, ¬c = '\\') :
    cookEscapes l = l := by
  induction l with
  | nil => rfl
  | cons c cs ih =>
    have hc := h c (by simp)
    rw [cookEscapes.eq_def]
    split
    · rename_i heq
      exact absurd heq (by simp)
    · rename_i d rest heq
      cases heq
      exact absurd rfl hc
    · rename_i c2 rest heq
      cases heq
      rw [ih (fun x hx => h x (by simp [hx]))]

/-- Helper: a delimiter character cannot start or extend a number token
and is not a quote. -/
theorem isDelimChar_props (c : Char) (h : isDelimChar c = true) :
    c.isDigit = false ∧ ¬c = '-' ∧ ¬c = '.' ∧ ¬c = 'e' ∧ ¬c = 'E' ∧
      ¬c = '+' ∧ ¬c = '"' := by
  simp only [isDelimChar, isJsonWsChar, Bool.or_eq_true, decide_eq_true_eq] at h
  rcases h with ((((((h | h) | h) | h) | h) | h) | h) | h <;> subst h <;> decide

/-- Helper: a whitespace character is copied by the protection scan. -/
theorem isJsonWsChar_props (c : Char) (h : isJsonWsChar c = true) :
    ¬c = '"' ∧ (c = '-' || c.isDigit) = false := by
  simp only [isJsonWsChar, Bool.or_eq_true, decide_eq_true_eq] at h
  rcases h with ((h | h) | h) | h <;> subst h <;> decide

/-- Equation lemma: `grabSign` with a leading minus. -/
theorem grabSign_minus (ls : List Char) : grabSign ('-' :: ls) = (['-'], ls) := by
  rw [grabSign.eq_def]
  split
  · rename_i heq
    cases heq
    rfl
  · rename_i hne
    exact (hne ls rfl).elim

/-- Equation lemma: `grabFrac` at a dot. -/
theorem grabFrac_dot (ls : List Char) :
    grabFrac ('.' :: ls) = ('.' :: (takeDigits ls).1, (takeDigits ls).2) := by
  rw [grabFrac.eq_def]
  split
  · rename_i heq
    cases heq
    rfl
  · rename_i hne
    exact (hne ls rfl).elim

/-- Equation lemma: `grabFrac` away from a dot. -/
theorem grabFrac_no_dot (c : Char) (cs : List Char) (h : ¬c = '.') :
    grabFrac (c :: cs) = ([], c :: cs) := by
  rw [grabFrac.eq_def]
  split
  · rename_i heq
    cases heq
    exact absurd rfl h
  · rfl

/-- Equation lemma: `grabExpSign` at a sign. -/
theorem grabExpSign_sign (c : Char) (ls : List Char) (h : c = '+' ∨ c = '-') :
    grabExpSign (c :: ls) = ([c], ls) := by
  rw [grabExpSign.eq_def]
  rcases h with h | h <;> subst h <;> simp

/-- Equation lemma: `grabExpSign` away from a sign. -/
theorem grabExpSign_no_sign (c : Char) (ls : List Char) (h1 : ¬c = '+')
    (h2 : ¬c = '-') : grabExpSign (c :: ls) = ([], c :: ls) := by
  rw [grabExpSign.eq_def]
  simp [h1, h2]

/-- Equation lemma: `grabExp` at an exponent marker. -/
theorem grabExp_e (e : Char) (ls : List Char) (h : e = 'e' ∨ e = 'E') :
    grabExp (e :: ls) =
      (e :: ((grabExpSign ls).1 ++ (takeDigits (grabExpSign ls).2).1),
       (takeDigits (grabExpSign ls).2).2) := by
  rw [grabExp.eq_def]
  rcases h with h | h <;> subst h <;> simp

/-- Equation lemma: `grabExp` away from an exponent marker. -/
theorem grabExp_no_e (e : Char) (ls : List Char) (h1 : ¬e = 'e') (h2 : ¬e = 'E') :
    grabExp (e :: ls) = ([], e :: ls) := by
  rw [grabExp.eq_def]
  simp [h1, h2]

/-- Helper: `takeDigits` stops at a non-digit head. -/
theorem takeDigits_stop (l : List Char) (h : headNotDigit l = true) :
    takeDigits l = ([], l) := by
  cases l with
  | nil => rfl
  | cons c cs =>
    simp only [headNotDigit, Bool.not_eq_true'] at h
    rw [takeDigits.eq_def]
    simp [h]

/-- Shape of `grabSign`: nothing, or the leading minus. -/
theorem grabSign_eq (l : List Char) :
    grabSign l = ([], l) ∨ ∃ ls, l = '-' :: ls ∧ grabSign l = (['-'], ls) := by
  cases l with
  | nil => left; rfl
  | cons c ls =>
    by_cases h : c = '-'
    · subst h
      exact Or.inr ⟨ls, rfl, grabSign_minus ls⟩
    · exact Or.inl (grabSign_no_minus c ls h)

/-- Shape of `grabFrac`: nothing, or a dot and a digit run. -/
theorem grabFrac_eq (l : List Char) :
    grabFrac l = ([], l) ∨
      ∃ ls, l = '.' :: ls ∧
        grabFrac l = ('.' :: (takeDigits ls).1, (takeDigits ls).2) := by
  cases l with
  | nil => left; rfl
  | cons c ls =>
    by_cases h : c = '.'
    · subst h
      exact Or.inr ⟨ls, rfl, grabFrac_dot ls⟩
    · exact Or.inl (grabFrac_no_dot c ls h)

/-- Shape of `grabExpSign`: nothing, or one sign character. -/
theorem grabExpSign_eq (l : List Char) :
    grabExpSign l = ([], l) ∨
      ∃ c ls, l = c :: ls ∧ (c = '+' ∨ c = '-') ∧ grabExpSign l = ([c], ls) := by
  cases l with
  | nil => left; rfl
  | cons c ls =>
    by_cases h1 : c = '+'
    · exact Or.inr ⟨c, ls, rfl, Or.inl h1, grabExpSign_sign c ls (Or.inl h1)⟩
    · by_cases h2 : c = '-'
      · exact Or.inr ⟨c, ls, rfl, Or.inr h2, grabExpSign_sign c ls (Or.inr h2)⟩
      · exact Or.inl (grabExpSign_no_sign c ls h1 h2)

/-- Shape of `grabExp`: nothing, or a marker, optional sign and digit
run. -/
theorem grabExp_eq (l : List Char) :
    grabExp l = ([], l) ∨
      ∃ e ls, l = e :: ls ∧ (e = 'e' ∨ e = 'E') ∧
        grabExp l =
          (e :: ((grabExpSign ls).1 ++ (takeDigits (grabExpSign ls).2).1),
           (takeDigits (grabExpSign ls).2).2) := by
  cases l with
  | nil => left; rfl
  | cons e ls =>
    by_cases h1 : e = 'e'
    · exact Or.inr ⟨e, ls, rfl, Or.inl h1, grabExp_e e ls (Or.inl h1)⟩
    · by_cases h2 : e = 'E'
      · exact Or.inr ⟨e, ls, rfl, Or.inr h2, grabExp_e e ls (Or.inr h2)⟩
      · exact Or.inl (grabExp_no_e e ls h1 h2)

/-- Helper: the sign characters are not digits. -/
theorem sign_not_digit (c : Char) (h : c = '+' ∨ c = '-') : c.isDigit = false := by
  rcases h with h | h <;> subst h <;> decide

/-- Helper: a number token rescans to itself before a delimiter-headed
remainder (`parseFloat`/`JSON.parse` re-read exactly the protected
token). -/
theorem grabNumber_refeed (l u : List Char) (hu : delimHeadB u = true) :
    grabNumber ((grabNumber l).1 ++ u) = ((grabNumber l).1, u) := by
  have huh : ∀ c cs, u = c :: cs →
      c.isDigit = false ∧ ¬c = '-' ∧ ¬c = '.' ∧ ¬c = 'e' ∧ ¬c = 'E' ∧
        ¬c = '+' ∧ ¬c = '"' := by
    intro c cs hc
    subst hc
    exact isDelimChar_props c (by simpa [delimHeadB] using hu)
  have hund : headNotDigit u = true := by
    cases u with
    | nil => rfl
    | cons c cs => simp [headNotDigit, (huh c cs rfl).1]
  simp only [grabNumber, List.append_assoc]
  rcases hS : grabSign l with ⟨N, L1⟩
  rcases hT : takeDigits L1 with ⟨D1, L2⟩
  rcases hF : grabFrac L2 with ⟨FR, L3⟩
  rcases hE : grabExp L3 with ⟨EX, L4⟩
  simp only
  have hD1 : ∀ c ∈ D1, c.isDigit = true := by
    have := takeDigits_all L1
    rw [hT] at this
    exact this
  have hNshape : N = [] ∨ N = ['-'] := by
    rcases grabSign_eq l with h | ⟨ls, hl, h⟩ <;> rw [h] at hS
    · injection hS with h1 h2
      exact Or.inl h1.symm
    · injection hS with h1 h2
      exact Or.inr h1.symm
  have hFRshape : FR = [] ∨ ∃ ds, FR = '.' :: ds ∧ ∀ c ∈ ds, c.isDigit = true := by
    rcases grabFrac_eq L2 with h | ⟨ls, hl, h⟩ <;> rw [h] at hF
    · injection hF with h1 h2
      exact Or.inl h1.symm
    · injection hF with h1 h2
      exact Or.inr ⟨(takeDigits ls).1, h1.symm, takeDigits_all ls⟩
  have hEXshape : EX = [] ∨ ∃ e sgn ds, EX = e :: (sgn ++ ds) ∧
      (e = 'e' ∨ e = 'E') ∧ (sgn = [] ∨ ∃ c, sgn = [c] ∧ (c = '+' ∨ c = '-')) ∧
      ∀ c ∈ ds, c.isDigit = true := by
    rcases grabExp_eq L3 with h | ⟨e, ls, hl, he, h⟩ <;> rw [h] at hE
    · injection hE with h1 h2
      exact Or.inl h1.symm
    · injection hE with h1 h2
      refine Or.inr ⟨e, (grabExpSign ls).1, (takeDigits (grabExpSign ls).2).1,
        h1.symm, he, ?_, takeDigits_all (grabExpSign ls).2⟩
      rcases grabExpSign_eq ls with h2 | ⟨c, ls0, hls, hc, h2⟩ <;> rw [h2]
      · exact Or.inl rfl
      · exact Or.inr ⟨c, rfl, hc⟩
  have hEXu : headNotDigit (EX ++ u) = true := by
    rcases hEXshape with h | ⟨e, sgn, ds, h, he, hsgn, hds⟩ <;> subst h
    · simpa using hund
    · have : e.isDigit = false := by rcases he with h | h <;> subst h <;> decide
      simp [headNotDigit, this]
  have SE : grabExp (EX ++ u) = (EX, u) := by
    rcases hEXshape with h | ⟨e, sgn, ds, h, he, hsgn, hds⟩ <;> subst h
    · simp only [List.nil_append]
      cases u with
      | nil => rfl
      | cons c cs =>
        obtain ⟨_, _, _, he', hE', _, _⟩ := huh c cs rfl
        exact grabExp_no_e c cs he' hE'
    · rw [List.cons_append, List.append_assoc, grabExp_e e _ he]
      have hsgnstep : grabExpSign (sgn ++ (ds ++ u)) = (sgn, ds ++ u) := by
        rcases hsgn with h | ⟨c, hc, hpm⟩
        · subst h
          simp only [List.nil_append]
          cases hds2 : ds with
          | nil =>
            subst hds2
            simp only [List.nil_append]
            cases u with
            | nil => rfl
            | cons c cs =>
              obtain ⟨_, hm, _, _, _, hp, _⟩ := huh c cs rfl
              exact grabExpSign_no_sign c cs hp hm
          | cons c0 ds0 =>
            have hc0 : c0.isDigit = true := hds c0 (by simp [hds2])
            have h1 : ¬c0 = '+' := by intro h; subst h; simp at hc0
            have h2 : ¬c0 = '-' := by intro h; subst h; simp at hc0
            subst hds2
            rw [List.cons_append]
            exact grabExpSign_no_sign c0 _ h1 h2
        · subst hc
          rw [List.singleton_append]
          exact grabExpSign_sign c _ hpm
      rw [hsgnstep]
      simp only
      rw [takeDigits_prepend ds u hds hund]
  have SF : grabFrac (FR ++ (EX ++ u)) = (FR, EX ++ u) := by
    rcases hFRshape with h | ⟨ds, h, hds⟩ <;> subst h
    · simp only [List.nil_append]
      rcases hEXshape with h | ⟨e, sgn, ds, h, he, _, _⟩ <;> subst h
      · simp only [List.nil_append]
        cases u with
        | nil => rfl
        | cons c cs =>
          obtain ⟨_, _, hdot, _, _, _, _⟩ := huh c cs rfl
          exact grabFrac_no_dot c cs hdot
      · rw [List.cons_append]
        have hdot : ¬e = '.' := by rcases he with h | h <;> subst h <;> decide
        exact grabFrac_no_dot e _ hdot
    · rw [List.cons_append, grabFrac_dot,
        takeDigits_prepend ds (EX ++ u) hds hEXu]
  have hFRu : headNotDigit (FR ++ (EX ++ u)) = true := by
    rcases hFRshape with h | ⟨ds, h, _⟩ <;> subst h
    · simpa using hEXu
    · simp [headNotDigit]
  have SD : takeDigits (D1 ++ (FR ++ (EX ++ u))) = (D1, FR ++ (EX ++ u)) :=
    takeDigits_prepend D1 _ hD1 hFRu
  have SN : grabSign (N ++ (D1 ++ (FR ++ (EX ++ u)))) =
      (N, D1 ++ (FR ++ (EX ++ u))) := by
    rcases hNshape with h | h <;> subst h
    · simp only [List.nil_append]
      cases hD12 : D1 with
      | nil =>
        subst hD12
        simp only [List.nil_append]
        rcases hFRshape with h | ⟨ds, h, _⟩ <;> subst h
        · simp only [List.nil_append]
          rcases hEXshape with h | ⟨e, sgn, ds, h, he, _, _⟩ <;> subst h
          · simp only [List.nil_append]
            cases u with
            | nil => rfl
            | cons c cs =>
              obtain ⟨_, hm, _, _, _, _, _⟩ := huh c cs rfl
              exact grabSign_no_minus c cs hm
          · rw [List.cons_append]
            have hm : ¬e = '-' := by rcases he with h | h <;> subst h <;> decide
            exact grabSign_no_minus e _ hm
        · rw [List.cons_append]
          exact grabSign_no_minus '.' _ (by decide)
      | cons c0 ds0 =>
        have hc0 : c0.isDigit = true := hD1 c0 (by simp [hD12])
        have hm : ¬c0 = '-' := by intro h; subst h; simp at hc0
        subst hD12
        rw [List.cons_append]
        exact grabSign_no_minus c0 _ hm
    · rw [List.singleton_append]
      exact grabSign_minus _
  rw [SN]
  simp only
  rw [SD]
  simp only
  rw [SF]
  simp only
  rw [SE]

/-- Helper: the token grabbed at a minus- or digit-head starts with that
character. -/
theorem grabNumber_fst_head (c : Char) (cs : List Char)
    (h : (c = '-' || c.isDigit) = true) :
    ∃ t, (grabNumber (c :: cs)).1 = c :: t := by
  by_cases hm : c = '-'
  · subst hm
    refine ⟨(takeDigits cs).1 ++ ((grabFrac (takeDigits cs).2).1 ++
      (grabExp (grabFrac (takeDigits cs).2).2).1), ?_⟩
    simp [grabNumber, grabSign_minus]
  · have hd : c.isDigit = true := by
      simp only [Bool.or_eq_true, decide_eq_true_eq] at h
      rcases h with h | h
      · exact absurd h hm
      · exact h
    refine ⟨(takeDigits cs).1 ++ ((grabFrac (takeDigits cs).2).1 ++
      (grabExp (grabFrac (takeDigits cs).2).2).1), ?_⟩
    simp [grabNumber, grabSign_no_minus c cs hm, takeDigits_cons_digit c cs hd]

/-- Helper: the protection scan commutes with leading-whitespace removal:
protecting after skipping whitespace yields the whitespace-stripped
protected text, and the same pairs. -/
theorem protectRun_skipWs (idx : ℕ) (s : List Char) :
    (protectRun idx (skipWsJ s)).1 = skipWsJ (protectRun idx s).1 ∧
      (protectRun idx (skipWsJ s)).2 = (protectRun idx s).2 := by
  induction s with
  | nil => exact ⟨rfl, rfl⟩
  | cons c cs ih =>
    by_cases hw : isJsonWsChar c = true
    · obtain ⟨hq, hn⟩ := isJsonWsChar_props c hw
      have hskip : skipWsJ (c :: cs) = skipWsJ cs := by
        rw [skipWsJ.eq_def]; simp [hw]
      rw [hskip, protectRun_copy idx c cs hq hn]
      dsimp only
      have hskip2 : skipWsJ (c :: (protectRun idx cs).1) =
          skipWsJ (protectRun idx cs).1 := by
        rw [skipWsJ.eq_def]; simp [hw]
      rw [hskip2]
      exact ih
    · have hskip : skipWsJ (c :: cs) = c :: cs := by
        rw [skipWsJ.eq_def]; simp [hw]
      rw [hskip]
      refine ⟨?_, rfl⟩
      by_cases hq : c = '"'
      · subst hq
        rw [protectRun_quote]
        dsimp only
        rw [skipWsJ.eq_def]
        simp [isJsonWsChar]
      · cases hn : (c = '-' || c.isDigit) with
        | true =>
          rw [protectRun_num idx c cs hq hn]
          obtain ⟨t, ht⟩ := grabNumber_fst_head c cs hn
          split
          · dsimp only
            rw [skipWsJ.eq_def]
            simp [isJsonWsChar]
          · dsimp only
            rw [ht, List.cons_append]
            rw [skipWsJ.eq_def]
            simp [hw]
        | false =>
          rw [protectRun_copy idx c cs hq hn]
          dsimp only
          rw [skipWsJ.eq_def]
          simp [hw]

/-- Helper: the protection scan preserves a delimiter-headed remainder
(delimiters are copied verbatim). -/
theorem protectRun_delimHead (idx : ℕ) (r : List Char)
    (h : delimHeadB r = true) : delimHeadB (protectRun idx r).1 = true := by
  cases r with
  | nil => rw [protectRun_nil]; rfl
  | cons c cs =>
    have hc : isDelimChar c = true := by simpa [delimHeadB] using h
    obtain ⟨hdig, hm, _, _, _, _, hq⟩ := isDelimChar_props c hc
    have hn : (c = '-' || c.isDigit) = false := by simp [hm, hdig]
    rw [protectRun_copy idx c cs hq hn]
    simpa [delimHeadB] using hc

/-- Helper: `skipWsJ` only drops characters. -/
theorem skipWsJ_le (s : List Char) : (skipWsJ s).length ≤ s.length := by
  induction s with
  | nil => simp [skipWsJ]
  | cons c cs ih =>
    simp only [skipWsJ]
    split
    · simp only [List.length_cons]
      omega
    · simp

/-- Helper: the string lexer only consumes characters. -/
theorem lexStringBody_rest_le (l raw r : List Char)
    (h : lexStringBody l = some (raw, r)) : r.length ≤ l.length := by
  have h2 := skipStringSeg_of_lex l raw r h
  have h3 := skipStringSeg_rest_le l
  rw [h2] at h3
  exact h3

/-- Helper: all six parser loops only consume characters. -/
theorem parse_consume {ν : Type} (mkNum : List Char → Bool → Option ν) :
    ∀ f : ℕ,
      (∀ s v r, parseValue mkNum f s = some (v, r) → r.length ≤ s.length) ∧
      (∀ s v r, parseElems0 mkNum f s = some (v, r) → r.length ≤ s.length) ∧
      (∀ s vs r, parseElemsRest mkNum f s = some (vs, r) → r.length ≤ s.length) ∧
      (∀ s v r, parseMembers0 mkNum f s = some (v, r) → r.length ≤ s.length) ∧
      (∀ s kv r, parseMember mkNum f s = some (kv, r) → r.length ≤ s.length) ∧
      (∀ s kvs r, parseMembersRest mkNum f s = some (kvs, r) → r.length ≤ s.length) := by
  intro f
  induction f with
  | zero =>
    refine ⟨?_, ?_, ?_, ?_, ?_, ?_⟩ <;> intro s a b h <;>
      simp [parseValue, parseElems0, parseElemsRest, parseMembers0,
        parseMember, parseMembersRest] at h
  | succ f ih =>
    obtain ⟨ihv, ihe0, iher, ihm0, ihm, ihmr⟩ := ih
    refine ⟨?_, ?_, ?_, ?_, ?_, ?_⟩
    · -- parseValue
      intro s v r h
      rw [parseValue.eq_def] at h
      dsimp only at h
      split at h
      · exact absurd h (by simp)
      · rename_i c rest heqsw
        have hrest : rest.length + 1 ≤ s.length := by
          have := skipWsJ_le s
          rw [heqsw] at this
          simpa using this
        split at h
        · have := ihm0 rest v r h
          omega
        · split at h
          · have := ihe0 rest v r h
            omega
          · split at h
            · split at h
              · rename_i raw r2 heqlex
                simp only [Option.some.injEq, Prod.mk.injEq] at h
                obtain ⟨-, rfl⟩ := h
                have := lexStringBody_rest_le rest raw _ heqlex
                omega
              · exact absurd h (by simp)
            · split at h
              · split at h
                · rename_i r2
                  simp only [Option.some.injEq, Prod.mk.injEq] at h
                  obtain ⟨-, rfl⟩ := h
                  simp only [List.length_cons] at hrest
                  omega
                · exact absurd h (by simp)
              · split at h
                · split at h
                  · rename_i r2
                    simp only [Option.some.injEq, Prod.mk.injEq] at h
                    obtain ⟨-, rfl⟩ := h
                    simp only [List.length_cons] at hrest
                    omega
                  · exact absurd h (by simp)
                · split at h
                  · split at h
                    · rename_i r2
                      simp only [Option.some.injEq, Prod.mk.injEq] at h
                      obtain ⟨-, rfl⟩ := h
                      simp only [List.length_cons] at hrest
                      omega
                    · exact absurd h (by simp)
                  · split at h
                    · -- number branch
                      split at h
                      · split at h
                        · rename_i v0 heqmk
                          simp only [Option.some.injEq, Prod.mk.injEq] at h
                          obtain ⟨-, rfl⟩ := h
                          have := grabNumber_rest_le (c :: rest)
                          simp only [List.length_cons] at this
                          omega
                        · exact absurd h (by simp)
                      · exact absurd h (by simp)
                    · exact absurd h (by simp)
    · -- parseElems0
      intro s v r h
      rw [parseElems0.eq_def] at h
      dsimp only at h
      have hsw := skipWsJ_le s
      split at h
      · rename_i r0 heqsw
        simp only [Option.some.injEq, Prod.mk.injEq] at h
        obtain ⟨-, rfl⟩ := h
        rw [heqsw] at hsw
        simp at hsw
        omega
      · rename_i s2 hne
        split at h
        · rename_i v0 r0 heqv
          split at h
          · rename_i vs r2 heqr
            simp only [Option.some.injEq, Prod.mk.injEq] at h
            obtain ⟨-, rfl⟩ := h
            have h1 := ihv (skipWsJ s) v0 r0 heqv
            have h2 := iher r0 vs _ heqr
            omega
          · exact absurd h (by simp)
        · exact absurd h (by simp)
    · -- parseElemsRest
      intro s vs r h
      rw [parseElemsRest.eq_def] at h
      dsimp only at h
      have hsw := skipWsJ_le s
      split at h
      · rename_i r0 heqsw
        simp only [Option.some.injEq, Prod.mk.injEq] at h
        obtain ⟨-, rfl⟩ := h
        rw [heqsw] at hsw
        simp at hsw
        omega
      · rename_i r0 heqsw
        split at h
        · rename_i v0 r1 heqv
          split at h
          · rename_i vs2 r2 heqr
            simp only [Option.some.injEq, Prod.mk.injEq] at h
            obtain ⟨-, rfl⟩ := h
            have h1 := ihv r0 v0 r1 heqv
            have h2 := iher r1 vs2 _ heqr
            rw [heqsw] at hsw
            simp at hsw
            omega
          · exact absurd h (by simp)
        · exact absurd h (by simp)
      · exact absurd h (by simp)
    · -- parseMembers0
      intro s v r h
      rw [parseMembers0.eq_def] at h
      dsimp only at h
      have hsw := skipWsJ_le s
      split at h
      · rename_i r0 heqsw
        simp only [Option.some.injEq, Prod.mk.injEq] at h
        obtain ⟨-, rfl⟩ := h
        rw [heqsw] at hsw
        simp at hsw
        omega
      · rename_i s2 hne
        split at h
        · rename_i kv r0 heqm
          split at h
          · rename_i kvs r2 heqr
            simp only [Option.some.injEq, Prod.mk.injEq] at h
            obtain ⟨-, rfl⟩ := h
            have h1 := ihm (skipWsJ s) kv r0 heqm
            have h2 := ihmr r0 kvs _ heqr
            omega
          · exact absurd h (by simp)
        · exact absurd h (by simp)
    · -- parseMember
      intro s kv r h
      rw [parseMember.eq_def] at h
      dsimp only at h
      have hsw := skipWsJ_le s
      split at h
      · rename_i r0 heqsw
        split at h
        · rename_i raw r2 heqlex
          split at h
          · rename_i r3 heqsw2
            split at h
            · rename_i v0 r4 heqv
              simp only [Option.some.injEq, Prod.mk.injEq] at h
              obtain ⟨-, rfl⟩ := h
              have h1 := lexStringBody_rest_le r0 raw r2 heqlex
              have h2 := skipWsJ_le r2
              rw [heqsw2] at h2
              simp only [List.length_cons] at h2
              have h3 := ihv r3 v0 _ heqv
              rw [heqsw] at hsw
              simp at hsw
              omega
            · exact absurd h (by simp)
          · exact absurd h (by simp)
        · exact absurd h (by simp)
      · exact absurd h (by simp)
    · -- parseMembersRest
      intro s kvs r h
      rw [parseMembersRest.eq_def] at h
      dsimp only at h
      have hsw := skipWsJ_le s
      split at h
      · rename_i r0 heqsw
        simp only [Option.some.injEq, Prod.mk.injEq] at h
        obtain ⟨-, rfl⟩ := h
        rw [heqsw] at hsw
        simp at hsw
        omega
      · rename_i r0 heqsw
        split at h
        · rename_i kv r1 heqm
          split at h
          · rename_i kvs2 r2 heqr
            simp only [Option.some.injEq, Prod.mk.injEq] at h
            obtain ⟨-, rfl⟩ := h
            have h1 := ihm r0 kv r1 heqm
            have h2 := ihmr r1 kvs2 _ heqr
            rw [heqsw] at hsw
            simp at hsw
            omega
          · exact absurd h (by simp)
        · exact absurd h (by simp)
      · exact absurd h (by simp)

/-- Helper: above the canonical threshold the parsers do not depend on
the fuel. -/
theorem parse_fuel {ν : Type} (mkNum : List Char → Bool → Option ν) :
    ∀ f1 f2 : ℕ,
      (∀ s, 2 * s.length + 1 < f1 → 2 * s.length + 1 < f2 →
        parseValue mkNum f1 s = parseValue mkNum f2 s) ∧
      (∀ s, 2 * s.length + 2 < f1 → 2 * s.length + 2 < f2 →
        parseElems0 mkNum f1 s = parseElems0 mkNum f2 s) ∧
      (∀ s, 2 * s.length + 1 < f1 → 2 * s.length + 1 < f2 →
        parseElemsRest mkNum f1 s = parseElemsRest mkNum f2 s) ∧
      (∀ s, 2 * s.length + 2 < f1 → 2 * s.length + 2 < f2 →
        parseMembers0 mkNum f1 s = parseMembers0 mkNum f2 s) ∧
      (∀ s, 2 * s.length + 1 < f1 → 2 * s.length + 1 < f2 →
        parseMember mkNum f1 s = parseMember mkNum f2 s) ∧
      (∀ s, 2 * s.length + 1 < f1 → 2 * s.length + 1 < f2 →
        parseMembersRest mkNum f1 s = parseMembersRest mkNum f2 s) := by
  intro f1
  induction f1 with
  | zero =>
    intro f2
    refine ⟨?_, ?_, ?_, ?_, ?_, ?_⟩ <;> intro s hb1 hb2 <;> omega
  | succ f ih =>
    intro f2
    cases f2 with
    | zero =>
      refine ⟨?_, ?_, ?_, ?_, ?_, ?_⟩ <;> intro s hb1 hb2 <;> omega
    | succ g =>
      obtain ⟨ihv, ihe0, iher, ihm0, ihm, ihmr⟩ := ih g
      refine ⟨?_, ?_, ?_, ?_, ?_, ?_⟩
      · -- parseValue
        intro s hb1 hb2
        conv_lhs => rw [parseValue.eq_def]
        conv_rhs => rw [parseValue.eq_def]
        dsimp only
        cases heq : skipWsJ s with
        | nil => rfl
        | cons c rest =>
          have hrest : rest.length + 1 ≤ s.length := by
            have := skipWsJ_le s
            rw [heq] at this
            simpa using this
          by_cases h1 : c = '{'
          · simp only [if_pos h1]
            exact ihm0 rest (by omega) (by omega)
          · simp only [if_neg h1]
            by_cases h2 : c = '['
            · simp only [if_pos h2]
              exact ihe0 rest (by omega) (by omega)
            · simp only [if_neg h2]
      · -- parseElems0
        intro s hb1 hb2
        have hsw := skipWsJ_le s
        conv_lhs => rw [parseElems0.eq_def]
        conv_rhs => rw [parseElems0.eq_def]
        dsimp only
        split
        · rfl
        · rw [ihv (skipWsJ s) (by omega) (by omega)]
          split
          · rename_i v r heqv
            have hr := (parse_consume mkNum g).1 (skipWsJ s) v r heqv
            rw [iher r (by omega) (by omega)]
          · rfl
      · -- parseElemsRest
        intro s hb1 hb2
        have hsw := skipWsJ_le s
        conv_lhs => rw [parseElemsRest.eq_def]
        conv_rhs => rw [parseElemsRest.eq_def]
        dsimp only
        split
        · rfl
        · rename_i r0 heqsw
          have hr0 : r0.length + 1 ≤ s.length := by
            rw [heqsw] at hsw
            simpa using hsw
          rw [ihv r0 (by omega) (by omega)]
          split
          · rename_i v r1 heqv
            have hr1 := (parse_consume mkNum g).1 r0 v r1 heqv
            rw [iher r1 (by omega) (by omega)]
          · rfl
        · rfl
      · -- parseMembers0
        intro s hb1 hb2
        have hsw := skipWsJ_le s
        conv_lhs => rw [parseMembers0.eq_def]
        conv_rhs => rw [parseMembers0.eq_def]
        dsimp only
        split
        · rfl
        · rw [ihm (skipWsJ s) (by omega) (by omega)]
          split
          · rename_i kv r heqm
            have hr := (parse_consume mkNum g).2.2.2.2.1 (skipWsJ s) kv r heqm
            rw [ihmr r (by omega) (by omega)]
          · rfl
      · -- parseMember
        intro s hb1 hb2
        have hsw := skipWsJ_le s
        conv_lhs => rw [parseMember.eq_def]
        conv_rhs => rw [parseMember.eq_def]
        dsimp only
        split
        · rename_i r0 heqsw
          have hr0 : r0.length + 1 ≤ s.length := by
            rw [heqsw] at hsw
            simpa using hsw
          split
          · rename_i raw r2 heqlex
            have hr2 := lexStringBody_rest_le r0 raw r2 heqlex
            have hsw2 := skipWsJ_le r2
            split
            · rename_i r3 heqsw2
              have hr3 : r3.length + 1 ≤ r2.length := by
                rw [heqsw2] at hsw2
                simpa using hsw2
              rw [ihv r3 (by omega) (by omega)]
            · rfl
          · rfl
        · rfl
      · -- parseMembersRest
        intro s hb1 hb2
        have hsw := skipWsJ_le s
        conv_lhs => rw [parseMembersRest.eq_def]
        conv_rhs => rw [parseMembersRest.eq_def]
        dsimp only
        split
        · rfl
        · rename_i r0 heqsw
          have hr0 : r0.length + 1 ≤ s.length := by
            rw [heqsw] at hsw
            simpa using hsw
          rw [ihm r0 (by omega) (by omega)]
          split
          · rename_i kv r1 heqm
            have hr1 := (parse_consume mkNum g).2.2.2.2.1 r0 kv r1 heqm
            rw [ihmr r1 (by omega) (by omega)]
          · rfl
        · rfl

/-- Helper: float-map entries of a concatenated token list. -/
theorem phPairsTokens_append (a b : List String) : ∀ idx,
    phPairsTokens idx (a ++ b) =
      phPairsTokens idx a ++ phPairsTokens (idx + a.length) b := by
  induction a with
  | nil => intro idx; simp [phPairsTokens]
  | cons t ts ih =>
    intro idx
    simp only [List.cons_append, phPairsTokens, List.append_eq,
      List.length_cons, ih (idx + 1)]
    have h2 : idx + 1 + ts.length = idx + (ts.length + 1) := by omega
    rw [h2]

/-- Helper: a character that can start a number token is neither
whitespace nor any other branch head of the value parser. -/
theorem numStart_props (c : Char) (h : (c = '-' || c.isDigit) = true) :
    isJsonWsChar c = false ∧ ¬c = '{' ∧ ¬c = '[' ∧ ¬c = '"' ∧ ¬c = 't' ∧
      ¬c = 'f' ∧ ¬c = 'n' := by
  by_cases hm : c = '-'
  · subst hm; decide
  · have hd : c.isDigit = true := by
      simp only [Bool.or_eq_true, decide_eq_true_eq] at h
      rcases h with h | h
      · exact absurd h hm
      · exact h
    refine ⟨?_, ?_, ?_, ?_, ?_, ?_, ?_⟩
    · by_contra hw
      rw [Bool.not_eq_false] at hw
      simp only [isJsonWsChar, Bool.or_eq_true, decide_eq_true_eq] at hw
      rcases hw with ((h2 | h2) | h2) | h2 <;> subst h2 <;> simp at hd
    all_goals intro h2 <;> subst h2 <;> simp at hd

/-- Helper: the head of a protected text is a quote or the head of the
original text. -/
theorem protect_head (idx : ℕ) (s : List Char) (c : Char) (t : List Char)
    (h : (protectRun idx s).1 = c :: t) : c = '"' ∨ ∃ t0, s = c :: t0 := by
  cases s with
  | nil => rw [protectRun_nil] at h; simp at h
  | cons c0 cs =>
    by_cases hq : c0 = '"'
    · subst hq
      rw [protectRun_quote] at h
      simp only [List.cons.injEq] at h
      exact Or.inl h.1.symm
    · cases hn : (c0 = '-' || c0.isDigit) with
      | true =>
        rw [protectRun_num idx c0 cs hq hn] at h
        split at h
        · simp only [List.cons.injEq] at h
          exact Or.inl h.1.symm
        · obtain ⟨t1, ht1⟩ := grabNumber_fst_head c0 cs hn
          rw [ht1, List.cons_append] at h
          simp only [List.cons.injEq] at h
          exact Or.inr ⟨cs, by rw [h.1.symm]⟩
      | false =>
        rw [protectRun_copy idx c0 cs hq hn] at h
        simp only [List.cons.injEq] at h
        exact Or.inr ⟨cs, by rw [h.1.symm]⟩

/-- Helper: a delimiter reached after whitespace means the remainder is
delimiter-headed. -/
theorem delimHead_of_skipWs (r : List Char) (c : Char) (t : List Char)
    (h : skipWsJ r = c :: t) (hc : isDelimChar c = true) :
    delimHeadB r = true := by
  cases r with
  | nil => simp [skipWsJ] at h
  | cons c0 cs =>
    rw [skipWsJ.eq_def] at h
    dsimp only at h
    split at h
    · rename_i hw
      simp [delimHeadB, isDelimChar, hw]
    · rename_i hw
      simp only [List.cons.injEq] at h
      rw [delimHeadB]
      rw [h.1]
      exact hc

/-- Helper: a successful array-tail parse starts at a delimiter. -/
theorem parseElemsRest_delimHead {ν : Type} (mkNum : List Char → Bool → Option ν)
    (f : ℕ) (r : List Char) (x : List (JsonVal ν) × List Char)
    (h : parseElemsRest mkNum f r = some x) : delimHeadB r = true := by
  cases f with
  | zero => simp [parseElemsRest] at h
  | succ f =>
    rw [parseElemsRest.eq_def] at h
    dsimp only at h
    split at h
    · rename_i r0 heqsw
      exact delimHead_of_skipWs r ']' r0 heqsw (by decide)
    · rename_i r0 heqsw
      exact delimHead_of_skipWs r ',' r0 heqsw (by decide)
    · exact absurd h (by simp)

/-- Helper: a successful object-tail parse starts at a delimiter. -/
theorem parseMembersRest_delimHead {ν : Type} (mkNum : List Char → Bool → Option ν)
    (f : ℕ) (r : List Char) (x : List (String × JsonVal ν) × List Char)
    (h : parseMembersRest mkNum f r = some x) : delimHeadB r = true := by
  cases f with
  | zero => simp [parseMembersRest] at h
  | succ f =>
    rw [parseMembersRest.eq_def] at h
    dsimp only at h
    split at h
    · rename_i r0 heqsw
      exact delimHead_of_skipWs r '}' r0 heqsw (by decide)
    · rename_i r0 heqsw
      exact delimHead_of_skipWs r ',' r0 heqsw (by decide)
    · exact absurd h (by simp)

/-- The protection/parse simulation: if the tagged parser reads a value
from the original text, the plain parser reads the placeholder image of
that value from the protected text, leaving the protected remainder, and
the protection records exactly the float-map entries of the value
followed by those of the remainder. -/
theorem protect_sim : ∀ f : ℕ,
    (∀ s idx tv rest, parseValue mkNumTagged f s = some (tv, rest) →
      delimHeadB rest = true →
      parseValue mkNumPlain f (protectRun idx s).1 =
        some (placeholderize idx tv,
          (protectRun (idx + (floatTokens tv).length) rest).1) ∧
      (protectRun idx s).2 =
        phPairsTokens idx (floatTokens tv) ++
          (protectRun (idx + (floatTokens tv).length) rest).2) ∧
    (∀ s idx tv rest, parseElems0 mkNumTagged f s = some (tv, rest) →
      delimHeadB rest = true →
      parseElems0 mkNumPlain f (protectRun idx s).1 =
        some (placeholderize idx tv,
          (protectRun (idx + (floatTokens tv).length) rest).1) ∧
      (protectRun idx s).2 =
        phPairsTokens idx (floatTokens tv) ++
          (protectRun (idx + (floatTokens tv).length) rest).2) ∧
    (∀ s idx vs rest, parseElemsRest mkNumTagged f s = some (vs, rest) →
      delimHeadB rest = true →
      parseElemsRest mkNumPlain f (protectRun idx s).1 =
        some (placeholderizeList idx vs,
          (protectRun (idx + (floatTokensList vs).length) rest).1) ∧
      (protectRun idx s).2 =
        phPairsTokens idx (floatTokensList vs) ++
          (protectRun (idx + (floatTokensList vs).length) rest).2) ∧
    (∀ s idx tv rest, parseMembers0 mkNumTagged f s = some (tv, rest) →
      delimHeadB rest = true →
      parseMembers0 mkNumPlain f (protectRun idx s).1 =
        some (placeholderize idx tv,
          (protectRun (idx + (floatTokens tv).length) rest).1) ∧
      (protectRun idx s).2 =
        phPairsTokens idx (floatTokens tv) ++
          (protectRun (idx + (floatTokens tv).length) rest).2) ∧
    (∀ s idx kv rest, parseMember mkNumTagged f s = some (kv, rest) →
      delimHeadB rest = true →
      parseMember mkNumPlain f (protectRun idx s).1 =
        some ((kv.1, placeholderize idx kv.2),
          (protectRun (idx + (floatTokens kv.2).length) rest).1) ∧
      (protectRun idx s).2 =
        phPairsTokens idx (floatTokens kv.2) ++
          (protectRun (idx + (floatTokens kv.2).length) rest).2) ∧
    (∀ s idx kvs rest, parseMembersRest mkNumTagged f s = some (kvs, rest) →
      delimHeadB rest = true →
      parseMembersRest mkNumPlain f (protectRun idx s).1 =
        some (placeholderizePairs idx kvs,
          (protectRun (idx + (floatTokensPairs kvs).length) rest).1) ∧
      (protectRun idx s).2 =
        phPairsTokens idx (floatTokensPairs kvs) ++
          (protectRun (idx + (floatTokensPairs kvs).length) rest).2) := by
  intro f
  induction f with
  | zero =>
    refine ⟨?_, ?_, ?_, ?_, ?_, ?_⟩ <;> intro s idx a rest h hdl <;>
      simp [parseValue, parseElems0, parseElemsRest, parseMembers0,
        parseMember, parseMembersRest] at h
  | succ f ih =>
    obtain ⟨ihv, ihe0, iher, ihm0, ihm, ihmr⟩ := ih
    refine ⟨?_, ?_, ?_, ?_, ?_, ?_⟩
    · -- parseValue
      intro s idx tv rest h hdl
      rw [parseValue.eq_def] at h
      dsimp only at h
      obtain ⟨hws1, hws2⟩ := protectRun_skipWs idx s
      rw [parseValue.eq_def]
      dsimp only
      rw [← hws1]
      split at h
      · exact absurd h (by simp)
      · rename_i c rest1 heqsw
        rw [heqsw]
        split at h
        · -- '{'
          rename_i hc
          subst hc
          rw [protectRun_copy idx '{' rest1 (by decide) (by decide)]
          obtain ⟨ih1, ih2⟩ := ihm0 rest1 idx tv rest h hdl
          refine ⟨ih1, ?_⟩
          rw [← hws2, heqsw, protectRun_copy idx '{' rest1 (by decide) (by decide)]
          exact ih2
        · rename_i hc1
          split at h
          · -- '['
            rename_i hc
            subst hc
            rw [protectRun_copy idx '[' rest1 (by decide) (by decide)]
            obtain ⟨ih1, ih2⟩ := ihe0 rest1 idx tv rest h hdl
            refine ⟨ih1, ?_⟩
            rw [← hws2, heqsw, protectRun_copy idx '[' rest1 (by decide) (by decide)]
            exact ih2
          · rename_i hc2
            split at h
            · -- '"'
              rename_i hc
              subst hc
              split at h
              · rename_i raw r2 heqlex
                simp only [Option.some.injEq, Prod.mk.injEq] at h
                obtain ⟨rfl, rfl⟩ := h
                rw [protectRun_quote idx rest1,
                  skipStringSeg_of_lex rest1 raw r2 heqlex]
                dsimp only
                constructor
                · have hre := lexStringBody_refeed rest1 raw r2 heqlex
                    (protectRun idx r2).1
                  rw [show (raw ++ ['"']) ++ (protectRun idx r2).1 =
                    raw ++ '"' :: (protectRun idx r2).1 by
                      rw [List.append_assoc]; rfl]
                  simp only [hre]
                  simp [placeholderize, floatTokens]
                · rw [← hws2, heqsw, protectRun_quote idx rest1,
                    skipStringSeg_of_lex rest1 raw r2 heqlex]
                  simp [floatTokens, phPairsTokens]
              · exact absurd h (by simp)
            · rename_i hc3
              split at h
              · -- 't'
                rename_i hc
                subst hc
                split at h
                · rename_i r2
                  simp only [Option.some.injEq, Prod.mk.injEq] at h
                  obtain ⟨rfl, rfl⟩ := h
                  rw [protectRun_copy idx 't' _ (by decide) (by decide),
                    protectRun_copy idx 'r' _ (by decide) (by decide),
                    protectRun_copy idx 'u' _ (by decide) (by decide),
                    protectRun_copy idx 'e' _ (by decide) (by decide)]
                  constructor
                  · simp [placeholderize, floatTokens]
                  · rw [← hws2, heqsw,
                      protectRun_copy idx 't' _ (by decide) (by decide),
                      protectRun_copy idx 'r' _ (by decide) (by decide),
                      protectRun_copy idx 'u' _ (by decide) (by decide),
                      protectRun_copy idx 'e' _ (by decide) (by decide)]
                    simp [floatTokens, phPairsTokens]
                · exact absurd h (by simp)
              · rename_i hc4
                split at h
                · -- 'f'
                  rename_i hc
                  subst hc
                  split at h
                  · rename_i r2
                    simp only [Option.some.injEq, Prod.mk.injEq] at h
                    obtain ⟨rfl, rfl⟩ := h
                    rw [protectRun_copy idx 'f' _ (by decide) (by decide),
                      protectRun_copy idx 'a' _ (by decide) (by decide),
                      protectRun_copy idx 'l' _ (by decide) (by decide),
                      protectRun_copy idx 's' _ (by decide) (by decide),
                      protectRun_copy idx 'e' _ (by decide) (by decide)]
                    constructor
                    · simp [placeholderize, floatTokens]
                    · rw [← hws2, heqsw,
                        protectRun_copy idx 'f' _ (by decide) (by decide),
                        protectRun_copy idx 'a' _ (by decide) (by decide),
                        protectRun_copy idx 'l' _ (by decide) (by decide),
                        protectRun_copy idx 's' _ (by decide) (by decide),
                        protectRun_copy idx 'e' _ (by decide) (by decide)]
                      simp [floatTokens, phPairsTokens]
                  · exact absurd h (by simp)
                · rename_i hc5
                  split at h
                  · -- 'n'
                    rename_i hc
                    subst hc
                    split at h
                    · rename_i r2
                      simp only [Option.some.injEq, Prod.mk.injEq] at h
                      obtain ⟨rfl, rfl⟩ := h
                      rw [protectRun_copy idx 'n' _ (by decide) (by decide),
                        protectRun_copy idx 'u' _ (by decide) (by decide),
                        protectRun_copy idx 'l' _ (by decide) (by decide),
                        protectRun_copy idx 'l' _ (by decide) (by decide)]
                      constructor
                      · simp [placeholderize, floatTokens]
                      · rw [← hws2, heqsw,
                          protectRun_copy idx 'n' _ (by decide) (by decide),
                          protectRun_copy idx 'u' _ (by decide) (by decide),
                          protectRun_copy idx 'l' _ (by decide) (by decide),
                          protectRun_copy idx 'l' _ (by decide) (by decide)]
                        simp [floatTokens, phPairsTokens]
                    · exact absurd h (by simp)
                  · rename_i hc6
                    split at h
                    · -- number
                      rename_i hnum
                      split at h
                      · rename_i hanydig
                        split at h
                        · rename_i v0 heqmk
                          simp only [Option.some.injEq, Prod.mk.injEq] at h
                          obtain ⟨rfl, rfl⟩ := h
                          have hout : delimHeadB
                              (protectRun idx (grabNumber (c :: rest1)).2).1 = true :=
                            protectRun_delimHead idx _ hdl
                          have hout1 : delimHeadB
                              (protectRun (idx + 1) (grabNumber (c :: rest1)).2).1 = true :=
                            protectRun_delimHead (idx + 1) _ hdl
                          rw [protectRun_num idx c rest1 hc3 hnum]
                          by_cases hisf : isFloatTok (grabNumber (c :: rest1)).1 = true
                          · -- float token: placeholder string
                            have hv0 : v0 = TNum.float (String.mk (grabNumber (c :: rest1)).1) := by
                              rw [mkNumTagged, hisf] at heqmk
                              simp at heqmk
                              exact heqmk.symm
                            subst hv0
                            rw [if_pos (by simp [hisf, hanydig])]
                            have hphc := placeholderCore_chars idx
                            constructor
                            · have hclean := lexStringBody_clean (placeholderCore idx).data
                                (fun ch hch => (hphc ch hch)) 
                                (protectRun (idx + 1) (grabNumber (c :: rest1)).2).1
                              simp only [hclean]
                              have hcook : cookEscapes (placeholderCore idx).data =
                                  (placeholderCore idx).data :=
                                cookEscapes_clean _ (fun ch hch => (hphc ch hch).2)
                              simp [hcook, placeholderize, floatTokens]
                            · rw [← hws2, heqsw, protectRun_num idx c rest1 hc3 hnum,
                                if_pos (by simp [hisf, hanydig])]
                              simp [floatTokens, phPairsTokens]
                          · -- integer token: copied verbatim
                            have hv0 : v0 = TNum.plain (ratOfNumToken (grabNumber (c :: rest1)).1) := by
                              rw [mkNumTagged] at heqmk
                              rw [Bool.not_eq_true] at hisf
                              rw [hisf] at heqmk
                              simp at heqmk
                              exact heqmk.symm
                            subst hv0
                            rw [if_neg (by simp [hisf])]
                            obtain ⟨t1, ht1⟩ := grabNumber_fst_head c rest1 hnum
                            have hrefeed := grabNumber_refeed (c :: rest1)
                              (protectRun idx (grabNumber (c :: rest1)).2).1 hout
                            constructor
                            · rw [ht1, List.cons_append]
                              dsimp only
                              rw [if_neg hc1, if_neg hc2, if_neg hc3, if_neg hc4,
                                if_neg hc5, if_neg hc6]
                              rw [← List.cons_append, ← ht1, if_pos hnum, hrefeed]
                              dsimp only
                              rw [if_pos hanydig]
                              simp [mkNumPlain, placeholderize, floatTokens]
                            · rw [← hws2, heqsw, protectRun_num idx c rest1 hc3 hnum,
                                if_neg (by simp [hisf])]
                              simp [floatTokens, phPairsTokens]
                        · exact absurd h (by simp)
                      · exact absurd h (by simp)
                    · exact absurd h (by simp)
    · -- parseElems0
      intro s idx tv rest h hdl
      rw [parseElems0.eq_def] at h
      dsimp only at h
      obtain ⟨hws1, hws2⟩ := protectRun_skipWs idx s
      rw [parseElems0.eq_def]
      dsimp only
      rw [← hws1]
      split at h
      · rename_i r0 heqsw
        simp only [Option.some.injEq, Prod.mk.injEq] at h
        obtain ⟨rfl, rfl⟩ := h
        rw [heqsw, protectRun_copy idx ']' r0 (by decide) (by decide)]
        constructor
        · simp [placeholderize, placeholderizeList, floatTokens, floatTokensList]
        · rw [← hws2, heqsw, protectRun_copy idx ']' r0 (by decide) (by decide)]
          simp [floatTokens, floatTokensList, phPairsTokens]
      · rename_i hne
        split at h
        · rename_i v r1 heqv
          split at h
          · rename_i vs r2 heqr
            simp only [Option.some.injEq, Prod.mk.injEq] at h
            obtain ⟨rfl, rfl⟩ := h
            have hdl1 : delimHeadB r1 = true :=
              parseElemsRest_delimHead mkNumTagged f r1 _ heqr
            obtain ⟨ihv1, ihv2⟩ := ihv (skipWsJ s) idx v r1 heqv hdl1
            obtain ⟨ihr1, ihr2⟩ := iher r1 (idx + (floatTokens v).length) vs _ heqr hdl
            constructor
            · split
              · rename_i rP heqP
                exfalso
                rcases protect_head idx (skipWsJ s) ']' rP heqP with hq | ⟨t0, ht0⟩
                · exact absurd hq (by decide)
                · exact hne t0 ht0
              · rw [ihv1]
                dsimp only
                rw [ihr1]
                simp [placeholderize, placeholderizeList, floatTokens,
                  floatTokensList, List.length_append, Nat.add_assoc]
            · rw [← hws2, ihv2, ihr2]
              simp [floatTokens, floatTokensList, phPairsTokens_append,
                List.append_assoc, List.length_append, Nat.add_assoc]
          · exact absurd h (by simp)
        · exact absurd h (by simp)
    · -- parseElemsRest
      intro s idx vs rest h hdl
      rw [parseElemsRest.eq_def] at h
      dsimp only at h
      obtain ⟨hws1, hws2⟩ := protectRun_skipWs idx s
      rw [parseElemsRest.eq_def]
      dsimp only
      rw [← hws1]
      split at h
      · rename_i r0 heqsw
        simp only [Option.some.injEq, Prod.mk.injEq] at h
        obtain ⟨rfl, rfl⟩ := h
        rw [heqsw, protectRun_copy idx ']' r0 (by decide) (by decide)]
        constructor
        · simp [placeholderizeList, floatTokensList]
        · rw [← hws2, heqsw, protectRun_copy idx ']' r0 (by decide) (by decide)]
          simp [floatTokensList, phPairsTokens]
      · rename_i r0 heqsw
        split at h
        · rename_i v r1 heqv
          split at h
          · rename_i vs2 r2 heqr
            simp only [Option.some.injEq, Prod.mk.injEq] at h
            obtain ⟨rfl, rfl⟩ := h
            have hdl1 : delimHeadB r1 = true :=
              parseElemsRest_delimHead mkNumTagged f r1 _ heqr
            obtain ⟨ihv1, ihv2⟩ := ihv r0 idx v r1 heqv hdl1
            obtain ⟨ihr1, ihr2⟩ := iher r1 (idx + (floatTokens v).length) vs2 _ heqr hdl
            rw [heqsw, protectRun_copy idx ',' r0 (by decide) (by decide)]
            constructor
            · simp [ihv1, ihr1, placeholderizeList, floatTokensList,
                List.length_append, Nat.add_assoc]
            · rw [← hws2, heqsw, protectRun_copy idx ',' r0 (by decide) (by decide)]
              dsimp only
              rw [ihv2, ihr2]
              simp [floatTokensList, phPairsTokens_append, List.append_assoc,
                List.length_append, Nat.add_assoc]
          · exact absurd h (by simp)
        · exact absurd h (by simp)
      · exact absurd h (by simp)
    · -- parseMembers0
      intro s idx tv rest h hdl
      rw [parseMembers0.eq_def] at h
      dsimp only at h
      obtain ⟨hws1, hws2⟩ := protectRun_skipWs idx s
      rw [parseMembers0.eq_def]
      dsimp only
      rw [← hws1]
      split at h
      · rename_i r0 heqsw
        simp only [Option.some.injEq, Prod.mk.injEq] at h
        obtain ⟨rfl, rfl⟩ := h
        rw [heqsw, protectRun_copy idx '}' r0 (by decide) (by decide)]
        constructor
        · simp [placeholderize, placeholderizePairs, floatTokens, floatTokensPairs]
        · rw [← hws2, heqsw, protectRun_copy idx '}' r0 (by decide) (by decide)]
          simp [floatTokens, floatTokensPairs, phPairsTokens]
      · rename_i hne
        split at h
        · rename_i kv0 r1 heqm
          split at h
          · rename_i kvs r2 heqr
            simp only [Option.some.injEq, Prod.mk.injEq] at h
            obtain ⟨rfl, rfl⟩ := h
            obtain ⟨k0, v0⟩ := kv0
            have hdl1 : delimHeadB r1 = true :=
              parseMembersRest_delimHead mkNumTagged f r1 _ heqr
            obtain ⟨ihm1, ihm2⟩ := ihm (skipWsJ s) idx (k0, v0) r1 heqm hdl1
            obtain ⟨ihr1, ihr2⟩ := ihmr r1 (idx + (floatTokens v0).length) kvs _ heqr hdl
            constructor
            · split
              · rename_i rP heqP
                exfalso
                rcases protect_head idx (skipWsJ s) '}' rP heqP with hq | ⟨t0, ht0⟩
                · exact absurd hq (by decide)
                · exact hne t0 ht0
              · rw [ihm1]
                dsimp only
                rw [ihr1]
                simp [placeholderize, placeholderizePairs, floatTokens,
                  floatTokensPairs, List.length_append, Nat.add_assoc]
            · rw [← hws2, ihm2]
              dsimp only
              rw [ihr2]
              simp [floatTokens, floatTokensPairs, phPairsTokens_append,
                List.append_assoc, List.length_append, Nat.add_assoc]
          · exact absurd h (by simp)
        · exact absurd h (by simp)
    · -- parseMember
      intro s idx kv rest h hdl
      rw [parseMember.eq_def] at h
      dsimp only at h
      obtain ⟨hws1, hws2⟩ := protectRun_skipWs idx s
      rw [parseMember.eq_def]
      dsimp only
      rw [← hws1]
      split at h
      · rename_i r0 heqsw
        split at h
        · rename_i raw r2 heqlex
          split at h
          · rename_i r3 heqsw2
            split at h
            · rename_i v r4 heqv
              simp only [Option.some.injEq, Prod.mk.injEq] at h
              obtain ⟨rfl, rfl⟩ := h
              obtain ⟨hws1b, hws2b⟩ := protectRun_skipWs idx r2
              obtain ⟨ihv1, ihv2⟩ := ihv r3 idx v _ heqv hdl
              rw [heqsw, protectRun_quote idx r0,
                skipStringSeg_of_lex r0 raw r2 heqlex]
              have hre := lexStringBody_refeed r0 raw r2 heqlex (protectRun idx r2).1
              have hswP : skipWsJ (protectRun idx r2).1 =
                  ':' :: (protectRun idx r3).1 := by
                rw [← hws1b, heqsw2,
                  protectRun_copy idx ':' r3 (by decide) (by decide)]
              constructor
              · rw [List.append_assoc, List.singleton_append]
                simp [hre, hswP, ihv1, floatTokens]
              · rw [← hws2, heqsw, protectRun_quote idx r0,
                  skipStringSeg_of_lex r0 raw r2 heqlex]
                dsimp only
                rw [← hws2b, heqsw2,
                  protectRun_copy idx ':' r3 (by decide) (by decide)]
                dsimp only
                exact ihv2
            · exact absurd h (by simp)
          · exact absurd h (by simp)
        · exact absurd h (by simp)
      · exact absurd h (by simp)
    · -- parseMembersRest
      intro s idx kvs rest h hdl
      rw [parseMembersRest.eq_def] at h
      dsimp only at h
      obtain ⟨hws1, hws2⟩ := protectRun_skipWs idx s
      rw [parseMembersRest.eq_def]
      dsimp only
      rw [← hws1]
      split at h
      · rename_i r0 heqsw
        simp only [Option.some.injEq, Prod.mk.injEq] at h
        obtain ⟨rfl, rfl⟩ := h
        rw [heqsw, protectRun_copy idx '}' r0 (by decide) (by decide)]
        constructor
        · simp [placeholderizePairs, floatTokensPairs]
        · rw [← hws2, heqsw, protectRun_copy idx '}' r0 (by decide) (by decide)]
          simp [floatTokensPairs, phPairsTokens]
      · rename_i r0 heqsw
        split at h
        · rename_i kv0 r1 heqm
          split at h
          · rename_i kvs2 r2 heqr
            simp only [Option.some.injEq, Prod.mk.injEq] at h
            obtain ⟨rfl, rfl⟩ := h
            obtain ⟨k0, v0⟩ := kv0
            have hdl1 : delimHeadB r1 = true :=
              parseMembersRest_delimHead mkNumTagged f r1 _ heqr
            obtain ⟨ihm1, ihm2⟩ := ihm r0 idx (k0, v0) r1 heqm hdl1
            obtain ⟨ihr1, ihr2⟩ := ihmr r1 (idx + (floatTokens v0).length) kvs2 _ heqr hdl
            rw [heqsw, protectRun_copy idx ',' r0 (by decide) (by decide)]
            constructor
            · simp [ihm1, ihr1, placeholderizePairs, floatTokensPairs,
                List.length_append, Nat.add_assoc]
            · rw [← hws2, heqsw, protectRun_copy idx ',' r0 (by decide) (by decide)]
              dsimp only
              rw [ihm2, ihr2]
              simp [floatTokensPairs, phPairsTokens_append, List.append_assoc,
                List.length_append, Nat.add_assoc]
          · exact absurd h (by simp)
        · exact absurd h (by simp)
      · exact absurd h (by simp)

/-- Helper: splitting a float-map guarantee over concatenated token
lists. -/
theorem LookupOK_append (fm : List (String × String)) (idx : ℕ)
    (a b : List String) (h : LookupOK fm idx (a ++ b)) :
    LookupOK fm idx a ∧ LookupOK fm (idx + a.length) b := by
  constructor
  · intro k hk
    have hk2 : k < (a ++ b).length := by
      simp only [List.length_append]
      omega
    have := h k hk2
    rw [this]
    congr 1
    rw [List.get_eq_getElem, List.get_eq_getElem]
    simp only [Fin.val_mk]
    exact List.getElem_append_left hk
  · intro k hk
    have hk2 : a.length + k < (a ++ b).length := by
      simp only [List.length_append]
      omega
    have := h (a.length + k) hk2
    rw [show idx + a.length + k = idx + (a.length + k) by omega, this]
    congr 1
    rw [List.get_eq_getElem, List.get_eq_getElem]
    simp only [Fin.val_mk]
    rw [List.getElem_append_right (by omega)]
    congr 1
    omega

/-- Helper: every float token produced by the tagged parser contains a
digit (the parser requires it). -/
theorem parse_tokens_digit :
    ∀ f : ℕ,
      (∀ s tv rest, parseValue mkNumTagged f s = some (tv, rest) →
        ∀ t ∈ floatTokens tv, t.data.any Char.isDigit = true) ∧
      (∀ s tv rest, parseElems0 mkNumTagged f s = some (tv, rest) →
        ∀ t ∈ floatTokens tv, t.data.any Char.isDigit = true) ∧
      (∀ s vs rest, parseElemsRest mkNumTagged f s = some (vs, rest) →
        ∀ t ∈ floatTokensList vs, t.data.any Char.isDigit = true) ∧
      (∀ s tv rest, parseMembers0 mkNumTagged f s = some (tv, rest) →
        ∀ t ∈ floatTokens tv, t.data.any Char.isDigit = true) ∧
      (∀ s kv rest, parseMember mkNumTagged f s = some (kv, rest) →
        ∀ t ∈ floatTokens kv.2, t.data.any Char.isDigit = true) ∧
      (∀ s kvs rest, parseMembersRest mkNumTagged f s = some (kvs, rest) →
        ∀ t ∈ floatTokensPairs kvs, t.data.any Char.isDigit = true) := by
  intro f
  induction f with
  | zero =>
    refine ⟨?_, ?_, ?_, ?_, ?_, ?_⟩ <;> intro s a rest h <;>
      simp [parseValue, parseElems0, parseElemsRest, parseMembers0,
        parseMember, parseMembersRest] at h
  | succ f ih =>
    obtain ⟨ihv, ihe0, iher, ihm0, ihm, ihmr⟩ := ih
    refine ⟨?_, ?_, ?_, ?_, ?_, ?_⟩
    · -- parseValue
      intro s tv rest h
      rw [parseValue.eq_def] at h
      dsimp only at h
      split at h
      · exact absurd h (by simp)
      · rename_i c rest1 heqsw
        split at h
        · exact ihm0 rest1 tv rest h
        · split at h
          · exact ihe0 rest1 tv rest h
          · split at h
            · split at h
              · rename_i raw r2 heqlex
                simp only [Option.some.injEq, Prod.mk.injEq] at h
                obtain ⟨rfl, rfl⟩ := h
                simp [floatTokens]
              · exact absurd h (by simp)
            · split at h
              · split at h
                · rename_i r2
                  simp only [Option.some.injEq, Prod.mk.injEq] at h
                  obtain ⟨rfl, rfl⟩ := h
                  simp [floatTokens]
                · exact absurd h (by simp)
              · split at h
                · split at h
                  · rename_i r2
                    simp only [Option.some.injEq, Prod.mk.injEq] at h
                    obtain ⟨rfl, rfl⟩ := h
                    simp [floatTokens]
                  · exact absurd h (by simp)
                · split at h
                  · split at h
                    · rename_i r2
                      simp only [Option.some.injEq, Prod.mk.injEq] at h
                      obtain ⟨rfl, rfl⟩ := h
                      simp [floatTokens]
                    · exact absurd h (by simp)
                  · split at h
                    · rename_i hnum
                      split at h
                      · rename_i hanydig
                        split at h
                        · rename_i v0 heqmk
                          simp only [Option.some.injEq, Prod.mk.injEq] at h
                          obtain ⟨rfl, rfl⟩ := h
                          rw [mkNumTagged] at heqmk
                          split at heqmk
                          · simp only [Option.some.injEq] at heqmk
                            subst heqmk
                            intro t ht
                            simp only [floatTokens, List.mem_singleton] at ht
                            subst ht
                            simpa using hanydig
                          · simp only [Option.some.injEq] at heqmk
                            subst heqmk
                            intro t ht
                            simp [floatTokens] at ht
                        · exact absurd h (by simp)
                      · exact absurd h (by simp)
                    · exact absurd h (by simp)
    · -- parseElems0
      intro s tv rest h
      rw [parseElems0.eq_def] at h
      dsimp only at h
      split at h
      · rename_i r0 heqsw
        simp only [Option.some.injEq, Prod.mk.injEq] at h
        obtain ⟨rfl, rfl⟩ := h
        simp [floatTokens, floatTokensList]
      · split at h
        · rename_i v r1 heqv
          split at h
          · rename_i vs r2 heqr
            simp only [Option.some.injEq, Prod.mk.injEq] at h
            obtain ⟨rfl, rfl⟩ := h
            intro t ht
            simp only [floatTokens, floatTokensList, List.mem_append] at ht
            rcases ht with ht | ht
            · exact ihv (skipWsJ s) v r1 heqv t ht
            · exact iher r1 vs _ heqr t ht
          · exact absurd h (by simp)
        · exact absurd h (by simp)
    · -- parseElemsRest
      intro s vs rest h
      rw [parseElemsRest.eq_def] at h
      dsimp only at h
      split at h
      · rename_i r0 heqsw
        simp only [Option.some.injEq, Prod.mk.injEq] at h
        obtain ⟨rfl, rfl⟩ := h
        simp [floatTokensList]
      · rename_i r0 heqsw
        split at h
        · rename_i v r1 heqv
          split at h
          · rename_i vs2 r2 heqr
            simp only [Option.some.injEq, Prod.mk.injEq] at h
            obtain ⟨rfl, rfl⟩ := h
            intro t ht
            simp only [floatTokensList, List.mem_append] at ht
            rcases ht with ht | ht
            · exact ihv r0 v r1 heqv t ht
            · exact iher r1 vs2 _ heqr t ht
          · exact absurd h (by simp)
        · exact absurd h (by simp)
      · exact absurd h (by simp)
    · -- parseMembers0
      intro s tv rest h
      rw [parseMembers0.eq_def] at h
      dsimp only at h
      split at h
      · rename_i r0 heqsw
        simp only [Option.some.injEq, Prod.mk.injEq] at h
        obtain ⟨rfl, rfl⟩ := h
        simp [floatTokens, floatTokensPairs]
      · split at h
        · rename_i kv0 r1 heqm
          split at h
          · rename_i kvs r2 heqr
            simp only [Option.some.injEq, Prod.mk.injEq] at h
            obtain ⟨rfl, rfl⟩ := h
            obtain ⟨k0, v0⟩ := kv0
            intro t ht
            simp only [floatTokens, floatTokensPairs, List.mem_append] at ht
            rcases ht with ht | ht
            · exact ihm (skipWsJ s) (k0, v0) r1 heqm t ht
            · exact ihmr r1 kvs _ heqr t ht
          · exact absurd h (by simp)
        · exact absurd h (by simp)
    · -- parseMember
      intro s kv rest h
      rw [parseMember.eq_def] at h
      dsimp only at h
      split at h
      · rename_i r0 heqsw
        split at h
        · rename_i raw r2 heqlex
          split at h
          · rename_i r3 heqsw2
            split at h
            · rename_i v r4 heqv
              simp only [Option.some.injEq, Prod.mk.injEq] at h
              obtain ⟨rfl, rfl⟩ := h
              exact ihv r3 v _ heqv
            · exact absurd h (by simp)
          · exact absurd h (by simp)
        · exact absurd h (by simp)
      · exact absurd h (by simp)
    · -- parseMembersRest
      intro s kvs rest h
      rw [parseMembersRest.eq_def] at h
      dsimp only at h
      split at h
      · rename_i r0 heqsw
        simp only [Option.some.injEq, Prod.mk.injEq] at h
        obtain ⟨rfl, rfl⟩ := h
        simp [floatTokensPairs]
      · rename_i r0 heqsw
        split at h
        · rename_i kv0 r1 heqm
          split at h
          · rename_i kvs2 r2 heqr
            simp only [Option.some.injEq, Prod.mk.injEq] at h
            obtain ⟨rfl, rfl⟩ := h
            obtain ⟨k0, v0⟩ := kv0
            intro t ht
            simp only [floatTokensPairs, List.mem_append] at ht
            rcases ht with ht | ht
            · exact ihm r0 (k0, v0) r1 heqm t ht
            · exact ihmr r1 kvs2 _ heqr t ht
          · exact absurd h (by simp)
        · exact absurd h (by simp)
      · exact absurd h (by simp)

/-- The restore lemma: on the placeholder image of a tagged value whose
own strings are not placeholder-shaped, `restoreFloatWrappers` with a
float map that resolves the value's placeholders rebuilds exactly the
spec's wrapper mapping. -/
theorem restore_placeholderize :
    ∀ n : ℕ,
      (∀ tv idx fm, jvSize tv ≤ n →
        LookupOK fm idx (floatTokens tv) →
        (∀ s ∈ stringValues tv, placeholderShaped s = false) →
        (∀ t ∈ floatTokens tv, t.data.any Char.isDigit = true) →
        restoreFloatWrappers fm (placeholderize idx tv) = floatsToWrappers tv) ∧
      (∀ xs idx fm, jvSizeList xs ≤ n →
        LookupOK fm idx (floatTokensList xs) →
        (∀ s ∈ stringValuesList xs, placeholderShaped s = false) →
        (∀ t ∈ floatTokensList xs, t.data.any Char.isDigit = true) →
        restoreFloatWrappersList fm (placeholderizeList idx xs) =
          floatsToWrappersList xs) ∧
      (∀ ms idx fm, jvSizePairs ms ≤ n →
        LookupOK fm idx (floatTokensPairs ms) →
        (∀ s ∈ stringValuesPairs ms, placeholderShaped s = false) →
        (∀ t ∈ floatTokensPairs ms, t.data.any Char.isDigit = true) →
        restoreFloatWrappersPairs fm (placeholderizePairs idx ms) =
          floatsToWrappersPairs ms) := by
  intro n
  induction n with
  | zero =>
    refine ⟨?_, ?_, ?_⟩
    · intro tv idx fm hsz
      cases tv <;> simp [jvSize] at hsz
    · intro xs idx fm hsz hlk hstr hdig
      cases xs with
      | nil => rfl
      | cons x xs2 => simp [jvSizeList] at hsz
    · intro ms idx fm hsz hlk hstr hdig
      cases ms with
      | nil => rfl
      | cons kv ms2 =>
        obtain ⟨k, v⟩ := kv
        simp [jvSizePairs] at hsz
  | succ n ih =>
    obtain ⟨ihV, ihL, ihP⟩ := ih
    refine ⟨?_, ?_, ?_⟩
    · intro tv idx fm hsz hlk hstr hdig
      match tv with
      | .null => rfl
      | .boolean b => rfl
      | .num (.plain q) => rfl
      | .num (.float tok) =>
        have h0 := hlk 0 (by simp [floatTokens])
        rw [Nat.add_zero] at h0
        simp only [floatTokens, List.get] at h0
        have hd : tok.data.any Char.isDigit = true :=
          hdig tok (by simp [floatTokens])
        have hne : tok.length ≠ 0 := by
          intro hlen
          have : tok.data.length = 0 := hlen
          rw [List.length_eq_zero] at this
          rw [this] at hd
          simp at hd
        simp only [placeholderize, restoreFloatWrappers, placeholderShaped_core,
          if_true, h0]
        rw [if_pos hne]
        rfl
      | .str s0 =>
        have hs := hstr s0 (by simp [stringValues])
        simp [placeholderize, restoreFloatWrappers, floatsToWrappers, hs]
      | .arr xs =>
        simp only [placeholderize, restoreFloatWrappers, floatsToWrappers]
        have hsz2 : jvSizeList xs ≤ n := by
          simp only [jvSize] at hsz
          omega
        rw [ihL xs idx fm hsz2 hlk hstr hdig]
      | .obj ms =>
        simp only [placeholderize, restoreFloatWrappers, floatsToWrappers]
        have hsz2 : jvSizePairs ms ≤ n := by
          simp only [jvSize] at hsz
          omega
        rw [ihP ms idx fm hsz2 hlk hstr hdig]
    · intro xs idx fm hsz hlk hstr hdig
      match xs with
      | [] => rfl
      | x :: xs2 =>
        obtain ⟨hlk1, hlk2⟩ :=
          LookupOK_append fm idx (floatTokens x) (floatTokensList xs2) hlk
        have hsz1 : jvSize x ≤ n := by
          simp only [jvSizeList] at hsz
          omega
        have hsz2 : jvSizeList xs2 ≤ n := by
          simp only [jvSizeList] at hsz
          omega
        simp only [placeholderizeList, restoreFloatWrappersList,
          floatsToWrappersList]
        rw [ihV x idx fm hsz1 hlk1
          (fun s hs => hstr s (by simp [stringValuesList, hs]))
          (fun t ht => hdig t (by simp [floatTokensList, ht]))]
        rw [ihL xs2 (idx + (floatTokens x).length) fm hsz2 hlk2
          (fun s hs => hstr s (by simp [stringValuesList, hs]))
          (fun t ht => hdig t (by simp [floatTokensList, ht]))]
    · intro ms idx fm hsz hlk hstr hdig
      match ms with
      | [] => rfl
      | (k, v) :: ms2 =>
        obtain ⟨hlk1, hlk2⟩ :=
          LookupOK_append fm idx (floatTokens v) (floatTokensPairs ms2) hlk
        have hsz1 : jvSize v ≤ n := by
          simp only [jvSizePairs] at hsz
          omega
        have hsz2 : jvSizePairs ms2 ≤ n := by
          simp only [jvSizePairs] at hsz
          omega
        simp only [placeholderizePairs, restoreFloatWrappersPairs,
          floatsToWrappersPairs]
        rw [ihV v idx fm hsz1 hlk1
          (fun s hs => hstr s (by simp [stringValuesPairs, hs]))
          (fun t ht => hdig t (by simp [floatTokensPairs, ht]))]
        rw [ihP ms2 (idx + (floatTokens v).length) fm hsz2 hlk2
          (fun s hs => hstr s (by simp [stringValuesPairs, hs]))
          (fun t ht => hdig t (by simp [floatTokensPairs, ht]))]

/-- Helper: a remainder that is all whitespace is delimiter-headed. -/
theorem delimHead_of_ws_only (r : List Char) (h : skipWsJ r = []) :
    delimHeadB r = true := by
  cases r with
  | nil => rfl
  | cons c cs =>
    rw [skipWsJ.eq_def] at h
    dsimp only at h
    split at h
    · rename_i hw
      simp [delimHeadB, isDelimChar, hw]
    · simp at h

/-- C3 counterexample — the placeholder substitution can capture a string
literal that already looks like a placeholder: in
`["__FLOAT_0__", 1.5]` the float `1.5` is protected as `"__FLOAT_0__"`,
so after `JSON.parse` both array entries are the placeholder string and
`restoreFloatWrappers` rewrites both into float wrappers, while the claim
predicts the first entry stays the string `"__FLOAT_0__"`. -/
theorem c3_cx_placeholder_capture :
    jsonParseTagged "[\"__FLOAT_0__\", 1.5]" =
      some (.arr [.str "__FLOAT_0__", .num (.float "1.5")]) ∧
    (protectFloatLiterals "[\"__FLOAT_0__\", 1.5]").1 =
      "[\"__FLOAT_0__\", \"__FLOAT_0__\"]" ∧
    ((jsonParse (protectFloatLiterals "[\"__FLOAT_0__\", 1.5]").1).map
        (restoreFloatWrappers (protectFloatLiterals "[\"__FLOAT_0__\", 1.5]").2)) =
      some (.arr
        [.obj [("__cppFloat", .boolean true),
               ("value", .num (ratOfNumToken "1.5".data)),
               ("original", .str "1.5")],
         .obj [("__cppFloat", .boolean true),
               ("value", .num (ratOfNumToken "1.5".data)),
               ("original", .str "1.5")]]) ∧
    floatsToWrappers (.arr [.str "__FLOAT_0__", .num (.float "1.5")]) =
      .arr [.str "__FLOAT_0__",
            .obj [("__cppFloat", .boolean true),
                  ("value", .num (ratOfNumToken "1.5".data)),
                  ("original", .str "1.5")]] ∧
    (JsonVal.arr
        [.obj [("__cppFloat", .boolean true),
               ("value", .num (ratOfNumToken "1.5".data)),
               ("original", .str "1.5")],
         .obj [("__cppFloat", .boolean true),
               ("value", .num (ratOfNumToken "1.5".data)),
               ("original", .str "1.5")]]) ≠
      .arr [.str "__FLOAT_0__",
            .obj [("__cppFloat", .boolean true),
                  ("value", .num (ratOfNumToken "1.5".data)),
                  ("original", .str "1.5")]] := by
  refine ⟨rfl, rfl, rfl, rfl, ?_⟩
  intro h
  have h2 := congrArg (fun v => match v with
    | JsonVal.arr (x :: _) =>
        (match x with
         | JsonVal.str _ => true
         | _ => false)
    | _ => false) h
  simp at h2

/-- C3 (amended) — the float-protection round trip: if the original text
parses (with float-looking numeric tokens tagged) to a value none of
whose own string values is placeholder-shaped, then `JSON.parse` of the
protected text yields the value with every float token replaced by its
indexed placeholder string, and `restoreFloatWrappers` with the recorded
float map rebuilds exactly the claim's wrapper mapping: floats become
`{__cppFloat: true, value, original}` wrapper objects and everything
else is unchanged.  (The claim's unconditional statement fails when a
string literal is itself placeholder-shaped; see the counterexample.) -/
theorem c3_protect_restore_roundtrip (text : String) (tv : JsonVal TNum)
    (hparse : jsonParseTagged text = some tv)
    (hstr : ∀ s ∈ stringValues tv, placeholderShaped s = false) :
    jsonParse (protectFloatLiterals text).1 = some (placeholderize 0 tv) ∧
    restoreFloatWrappers (protectFloatLiterals text).2 (placeholderize 0 tv) =
      floatsToWrappers tv := by
  rw [jsonParseTagged, parseTextWith] at hparse
  split at hparse
  · rename_i v0 rest heqv
    split at hparse
    · rename_i hwsrest
      simp only [Option.some.injEq] at hparse
      subst hparse
      have hdelim : delimHeadB rest = true := delimHead_of_ws_only rest hwsrest
      have hlen : text.length = text.data.length := rfl
      -- move the tagged parse to a fuel above both thresholds
      have hTI1 := (parse_fuel mkNumTagged (2 * text.length + 2)
        (2 * text.length + 2 * (protectRun 0 text.data).1.length + 4)).1
        text.data (by rw [hlen]; omega) (by rw [hlen]; omega)
      rw [hTI1] at heqv
      obtain ⟨hplain, hpairs⟩ :=
        (protect_sim (2 * text.length + 2 * (protectRun 0 text.data).1.length + 4)).1
          text.data 0 v0 rest heqv hdelim
      -- the protected remainder is all whitespace and records no pairs
      obtain ⟨hwr1, hwr2⟩ := protectRun_skipWs (0 + (floatTokens v0).length) rest
      rw [hwsrest, protectRun_nil] at hwr1 hwr2
      constructor
      · rw [jsonParse, parseTextWith]
        have hdataP : (protectFloatLiterals text).1.data =
            (protectRun 0 text.data).1 := rfl
        have hlenP : (protectFloatLiterals text).1.length =
            (protectRun 0 text.data).1.length := rfl
        have key : parseValue mkNumPlain
            (2 * (protectFloatLiterals text).1.length + 2)
            (protectFloatLiterals text).1.data =
            some (placeholderize 0 v0,
              (protectRun (0 + (floatTokens v0).length) rest).1) := by
          have hTI2 := (parse_fuel mkNumPlain
            (2 * (protectFloatLiterals text).1.length + 2)
            (2 * text.length + 2 * (protectRun 0 text.data).1.length + 4)).1
            (protectFloatLiterals text).1.data
            (by rw [hdataP, hlenP]; omega) (by rw [hdataP]; omega)
          rw [hTI2, hdataP]
          exact hplain
        rw [key]
        dsimp only
        rw [if_pos hwr1.symm]
      · have hfm : (protectFloatLiterals text).2 =
            phPairsTokens 0 (floatTokens v0) := by
          have h1 : (protectFloatLiterals text).2 = (protectRun 0 text.data).2 := rfl
          rw [h1, hpairs, ← hwr2]
          simp
        have hlk : LookupOK (protectFloatLiterals text).2 0 (floatTokens v0) := by
          intro k hk
          rw [hfm]
          exact lookup_phPairsTokens (floatTokens v0) 0 k hk
        have hdig : ∀ t ∈ floatTokens v0, t.data.any Char.isDigit = true :=
          (parse_tokens_digit
            (2 * text.length + 2 * (protectRun 0 text.data).1.length + 4)).1
            text.data v0 rest heqv
        exact (restore_placeholderize (jvSize v0)).1 v0 0
          (protectFloatLiterals text).2 le_rfl hlk hstr hdig
    · exact absurd hparse (by simp)
  · exact absurd hparse (by simp)
/-- Witness: the round-trip theorem applied to `["x", 1.5]` — the text
parses, its only string value `"x"` is not placeholder-shaped, and the
round-trip conclusion follows. -/
theorem c3_protect_restore_roundtrip_witness :
    jsonParseTagged "[\"x\", 1.5]" =
      some (.arr [.str "x", .num (.float "1.5")]) ∧
    (∀ s ∈ stringValues (JsonVal.arr [.str "x", .num (.float "1.5")]),
      placeholderShaped s = false) ∧
    (jsonParse (protectFloatLiterals "[\"x\", 1.5]").1 =
      some (placeholderize 0 (.arr [.str "x", .num (.float "1.5")])) ∧
    restoreFloatWrappers (protectFloatLiterals "[\"x\", 1.5]").2
        (placeholderize 0 (.arr [.str "x", .num (.float "1.5")])) =
      floatsToWrappers (.arr [.str "x", .num (.float "1.5")])) :=
  ⟨rfl, by decide,
    c3_protect_restore_roundtrip "[\"x\", 1.5]"
      (.arr [.str "x", .num (.float "1.5")]) rfl (by decide)⟩

/-- C4 counterexample — the claim's classification set wrongly contains
`]`: in `x[0](1)` the `(` at position 4 is outside any string and its
nearest preceding non-whitespace character is `]`, so the claim predicts
it is kept as a call parenthesis, but the source class
`/[a-zA-Z0-9_\)]/` rejects `]` and the function rewrites the input to
`x[0][1]`. -/
theorem c4_cx_bracket_not_call_context :
    convertPythonTuplesToArrays "x[0](1)" = "x[0][1]" ∧
    ("x[0](1)".data.get ⟨4, by decide⟩ = '(') ∧
    (tupStateAfter ("x[0](1)".data.take 4)).inString = false ∧
    lastNonWsBefore ("x[0](1)".data.take 4) = some ']' ∧
    claimCallPrevChar ']' = true ∧
    isCallPrevChar ']' = false ∧
    "x[0][1]" ≠ "x[0](1)" := by
  refine ⟨rfl, rfl, by decide, rfl, by decide, by decide, by decide⟩

/-- C4 amended — each `(` scanned outside a quoted string is kept as `(`
exactly when the nearest preceding non-whitespace character of the
original string matches `[a-zA-Z0-9_)]` (an identifier character or `)`
— not `]`), and is rewritten to `[` otherwise; a `)` scanned outside a
string closes as `)` exactly when the top of the bracket stack is a call
parenthesis, and as `]` otherwise. -/
theorem c4_paren_classification :
    (∀ (s : List Char) (i : ℕ) (h : i < s.length),
      (tupStateAfter (s.take i)).inString = false →
      s.get ⟨i, h⟩ = '(' →
      tupRun tupInit s =
        tupRun tupInit (s.take i) ++
          ((if callParenOpt (lastNonWsBefore (s.take i)) then ['('] else ['[']) ++
            tupRun (tupStep (tupStateAfter (s.take i)) '(').1 (s.drop (i + 1)))) ∧
    (∀ st : TupState, st.inString = false →
      (tupStep st ')').2 =
        (if st.stack.head? = some PKind.func then [')'] else [']'])) := by
  constructor
  · intro s i h hstr hc
    have hs1 : s.take i ++ s.drop i = s := List.take_append_drop i s
    have hs2 : s.drop i = s.get ⟨i, h⟩ :: s.drop (i + 1) := by
      rw [List.get_eq_getElem]
      exact List.drop_eq_getElem_cons h
    conv_lhs => rw [← hs1, hs2, hc]
    rw [tupRun_append]
    congr 1
    show tupRun (tupStateAfter (s.take i)) ('(' :: s.drop (i + 1)) = _
    rw [tupRun]
    congr 1
    rw [tupStep_open_paren _ hstr]
    have hcall : callParen (tupStateAfter (s.take i)) =
        callParenOpt (lastNonWsBefore (s.take i)) := by
      rw [callParen, tupStateAfter_lastNonWs]
    rw [hcall]
  · exact tupStep_close_paren

/-- C4 witness — the amended theorem applied at `foo(1)` (whose `(` at
position 3 follows the identifier character `o` and is kept) and at a
state whose stack top is a tuple parenthesis (whose `)` closes as `]`). -/
theorem c4_paren_classification_witness :
    tupRun tupInit "foo(1)".data =
      tupRun tupInit ("foo(1)".data.take 3) ++
        ((if callParenOpt (lastNonWsBefore ("foo(1)".data.take 3)) then ['(']
          else ['[']) ++
          tupRun (tupStep (tupStateAfter ("foo(1)".data.take 3)) '(').1
            ("foo(1)".data.drop 4)) ∧
    (tupStep { tupInit with stack := [PKind.tuple] } ')').2 = [']'] := by
  constructor
  · exact c4_paren_classification.1 "foo(1)".data 3 (by decide) (by decide) rfl
  · rw [c4_paren_classification.2 { tupInit with stack := [PKind.tuple] } rfl]
    rfl

/-- C9 — the registry's Python generator singleton is observably stateful:
a call whose argument rendering throws (a BigInt inside an array) leaves
`nestingLevel` at 1, and an identical later call then renders a top-level
array as a Python tuple (`f((1, 2))`) instead of a list (`f([1, 2])`),
so `generateTestRunner` is not a pure function of its inputs. -/
theorem c9_python_nesting_level_leak :
    (pyCallToNative "f" [.arr [.bigint 1]] 0).1 =
      .error "Unsupported value type: bigint" ∧
    (pyCallToNative "f" [.arr [.bigint 1]] 0).2 = 1 ∧
    (pyCallToNative "f" [.arr [.num (.finite 1), .num (.finite 2)]] 0).1 =
      .ok "f([1, 2])" ∧
    (pyCallToNative "f" [.arr [.num (.finite 1), .num (.finite 2)]]
        (pyCallToNative "f" [.arr [.bigint 1]] 0).2).1 =
      .ok "f((1, 2))" := by
  refine ⟨rfl, rfl, rfl, rfl⟩

end Piston
